import Mathlib

/-! # Portfolio runtime: triggers, re-pricing, balance updates and the manager

A shallow embedding of `domain/portfolio` (`portfolio.go`, `storage.go`,
`cost_reached_limit.go`, `cost_changed_by_percent.go`, `trigger.go`, `currency.go`,
`errors.go`, `manager.go`), of the event consumer of `api/mq` and of the request
validation of `api/rest`.

Conventions of the embedding:

* Go pointers to mutable structs become explicit state passing: a method that
  mutates its receiver returns the new receiver next to its result.
* A Go `map` is an association list with the usual read / write / delete
  operations; iteration order of a Go map is unspecified, the order of the list
  stands for whichever order the runtime picks.
* The relational store and the publisher are interfaces in the source; they are
  modelled by the list of calls they accepted together with a failure oracle.
* `price` may fail to terminate on an inconsistent catalog, so it carries a fuel
  argument and returns `none` when the fuel runs out.
-/

namespace portfolio

/-! ## External types -/

/-- Modelled from the spec: the decimal number type of the external exchange-adapter
library (`gateways/decimal`, not part of this repository) is taken as exact rational
arithmetic, as the spec's formulas read it. `Decimal{}` is `0`, `MulFloat(100)` is
multiplication by `100`; division is only meaningful for a non-zero divisor. -/
abbrev Decimal := ℚ

/-- `core.Amount` is the adapter library's alias of the decimal type. -/
abbrev Amount := Decimal

/-- `uuid.UUID`, represented by its canonical text form (what `String()` returns). -/
structure UUID where
  text : String
deriving DecidableEq, Repr

/-- `uuid.UUID.String`. -/
def UUID.String (u : UUID) : String := u.text

/-- Go `string`, for use where a method named `String` is in scope. -/
abbrev GoString := String

/-- `core.Currency`: an exchange currency code, a string type in the adapter library. -/
abbrev CoreCurrency := String

/-- Go `error` values: sentinels (`errors.New` values and the errors of the collaborators),
values of type `domain.Error`, and `errors.Wrap`/`errors.Wrapf` around a cause. -/
inductive Error where
  | sentinel (name : String)
  | domain (text : String)
  | wrap (cause : Error) (message : String)
deriving DecidableEq, Repr

/-- `errors.Is(err, target)` for a sentinel target: looks through every wrapping. -/
def Error.Is : Error → String → Bool
  | .sentinel n, target => n == target
  | .domain _, _ => false
  | .wrap cause _, target => cause.Is target

/-- `errors.Is(err, target)` for any target that is not itself a wrapping: some error
of the chain equals the target. -/
def Error.Has : Error → Error → Bool
  | .sentinel n, target => decide (Error.sentinel n = target)
  | .domain d, target => decide (Error.domain d = target)
  | .wrap cause _, target => cause.Has target

/-- `errors.As(err, new(domain.Error))`: some error of the chain is a `domain.Error`. -/
def Error.AsDomain : Error → Bool
  | .sentinel _ => false
  | .domain _ => true
  | .wrap cause _ => cause.AsDomain

/-- `redis.Nil`: the key-value store has no value under the key. -/
def redisNil : String := "redis: nil"

/-! ## currency.go, trigger_type.go -/

/-- `Currency`: the reference currencies (`USDT = iota + 1`, `BTC`). -/
inductive Currency where
  | USDT
  | BTC
deriving DecidableEq, Repr

/-- `Currency.String`. -/
def Currency.String : Currency → String
  | .USDT => "USDT"
  | .BTC => "BTC"

/-- `TriggerType` (`CRL = iota + 1`, `CCBP`). -/
inductive TriggerType where
  | CRL
  | CCBP
deriving DecidableEq, Repr

/-- `TriggerType.String`. -/
def TriggerType.String : TriggerType → String
  | .CRL => "COST_REACHED_LIMIT"
  | .CCBP => "COST_CHANGED_BY_PERCENT"

/-! ## Go maps as association lists -/

/-- `m[k]` with the comma-ok form: the value stored under `k`, if any. -/
def mapGet? {κ ν : Type} [DecidableEq κ] : List (κ × ν) → κ → Option ν
  | [], _ => none
  | (k, v) :: rest, key => if k = key then some v else mapGet? rest key

/-- `m[k] = v`: overwrite the entry of `k`, or add one. -/
def mapSet {κ ν : Type} [DecidableEq κ] : List (κ × ν) → κ → ν → List (κ × ν)
  | [], key, val => [(key, val)]
  | (k, v) :: rest, key, val =>
    if k = key then (k, val) :: rest else (k, v) :: mapSet rest key val

/-- Writing through a pointer held in the map: the value under `k` is replaced where the
key is present, and nothing is added where it is not. -/
def mapModify {κ ν : Type} [DecidableEq κ] : List (κ × ν) → κ → ν → List (κ × ν)
  | [], _, _ => []
  | (k, v) :: rest, key, val =>
    if k = key then (k, val) :: rest else (k, v) :: mapModify rest key val

/-- `delete(m, k)`. -/
def mapDelete {κ ν : Type} [DecidableEq κ] (m : List (κ × ν)) (key : κ) : List (κ × ν) :=
  m.filter (fun e => !decide (e.1 = key))

/-- `ConvertedTo`: `map[Currency]decimal.Decimal`. -/
abbrev ConvertedTo := List (Currency × Decimal)

/-- Reading a `ConvertedTo`: a missing key reads as the zero decimal. -/
def ConvertedTo.get (m : ConvertedTo) (c : Currency) : Decimal :=
  (mapGet? m c).getD 0

/-! ## pg/repo: the relational store facade -/

/-- `repo.PortfolioTriggers_CreateParams`. -/
structure PortfolioTriggers_CreateParams where
  ID : UUID
  PortfolioID : Int
  Type_ : String
  Currency : String
  CreatedAt : Int
  Limit : Option Decimal
  Percent : Option Decimal
  TrailingAlert : Bool
  StartTotalCost : Option Decimal
deriving DecidableEq, Repr

/-- `repo.PortfolioTriggers_UpdateStartTotalCostParams`. -/
structure PortfolioTriggers_UpdateStartTotalCostParams where
  StartTotalCost : Option Decimal
  ID : UUID
deriving DecidableEq, Repr

/-- The write operations of `repo.Querier` with their arguments. -/
inductive Query where
  | PortfolioTriggers_Create (arg : List PortfolioTriggers_CreateParams)
  | PortfolioTriggers_Delete (id : UUID)
  | PortfolioTriggers_DeleteByPortfolioID (portfolioID : Int)
  | PortfolioTriggers_UpdateStartTotalCost (arg : PortfolioTriggers_UpdateStartTotalCostParams)
deriving DecidableEq, Repr

/-- `pg.DB` seen through `Queries`: which calls the store rejects (and with what
error), and the calls it has carried out so far, oldest first. -/
structure DB where
  failure : Query → Option Error
  applied : List Query

/-- One call of a write operation: the error it returns, and the store afterwards. -/
def DB.exec (db : DB) (q : Query) : Option Error × DB :=
  match db.failure q with
  | some e => (some e, db)
  | none => (none, { db with applied := db.applied ++ [q] })

/-! ## storage.go: the hot total of the data holder

`dataHolder` is completed below with its key-value client; the triggers only
read `totalBalance`. -/

/-- `dataHolder.TotalBalance` on the hot total view. -/
def TotalBalance (totalBalance : ConvertedTo) (currency : Currency) : Amount :=
  totalBalance.get currency

/-! ## trigger.go -/

/-- `ExecutionStatus`. -/
structure ExecutionStatus where
  Ok : Bool
  Done : Bool
  CurrentValue : Decimal
deriving DecidableEq, Repr

/-- `TriggerSettings`. -/
structure TriggerSettings where
  ID : UUID
  Type_ : TriggerType
  CreatedAt : Int
  Currency : Currency
  Limit : Option Decimal
  Percent : Option Decimal
  StartTotalCost : Option Decimal
  TrailingAlert : Bool
deriving DecidableEq, Repr

/-! ## cost_reached_limit.go -/

/-- `CostReachedLimit`; the back pointer `portf` is replaced by passing the
portfolio's hot total to `TryExecute`. -/
structure CostReachedLimit where
  id : UUID
  limit : Decimal
  currency : Currency
  createdAt : Int
deriving DecidableEq, Repr

/-- `CostReachedLimit.TryExecute`. -/
def CostReachedLimit.TryExecute (c : CostReachedLimit) (totalBalance : ConvertedTo) :
    Except Error ExecutionStatus :=
  let totalCost := TotalBalance totalBalance c.currency
  let ok := !decide (totalCost < c.limit)
  .ok { Ok := ok, Done := ok, CurrentValue := totalCost }

/-- `CostReachedLimit.Settings`. -/
def CostReachedLimit.Settings (c : CostReachedLimit) : TriggerSettings :=
  { ID := c.id, Currency := c.currency, CreatedAt := c.createdAt, Type_ := .CRL,
    Limit := some c.limit, Percent := none, StartTotalCost := none, TrailingAlert := false }

/-! ## cost_changed_by_percent.go -/

/-- `CostChangedByPercent`. -/
structure CostChangedByPercent where
  trailingAlert : Bool
  id : UUID
  currency : Currency
  startTotalCost : Decimal
  percent : Decimal
  createdAt : Int
deriving DecidableEq, Repr

/-- The deviation `totalCost.Sub(start).Abs().Div(start).MulFloat(100)`. -/
def devPercent (totalCost startTotalCost : Decimal) : Decimal :=
  |totalCost - startTotalCost| / startTotalCost * 100

/-- `CostChangedByPercent.TryExecute`: the result, the trigger afterwards and the store
afterwards. The store call receives `&c.startTotalCost` before the field is
reassigned. -/
def CostChangedByPercent.TryExecute (c : CostChangedByPercent) (totalBalance : ConvertedTo)
    (db : DB) : Except Error ExecutionStatus × CostChangedByPercent × DB :=
  let totalCost := TotalBalance totalBalance c.currency
  let dev := devPercent totalCost c.startTotalCost
  let ok := !decide (dev < c.percent)
  if ok && c.trailingAlert then
    match db.exec (.PortfolioTriggers_UpdateStartTotalCost
        { StartTotalCost := some c.startTotalCost, ID := c.id }) with
    | (some err, db1) =>
      (.error (.wrap err "failed to update start total cost of portfolio trigger"), c, db1)
    | (none, db1) =>
      (.ok { Ok := ok, Done := ok && !c.trailingAlert, CurrentValue := dev },
        { c with startTotalCost := totalCost }, db1)
  else
    (.ok { Ok := ok, Done := ok && !c.trailingAlert, CurrentValue := dev }, c, db)

/-- `CostChangedByPercent.Settings`. -/
def CostChangedByPercent.Settings (c : CostChangedByPercent) : TriggerSettings :=
  { ID := c.id, Currency := c.currency, CreatedAt := c.createdAt,
    TrailingAlert := c.trailingAlert, Type_ := .CCBP, Percent := some c.percent,
    StartTotalCost := some c.startTotalCost, Limit := none }

/-! ## The `Trigger` interface and its two implementations -/

/-- A value of interface type `Trigger`. -/
inductive Trigger where
  | crl (c : CostReachedLimit)
  | ccbp (c : CostChangedByPercent)
deriving DecidableEq, Repr

/-- `Trigger.ID`. -/
def Trigger.ID : Trigger → UUID
  | .crl c => c.id
  | .ccbp c => c.id

/-- `Trigger.Settings`. -/
def Trigger.Settings : Trigger → TriggerSettings
  | .crl c => c.Settings
  | .ccbp c => c.Settings

/-- `Trigger.TryExecute` by dynamic dispatch: result, trigger afterwards, store afterwards. -/
def Trigger.TryExecute (t : Trigger) (totalBalance : ConvertedTo) (db : DB) :
    Except Error ExecutionStatus × Trigger × DB :=
  match t with
  | .crl c => (c.TryExecute totalBalance, .crl c, db)
  | .ccbp c =>
    ((c.TryExecute totalBalance db).1, .ccbp (c.TryExecute totalBalance db).2.1,
      (c.TryExecute totalBalance db).2.2)

/-! ## Collaborators of the portfolio: adapter, key-value cache, publisher -/

/-- `core.Balance`; only `Available` is read. -/
structure Balance where
  Available : Decimal
deriving DecidableEq, Repr

/-- `core.Symbol`. -/
structure Symbol where
  Base : CoreCurrency
  Quote : CoreCurrency
deriving DecidableEq, Repr

/-- `core.Instrument`, reduced to what `Price()` returns. -/
structure Instrument where
  bid : Decimal
  ask : Decimal
deriving DecidableEq, Repr

/-- `Instrument.Price`: `(bid, ask)`. -/
def Instrument.Price (inst : Instrument) : Decimal × Decimal := (inst.bid, inst.ask)

/-- `core.Account`: what `Balances()` returns (a map, in some iteration order), whether
`NotifyBalance` has been called, and whether `Release` has been called. -/
structure Account where
  Balances : Except Error (List (CoreCurrency × Balance))
  notifying : Bool
  released : Bool

/-- `core.Auth`. -/
structure Auth where
  Key : String
  Secret : String
  Passphrase : Option String
deriving DecidableEq, Repr

/-- `core.Gateway`: instrument lookup by symbol text, the symbol catalog, and the account
handle (or the error) that `Account(auth)` gives. -/
structure Gateway where
  Name : String
  Instrument : String → Except Error Instrument
  AllSymbols : List Symbol
  Account : Auth → Except Error Account := fun _ => .error (.sentinel "account unavailable")

/-- The anonymous struct of `Data.Balance`. -/
structure DataBalance where
  Total : ConvertedTo
  Details : List (CoreCurrency × ConvertedTo)
deriving DecidableEq, Repr

/-- `Data`: the re-priced snapshot. -/
structure Data where
  Prices : List (CoreCurrency × ConvertedTo)
  Balance : DataBalance
deriving DecidableEq, Repr

/-- `redis.UniversalClient`: the values it holds (a stored snapshot is kept as the value
its JSON text decodes to) and the failures of its transport on each command. -/
structure RedisClient where
  values : List (String × Data)
  getErr : Option Error
  setErr : Option Error
  delErr : Option Error

/-- `rdb.Get(ctx, key).Scan(&data)`. -/
def RedisClient.Get (rdb : RedisClient) (key : String) : Except Error Data :=
  match rdb.getErr with
  | some e => .error e
  | none =>
    match mapGet? rdb.values key with
    | some d => .ok d
    | none => .error (.sentinel redisNil)

/-- `rdb.Set(ctx, key, data, 0).Err()`. -/
def RedisClient.Set (rdb : RedisClient) (key : String) (data : Data) :
    Option Error × RedisClient :=
  match rdb.setErr with
  | some e => (some e, rdb)
  | none => (none, { rdb with values := mapSet rdb.values key data })

/-- `rdb.Del(ctx, key).Err()`. -/
def RedisClient.Del (rdb : RedisClient) (key : String) : Option Error × RedisClient :=
  match rdb.delErr with
  | some e => (some e, rdb)
  | none => (none, { rdb with values := mapDelete rdb.values key })

/-- `TriggerEvent`. -/
structure TriggerEvent where
  Portfolio : String
  Timestamp : Int
  CurrentValue : Decimal
  TriggerSettings : TriggerSettings
deriving DecidableEq, Repr

/-- A `TriggerEventPublisher` function value: the error it returns for an event, and the
events handed to it so far, oldest first. -/
structure Publisher where
  failure : TriggerEvent → Option Error
  received : List TriggerEvent

/-- Calling the publisher with an event. -/
def Publisher.call (pub : Publisher) (event : TriggerEvent) : Option Error × Publisher :=
  (pub.failure event, { pub with received := pub.received ++ [event] })

/-! ## storage.go -/

/-- `dataHolder`. -/
structure dataHolder where
  rdb : RedisClient
  portfolioName : String
  totalBalance : ConvertedTo

/-- `dataHolder.redisKey`. -/
def dataHolder.redisKey (s : dataHolder) : String := "portfolio:" ++ s.portfolioName

/-- `newDataHolder`. -/
def newDataHolder (portfolioName : String) (rdb : RedisClient) : dataHolder :=
  { portfolioName := portfolioName, totalBalance := [], rdb := rdb }

/-- `dataHolder.Get`. -/
def dataHolder.Get (s : dataHolder) : Except Error Data :=
  match s.rdb.Get s.redisKey with
  | .error err => .error (.wrap err "failed to get data for")
  | .ok data => .ok data

/-- `dataHolder.Save`: the hot total is replaced before the cache is written. -/
def dataHolder.Save (s : dataHolder) (data : Data) : Option Error × dataHolder :=
  match s.rdb.Set s.redisKey data with
  | (some err, rdb1) =>
    (some (.wrap err "failed to save data for"),
      { s with totalBalance := data.Balance.Total, rdb := rdb1 })
  | (none, rdb1) => (none, { s with totalBalance := data.Balance.Total, rdb := rdb1 })

/-- `dataHolder.Delete`. -/
def dataHolder.Delete (s : dataHolder) : Option Error × dataHolder :=
  match s.rdb.Del s.redisKey with
  | (some err, rdb1) => (some (.wrap err "failed to save data for"), { s with rdb := rdb1 })
  | (none, rdb1) => (none, { s with rdb := rdb1 })

/-! ## portfolio.go -/

/-- `Portfolio`. The mutexes and the logger carry no state of interest; `worker` records
whether the goroutine spawned by `start` is running, `closedCh` is the buffered close
channel (capacity 1) as the list of values waiting in it. -/
structure Portfolio where
  closed : Nat
  id : Int
  name : String
  db : DB
  dataHolder : dataHolder
  gw : Gateway
  acc : Account
  triggers : List (String × Trigger)
  tePublisher : Option Publisher
  closedCh : List Bool
  worker : Bool

/-- `NewPortfolio`. -/
def NewPortfolio (id : Int) (name : String) (db : DB) (rdb : RedisClient) (gw : Gateway)
    (acc : Account) (eventPublisher : Option Publisher) : Portfolio :=
  { id := id, name := name, db := db, dataHolder := newDataHolder name rdb, gw := gw,
    acc := acc, tePublisher := eventPublisher, triggers := [], closed := 1, closedCh := [],
    worker := false }

/-- `Portfolio.addTriggers`. -/
def Portfolio.addTriggers (p : Portfolio) (triggers : List Trigger) : Portfolio :=
  { p with triggers := triggers.foldl (fun m t => mapSet m t.ID.String t) p.triggers }

/-- The loop of `price` over the catalog; `self` is `price` itself, `none` is a call that
did not return. -/
def priceHops (self : CoreCurrency → CoreCurrency → Int → Option Decimal)
    (base quote : CoreCurrency) (depth : Int) : List Symbol → Option Decimal
  | [] => some 0
  | symbol :: rest =>
    if symbol.Base ≠ base then priceHops self base quote depth rest
    else
      match self symbol.Quote quote (depth + 1) with
      | none => none
      | some price =>
        if price ≠ 0 then
          match self symbol.Base symbol.Quote 0 with
          | none => none
          | some first => some (first * price)
        else priceHops self base quote depth rest

/-- `Portfolio.price`. The Go function need not terminate (its re-pricing of a hop starts
again at depth 0), so the embedding counts calls: `fuel` bounds the nesting of calls, and
the result is `none` when that bound is hit. -/
def Portfolio.price (p : Portfolio) : Nat → CoreCurrency → CoreCurrency → Int → Option Decimal
  | 0, _, _, _ => none
  | fuel + 1, base, quote, depth =>
    if base = quote then some 1
    else
      match p.gw.Instrument (base ++ quote) with
      | .ok inst => some inst.Price.2
      | .error _ =>
        match p.gw.Instrument (quote ++ base) with
        | .ok inst => if inst.Price.2 = 0 then some 0 else some (1 / inst.Price.2)
        | .error _ =>
          if depth > 5 then some 0
          else priceHops (fun b q d => Portfolio.price p fuel b q d) base quote depth
            p.gw.AllSymbols

/-- The call `price(base, quote, depth)` returns `v`. -/
def Portfolio.priceReturns (p : Portfolio) (base quote : CoreCurrency) (depth : Int)
    (v : Decimal) : Prop :=
  ∃ fuel, p.price fuel base quote depth = some v

/-- The snapshot `updateData` starts from when the cache has none. -/
def emptyData : Data := { Prices := [], Balance := { Total := [], Details := [] } }

/-- The body of the loop of `updateData` over the balances, iterated: `none` when a
`price` call does not return within `fuel`. -/
def Portfolio.updateDataLoop (p : Portfolio) (fuel : Nat) :
    Data → List (CoreCurrency × Balance) → Option Data
  | data, [] => some data
  | data, (cur, bal) :: rest =>
    match p.price fuel cur Currency.USDT.String 0, p.price fuel cur Currency.BTC.String 0 with
    | some priceUSDT, some priceBTC =>
      let costUSDT := bal.Available * priceUSDT
      let costBTC := bal.Available * priceBTC
      let total1 := mapSet data.Balance.Total .USDT (data.Balance.Total.get .USDT + costUSDT)
      let total2 := mapSet total1 .BTC (ConvertedTo.get total1 .BTC + costBTC)
      Portfolio.updateDataLoop p fuel
        { Prices := mapSet data.Prices cur [(.USDT, priceUSDT), (.BTC, priceBTC)],
          Balance :=
            { Total := total2,
              Details := mapSet data.Balance.Details cur [(.USDT, costUSDT), (.BTC, costBTC)] } }
        rest
    | _, _ => none

/-- `Portfolio.updateData`: the snapshot or the error, and the portfolio afterwards;
`none` when a `price` call does not return within `fuel`. -/
def Portfolio.updateData (p : Portfolio) (fuel : Nat) (balances : List (CoreCurrency × Balance)) :
    Option (Except Error Data × Portfolio) :=
  let start : Except Error Data :=
    match p.dataHolder.Get with
    | .ok data => .ok data
    | .error err => if !err.Is redisNil then .error err else .ok emptyData
  match start with
  | .error err => some (.error err, p)
  | .ok data =>
    match p.updateDataLoop fuel data balances with
    | none => none
    | some data1 =>
      match p.dataHolder.Save data1 with
      | (some err, dh) => some (.error err, { p with dataHolder := dh })
      | (none, dh) => some (.ok data1, { p with dataHolder := dh })

/-- The body of the trigger loop of `handleBalanceUpdate` for the map entry `tID ↦ t`;
`now` is `time.Now().Unix()`. -/
def Portfolio.checkTrigger (p : Portfolio) (now : Int) (tID : String) (t : Trigger) : Portfolio :=
  match t.TryExecute p.dataHolder.totalBalance p.db with
  | (.error _, t1, db1) => { p with db := db1, triggers := mapModify p.triggers tID t1 }
  | (.ok execStatus, t1, db1) =>
    let p1 := { p with db := db1, triggers := mapModify p.triggers tID t1 }
    let p2 :=
      if execStatus.Ok then
        match p1.tePublisher with
        | some pub =>
          { p1 with tePublisher := some (pub.call
              { Portfolio := p1.name, TriggerSettings := t1.Settings, Timestamp := now,
                CurrentValue := execStatus.CurrentValue }).2 }
        | none => p1
      else p1
    if execStatus.Done then
      match p2.db.exec (.PortfolioTriggers_Delete t1.ID) with
      | (some _, db2) => { p2 with db := db2 }
      | (none, db2) => { p2 with db := db2, triggers := mapDelete p2.triggers tID }
    else p2

/-- The trigger loop of `handleBalanceUpdate` over the entries of the map. -/
def Portfolio.checkTriggers (now : Int) : Portfolio → List (String × Trigger) → Portfolio
  | p, [] => p
  | p, (tID, t) :: rest => Portfolio.checkTriggers now (p.checkTrigger now tID t) rest

/-- `Portfolio.handleBalanceUpdate`: the error it returns (if any) and the portfolio
afterwards; `none` when a `price` call does not return within `fuel`. -/
def Portfolio.handleBalanceUpdate (p : Portfolio) (fuel : Nat) (now : Int)
    (balances : List (CoreCurrency × Balance)) : Option (Option Error × Portfolio) :=
  match p.updateData fuel balances with
  | none => none
  | some (.error err, p1) => some (some err, p1)
  | some (.ok _, p1) => some (none, Portfolio.checkTriggers now p1 p1.triggers)

/-- `Portfolio.start`, up to and including the spawning of the worker goroutine. -/
def Portfolio.start (p : Portfolio) (fuel : Nat) (now : Int) : Option (Option Error × Portfolio) :=
  if p.closed = 0 then some (none, p)
  else
    let p0 := { p with closed := 0 }
    match p0.acc.Balances with
    | .error err => some (some err, p0)
    | .ok bals =>
      match p0.handleBalanceUpdate fuel now bals with
      | none => none
      | some (some err, p1) => some (some err, p1)
      | some (none, p1) =>
        some (none, { p1 with acc := { p1.acc with notifying := true }, worker := true })

/-- `Portfolio.IsClosed`. -/
def Portfolio.IsClosed (p : Portfolio) : Bool := p.closed == 1

/-- Whether the trigger loop of `handleBalanceUpdate` retires `t`: its `TryExecute`
returns a status with `Done` set and the store accepts the delete of its id. -/
def Portfolio.retires (p : Portfolio) (t : Trigger) : Bool :=
  match (t.TryExecute p.dataHolder.totalBalance p.db).1 with
  | .ok st => st.Done && (p.db.failure (.PortfolioTriggers_Delete t.ID)).isNone
  | .error _ => false

/-- The event the trigger loop of `handleBalanceUpdate` hands to the publisher for `t`, if
any: one when `TryExecute` returns a status with `Ok` set, built from the portfolio's
name, the trigger's settings as read after the evaluation, and the status's value. -/
def Portfolio.firedEvent (p : Portfolio) (now : Int) (t : Trigger) : Option TriggerEvent :=
  match t.TryExecute p.dataHolder.totalBalance p.db with
  | (.ok st, t1, _) =>
    if st.Ok then
      some { Portfolio := p.name, TriggerSettings := t1.Settings, Timestamp := now,
             CurrentValue := st.CurrentValue }
    else none
  | (.error _, _, _) => none

/-! ## Runs of a trigger over successive balance updates -/

/-- The trigger evaluated once per balance update, in arrival order: `totals` are the
hot totals (`dataHolder.totalBalance`) the successive updates leave behind. Gives the
results in order, the trigger at the end and the store at the end. -/
def CostChangedByPercent.run (c : CostChangedByPercent) (db : DB) :
    List ConvertedTo → List (Except Error ExecutionStatus) × CostChangedByPercent × DB
  | [] => ([], c, db)
  | tb :: rest =>
    match c.TryExecute tb db with
    | (r, c1, db1) =>
      match CostChangedByPercent.run c1 db1 rest with
      | (rs, c2, db2) => (r :: rs, c2, db2)

/-- Whether an evaluation fired: it returned a status with `Ok = true`. -/
def fired : Except Error ExecutionStatus → Bool
  | .ok st => st.Ok
  | .error _ => false

/-- The spec's anchor of a trailing trigger: the total seen at the most recent fire among
the earlier evaluations (each given as its total and whether it fired), the initial
anchor when none of them fired. -/
def anchorAfter (initial : Decimal) : List (Decimal × Bool) → Decimal
  | [] => initial
  | (t, f) :: rest => anchorAfter (if f then t else initial) rest

/-- A store that accepts every call. -/
def DB.alwaysSucceeds (db : DB) : Prop := ∀ q, db.failure q = none

/-! ## portfolio.go: Close, AddTriggers, and the calls that `price` makes -/

/-- `Portfolio.Close`: `atomic.SwapUint32(&p.closed, 1)`, and a send of `destroy` on the
close channel when the flag was 0. The channel has capacity 1: the send returns at once
when the channel is empty, and when a value is waiting in it the send, and with it the
call, does not return (`none`) before a receiver has taken that value. -/
def Portfolio.Close (p : Portfolio) (destroy : Bool) : Option Portfolio :=
  if p.closed = 0 then
    match p.closedCh with
    | [] => some { p with closed := 1, closedCh := [destroy] }
    | _ :: _ => none
  else some { p with closed := 1 }

/-- Consecutive calls of `Close`, one for each flag of the list; `none` when one of them
does not return. -/
def Portfolio.closeAll : Portfolio → List Bool → Option Portfolio
  | p, [] => some p
  | p, destroy :: rest =>
    match p.Close destroy with
    | none => none
    | some p1 => Portfolio.closeAll p1 rest

/-- The element of `dbArgs` that `AddTriggers` builds for one trigger. -/
def Portfolio.createParams (p : Portfolio) (t : Trigger) : PortfolioTriggers_CreateParams :=
  { ID := t.Settings.ID, PortfolioID := p.id, Type_ := t.Settings.Type_.String,
    Currency := t.Settings.Currency.String, CreatedAt := t.Settings.CreatedAt,
    Limit := t.Settings.Limit, Percent := t.Settings.Percent,
    TrailingAlert := t.Settings.TrailingAlert, StartTotalCost := t.Settings.StartTotalCost }

/-- `Portfolio.AddTriggers`: the settings or the error, and the portfolio afterwards. -/
def Portfolio.AddTriggers (p : Portfolio) (triggers : List Trigger) :
    Except Error (List TriggerSettings) × Portfolio :=
  match p.db.exec (.PortfolioTriggers_Create (triggers.map p.createParams)) with
  | (some err, db1) => (.error err, { p with db := db1 })
  | (none, db1) =>
    (.ok (triggers.map Trigger.Settings), Portfolio.addTriggers { p with db := db1 } triggers)

/-- The loop of `price` over the catalog, with the depth arguments of the calls made;
`self` is `price` itself with the calls it makes. -/
def priceHopsCalls (self : CoreCurrency → CoreCurrency → Int → Option Decimal × List Int)
    (base quote : CoreCurrency) (depth : Int) : List Symbol → Option Decimal × List Int
  | [] => (some 0, [])
  | symbol :: rest =>
    if symbol.Base ≠ base then priceHopsCalls self base quote depth rest
    else
      match (self symbol.Quote quote (depth + 1)).1 with
      | none => (none, (self symbol.Quote quote (depth + 1)).2)
      | some price =>
        if price ≠ 0 then
          ((self symbol.Base symbol.Quote 0).1.map (fun first => first * price),
            (self symbol.Quote quote (depth + 1)).2 ++ (self symbol.Base symbol.Quote 0).2)
        else
          ((priceHopsCalls self base quote depth rest).1,
            (self symbol.Quote quote (depth + 1)).2 ++
              (priceHopsCalls self base quote depth rest).2)

/-- `Portfolio.price` together with the depth argument of every call of `price` made on
the way, in order, the call itself first. -/
def Portfolio.priceCalls (p : Portfolio) :
    Nat → CoreCurrency → CoreCurrency → Int → Option Decimal × List Int
  | 0, _, _, depth => (none, [depth])
  | fuel + 1, base, quote, depth =>
    if base = quote then (some 1, [depth])
    else
      match p.gw.Instrument (base ++ quote) with
      | .ok inst => (some inst.Price.2, [depth])
      | .error _ =>
        match p.gw.Instrument (quote ++ base) with
        | .ok inst => (if inst.Price.2 = 0 then some 0 else some (1 / inst.Price.2), [depth])
        | .error _ =>
          if depth > 5 then (some 0, [depth])
          else
            ((priceHopsCalls (fun b q d => Portfolio.priceCalls p fuel b q d) base quote depth
                p.gw.AllSymbols).1,
              depth :: (priceHopsCalls (fun b q d => Portfolio.priceCalls p fuel b q d) base
                quote depth p.gw.AllSymbols).2)

/-! ## errors.go and the sentinels of the collaborators -/

/-- `ErrAccountNotFound`. -/
def ErrAccountNotFound : Error := .domain "account isn't found"

/-- `ErrNotFound`. -/
def ErrNotFound : Error := .domain "portfolio isn't found"

/-- `ErrExist`. -/
def ErrExist : Error := .domain "portfolio already exists"

/-- `ErrGateway`. -/
def ErrGateway : Error := .domain "gateway error"

/-- `ErrGatewayNotFound`, an `errors.New` value (not a `domain.Error`). -/
def ErrGatewayNotFound : Error := .sentinel "gateway isn't found"

/-- `pgx.ErrNoRows`. -/
def pgxErrNoRows : Error := .sentinel "no rows in result set"

/-- `core.ErrInvalidAPIKey`. -/
def coreErrInvalidAPIKey : Error := .sentinel "invalid api key"

/-- `core.ErrMarketClosed`. -/
def coreErrMarketClosed : Error := .sentinel "market closed"

/-! ## currency.go: Set -/

/-- `Currency.Set` on a non-nil receiver: the currency the text names, or the error. -/
def Currency.Set (txt : GoString) : Except Error Currency :=
  if txt = "USDT" then .ok .USDT
  else if txt = "BTC" then .ok .BTC
  else .error (.sentinel "invalid currency")

/-! ## pg/repo: rows and the read operations -/

/-- `repo.Account`, with the fields the manager reads. -/
structure repo.Account where
  ID : Int
  Name : String
  ExchangeName : String
  Key : String
  Secret : String
  Passphrase : Option String
deriving DecidableEq, Repr

/-- The element type of `Accounts_SelectWithPortfolioTriggersRow.Triggers`. -/
structure repo.TriggerRow where
  ID : UUID
  Type_ : String
  Currency : String
  CreatedAt : Int
  Limit : Option Decimal
  Percent : Option Decimal
  StartTotalCost : Option Decimal
  TrailingAlert : Bool
deriving DecidableEq, Repr

/-- `repo.Accounts_SelectWithPortfolioTriggersRow`. -/
structure repo.Accounts_SelectWithPortfolioTriggersRow where
  ID : Int
  Name : String
  ExchangeName : String
  Key : String
  Secret : String
  Passphrase : Option String
  Triggers : List repo.TriggerRow
deriving DecidableEq, Repr

/-- The read operations of `repo.Querier`, by what they return. -/
structure Querier where
  Accounts_GetByName : String → Except Error repo.Account
  Accounts_SelectWithPortfolioTriggers :
    Except Error (List repo.Accounts_SelectWithPortfolioTriggersRow)

/-! ## manager.go

The store handle, the cache client and the publisher are shared by pointer in the source;
in the embedding every portfolio carries its own copy, which records the calls that
portfolio makes. A portfolio is registered by pointer before it is started; the embedding
starts it and registers the started portfolio, which is the same thing to every later
reader of the registry. -/

/-- `Manager`. -/
structure Manager where
  db : DB
  queries : Querier
  rdb : RedisClient
  gwsMngr : String → Option Gateway
  portfolios : List (String × Portfolio)
  eventPublisher : Option Publisher

/-- `NewManager`. -/
def NewManager (db : DB) (queries : Querier) (rdb : RedisClient) (gwsMngr : String → Option Gateway)
    (eventPublisher : Option Publisher) : Manager :=
  { db := db, queries := queries, rdb := rdb, gwsMngr := gwsMngr, portfolios := [],
    eventPublisher := eventPublisher }

/-- `Manager.getGatewayAndAccount`. -/
def Manager.getGatewayAndAccount (pm : Manager) (exchangeName accName key secret : String)
    (passphrase : Option String) : Except Error (Gateway × Account) :=
  match pm.gwsMngr exchangeName with
  | none => .error (.wrap ErrGatewayNotFound exchangeName)
  | some gw =>
    match gw.Account { Key := key, Secret := secret, Passphrase := passphrase } with
    | .error err =>
      if err.Has coreErrInvalidAPIKey || err.Has coreErrMarketClosed then
        .error (.wrap ErrGateway ("account " ++ accName))
      else .error (.wrap err ("failed to get account " ++ accName))
    | .ok acc => .ok (gw, acc)

/-- `Manager.AddPortfolio`: the error it returns (if any) and the manager afterwards;
`none` when the worker start does not return within `fuel`. -/
def Manager.AddPortfolio (pm : Manager) (fuel : Nat) (now : Int) (name : String) :
    Option (Option Error × Manager) :=
  if (mapGet? pm.portfolios name).isSome then some (some (.wrap ErrExist name), pm)
  else
    match pm.queries.Accounts_GetByName name with
    | .error err =>
      if err.Has pgxErrNoRows then some (some (.wrap ErrAccountNotFound name), pm)
      else some (some (.wrap err ("failed to get account by name=" ++ name)), pm)
    | .ok account =>
      match pm.getGatewayAndAccount account.ExchangeName account.Name account.Key
          account.Secret account.Passphrase with
      | .error err =>
        if err.Has ErrGatewayNotFound then some (none, pm) else some (some err, pm)
      | .ok (gw, acc) =>
        match (NewPortfolio account.ID account.Name pm.db pm.rdb gw acc
            pm.eventPublisher).start fuel now with
        | none => none
        | some (err, portf) =>
          some (err.map (fun e => .wrap e "failed to start portfolio scheduling for account"),
            if (mapGet? pm.portfolios account.Name).isSome then pm
            else { pm with portfolios := mapSet pm.portfolios account.Name portf })

/-- `Manager.DeletePortfolio`: the error it returns (if any), the manager afterwards, and
the portfolio it closed and dropped from the registry (if any); `none` when the call of
`Close` does not return. -/
def Manager.DeletePortfolio (pm : Manager) (name : String) :
    Option (Option Error × Manager × Option Portfolio) :=
  match mapGet? pm.portfolios name with
  | none => some (some (.wrap ErrNotFound name), pm, none)
  | some portf =>
    match portf.Close true with
    | none => none
    | some closedPortf =>
      some (none, { pm with portfolios := mapDelete pm.portfolios name }, some closedPortf)

/-- The loop of `Manager.Close` over the registry: `Close(false)` on every portfolio;
`none` when one of the calls does not return. -/
def closeEach : List (String × Portfolio) → Option (List (String × Portfolio))
  | [] => some []
  | (name, portf) :: rest =>
    match portf.Close false with
    | none => none
    | some portf1 => (closeEach rest).map (fun l => (name, portf1) :: l)

/-- `Manager.Close`. -/
def Manager.Close (pm : Manager) : Option Manager :=
  (closeEach pm.portfolios).map (fun l => { pm with portfolios := l })

/-- One turn of the restoring loop of `Manager.load`: the trigger a persisted row
restores, `none` for a row of unknown type, or the error that makes `load` return. -/
def restoreTrigger (dbt : repo.TriggerRow) : Except Error (Option Trigger) :=
  match Currency.Set dbt.Currency with
  | .error err => .error err
  | .ok cur =>
    if dbt.Type_ = TriggerType.CCBP.String then
      match dbt.Percent, dbt.StartTotalCost with
      | some percent, some startTotalCost =>
        .ok (some (.ccbp
          { trailingAlert := dbt.TrailingAlert, id := dbt.ID, currency := cur,
            startTotalCost := startTotalCost, percent := percent, createdAt := dbt.CreatedAt }))
      | _, _ => .error (.sentinel "percent and start total cost are required for trigger type")
    else if dbt.Type_ = TriggerType.CRL.String then
      match dbt.Limit with
      | some limit =>
        .ok (some (.crl
          { id := dbt.ID, limit := limit, currency := cur, createdAt := dbt.CreatedAt }))
      | none => .error (.sentinel "limit is required for trigger type")
    else .ok none

/-- The restoring loop of `Manager.load` over the persisted rows, in order. -/
def restoreTriggers : List repo.TriggerRow → Except Error (List Trigger)
  | [] => .ok []
  | dbt :: rest =>
    match restoreTrigger dbt with
    | .error err => .error err
    | .ok restored =>
      match restoreTriggers rest with
      | .error err => .error err
      | .ok triggers => .ok (restored.toList ++ triggers)

/-- `Manager.load`. -/
def Manager.load (pm : Manager) (fuel : Nat) (now : Int)
    (account : repo.Accounts_SelectWithPortfolioTriggersRow) : Option (Option Error × Manager) :=
  if (mapGet? pm.portfolios account.Name).isSome then some (none, pm)
  else
    match pm.getGatewayAndAccount account.ExchangeName account.Name account.Key
        account.Secret account.Passphrase with
    | .error err =>
      if err.Has ErrGatewayNotFound then some (none, pm) else some (some err, pm)
    | .ok (gw, acc) =>
      match restoreTriggers account.Triggers with
      | .error err => some (some err, pm)
      | .ok triggers =>
        match ((NewPortfolio account.ID account.Name pm.db pm.rdb gw acc
            pm.eventPublisher).addTriggers triggers).start fuel now with
        | none => none
        | some (err, portf) =>
          some (err.map (fun e => .wrap e "failed to start portfolio scheduling for account"),
            if (mapGet? pm.portfolios account.Name).isSome then pm
            else { pm with portfolios := mapSet pm.portfolios account.Name portf })

/-- The loop of `Manager.Start` over the accounts: every account is loaded in turn, the
error of a load is logged and dropped. -/
def Manager.loadAll (fuel : Nat) (now : Int) :
    Manager → List repo.Accounts_SelectWithPortfolioTriggersRow → Option Manager
  | pm, [] => some pm
  | pm, account :: rest =>
    match pm.load fuel now account with
    | none => none
    | some (_, pm1) => Manager.loadAll fuel now pm1 rest

/-- `Manager.Start`. -/
def Manager.Start (pm : Manager) (fuel : Nat) (now : Int) : Option (Option Error × Manager) :=
  match pm.queries.Accounts_SelectWithPortfolioTriggers with
  | .error err =>
    some (some (.wrap err "failed to select accounts with portfolio triggers"), pm)
  | .ok accs =>
    match Manager.loadAll fuel now pm accs with
    | none => none
    | some pm1 => some (none, pm1)

/-! ## api/mq: the event consumer -/

/-- `PortfolioEvent` (`AccountCreated = iota + 1`, `AccountDeleted`), a `uint8`. -/
abbrev PortfolioEvent := Nat

/-- `AccountCreated`. -/
def AccountCreated : PortfolioEvent := 1

/-- `AccountDeleted`. -/
def AccountDeleted : PortfolioEvent := 2

/-- `Event`: the decoded envelope of a delivery. -/
structure Event where
  Event : PortfolioEvent
  AccountName : String
deriving DecidableEq, Repr

/-- `EventConsumer.handleMessage` on a delivery whose body `json.Unmarshal` decodes as
`decoded`: the pair `(requeue, err)` and the manager afterwards. -/
def handleMessage (pm : Manager) (fuel : Nat) (now : Int) (decoded : Except Error Event) :
    Option ((Bool × Option Error) × Manager) :=
  match decoded with
  | .error err => some ((false, some (.wrap err "failed to unmarshal")), pm)
  | .ok event =>
    if event.Event = AccountCreated then
      match pm.AddPortfolio fuel now event.AccountName with
      | none => none
      | some (none, pm1) => some ((false, none), pm1)
      | some (some err, pm1) => some ((!err.AsDomain, some err), pm1)
    else if event.Event = AccountDeleted then
      match pm.DeletePortfolio event.AccountName with
      | none => none
      | some (none, pm1, _) => some ((false, none), pm1)
      | some (some err, pm1, _) => some ((!err.AsDomain, some err), pm1)
    else some ((false, some (.sentinel "unknown event")), pm)

/-- What `listen` does with a delivery once `handleMessage` has returned. -/
inductive Disposition where
  | ack
  | reject (requeue : Bool)
deriving DecidableEq, Repr

/-- The branch of `listen` on the result of `handleMessage`: reject when it returned an
error, acknowledge otherwise. -/
def disposition (result : Bool × Option Error) : Disposition :=
  match result.2 with
  | some _ => .reject result.1
  | none => .ack

/-! ## Sequences of registry operations -/

/-- A call that changes the registry: `AddPortfolio(name)` or `DeletePortfolio(name)`. -/
inductive RegistryOp where
  | AddPortfolio (name : String)
  | DeletePortfolio (name : String)
deriving DecidableEq, Repr

/-- The manager after one registry call, whatever error the call returns; `none` when
the call does not return within `fuel`. -/
def Manager.apply (pm : Manager) (fuel : Nat) (now : Int) : RegistryOp → Option Manager
  | .AddPortfolio name => (pm.AddPortfolio fuel now name).map (fun r => r.2)
  | .DeletePortfolio name => (pm.DeletePortfolio name).map (fun r => r.2.1)

/-- The manager after a sequence of registry calls. -/
def Manager.applyAll (fuel : Nat) (now : Int) : Manager → List RegistryOp → Option Manager
  | pm, [] => some pm
  | pm, op :: rest =>
    match pm.apply fuel now op with
    | none => none
    | some pm1 => Manager.applyAll fuel now pm1 rest

/-- The errors the collaborators can hand to `AddPortfolio(name)` (the account lookup, the
adapter's `Account`, the account's `Balances`, the cache) are none of them a
`domain.Error`, wrapped or not: those are values of this service. -/
def Manager.foreignErrors (pm : Manager) (name : String) : Prop :=
  (∀ e, pm.queries.Accounts_GetByName name = .error e → e.AsDomain = false) ∧
  (∀ account gw e, pm.queries.Accounts_GetByName name = .ok account →
    pm.gwsMngr account.ExchangeName = some gw →
    gw.Account { Key := account.Key, Secret := account.Secret,
                 Passphrase := account.Passphrase } = .error e → e.AsDomain = false) ∧
  (∀ account gw acc e, pm.queries.Accounts_GetByName name = .ok account →
    pm.gwsMngr account.ExchangeName = some gw →
    gw.Account { Key := account.Key, Secret := account.Secret,
                 Passphrase := account.Passphrase } = .ok acc →
    acc.Balances = .error e → e.AsDomain = false) ∧
  (∀ e, pm.rdb.getErr = some e → e.AsDomain = false) ∧
  (∀ e, pm.rdb.setErr = some e → e.AsDomain = false)

/-! ## Persisted rows, as the spec sorts them -/

/-- A persisted row of a known type: `COST_CHANGED_BY_PERCENT` or `COST_REACHED_LIMIT`. -/
def repo.TriggerRow.known (dbt : repo.TriggerRow) : Bool :=
  decide (dbt.Type_ = TriggerType.CCBP.String) || decide (dbt.Type_ = TriggerType.CRL.String)

/-- A persisted row that cannot be restored: its currency is invalid, or it is a CCBP row
without percent or without start total cost, or a CRL row without limit. -/
def repo.TriggerRow.bad (dbt : repo.TriggerRow) : Prop :=
  (∃ e, Currency.Set dbt.Currency = .error e) ∨
  (dbt.Type_ = TriggerType.CCBP.String ∧ (dbt.Percent = none ∨ dbt.StartTotalCost = none)) ∨
  (dbt.Type_ = TriggerType.CRL.String ∧ dbt.Limit = none)

/-! ## portfolio.go: the worker goroutine of `start` -/

/-- What the `select` of the worker goroutine receives in one turn of its loop: a value
from the close channel, a balance update from the adapter's channel, or the closure of
the adapter's channel (`ok = false`). -/
inductive Received where
  | closeSignal
  | balances (bals : List (CoreCurrency × Balance))
  | channelClosed

/-- One turn of the loop of the worker goroutine; `none` when the turn cannot happen (no
worker is running, or the close channel holds nothing to receive) or when a `price` call
does not return within `fuel`. The deferred `p.acc.Release()` runs on every `return`. -/
def Portfolio.workerTurn (p : Portfolio) (fuel : Nat) (now : Int) : Received → Option Portfolio
  | .closeSignal =>
    if p.worker then
      match p.closedCh with
      | [] => none
      | destroyed :: rest =>
        let p1 := { p with closedCh := rest }
        let p2 :=
          if destroyed then
            { p1 with
              db := (p1.db.exec (.PortfolioTriggers_DeleteByPortfolioID p1.id)).2,
              dataHolder := p1.dataHolder.Delete.2 }
          else p1
        some { p2 with acc := { p2.acc with released := true }, worker := false }
    else none
  | .balances bals =>
    if p.worker then
      match p.handleBalanceUpdate fuel now bals with
      | none => none
      | some (_, p1) => some p1
    else none
  | .channelClosed =>
    if p.worker then some { p with acc := { p.acc with released := true }, worker := false }
    else none

/-- A step in the life of a portfolio: a call of `start`, a call of `Close`, or a turn of
the worker loop. -/
inductive LifeOp where
  | start
  | Close (destroy : Bool)
  | worker (r : Received)

/-- The portfolio after one step, whatever error a `start` returns; `none` when the step
cannot happen or does not return within `fuel`. -/
def Portfolio.step (p : Portfolio) (fuel : Nat) (now : Int) : LifeOp → Option Portfolio
  | .start => (p.start fuel now).map (fun r => r.2)
  | .Close destroy => p.Close destroy
  | .worker r => p.workerTurn fuel now r

/-- The portfolio after a sequence of steps. -/
def Portfolio.run (fuel : Nat) (now : Int) : Portfolio → List LifeOp → Option Portfolio
  | p, [] => some p
  | p, op :: rest =>
    match p.step fuel now op with
    | none => none
    | some p1 => Portfolio.run fuel now p1 rest

/-- Whether the next call of `Close` sends on the close channel: the swap finds the flag
at 0. -/
def Portfolio.closeSends (p : Portfolio) : Bool := p.closed == 0

/-- Whether a send on the close channel (a channel of capacity 1) blocks: a value is
waiting in it. -/
def Portfolio.sendBlocks (p : Portfolio) : Bool := !p.closedCh.isEmpty

/-- Whether a step is a call of `start`. -/
def LifeOp.isStart : LifeOp → Bool
  | .start => true
  | .Close _ => false
  | .worker _ => false

/-- Whether, along a sequence of steps, no `start` is called while a close signal is
waiting in the close channel. -/
def Portfolio.startsOnEmpty (fuel : Nat) (now : Int) : Portfolio → List LifeOp → Bool
  | _, [] => true
  | p, op :: rest =>
    (!op.isStart || p.closedCh.isEmpty) &&
    (match p.step fuel now op with
      | none => true
      | some p1 => Portfolio.startsOnEmpty fuel now p1 rest)

/-! ## api/mq: decoding the body of a delivery -/

/-- `PortfolioEvent.UnmarshalText`: the lookup in `portfolioEventValueKeys`. -/
def PortfolioEvent.UnmarshalText (txt : String) : Except Error PortfolioEvent :=
  if txt = "ACCOUNT_CREATED" then .ok AccountCreated
  else if txt = "ACCOUNT_DELETED" then .ok AccountDeleted
  else .error (.sentinel "invalid portfolio event")

/-- The body of a delivery as `json.Unmarshal` meets it when decoding into `Event`:
either text the decoder itself rejects (not JSON, or not an object with string members),
with the decoder's error, or an object with the string of its `event` member and the
string of its `account_name` member, each if present. -/
inductive Body where
  | malformed (err : Error)
  | object (event : Option String) (accountName : Option String)
deriving DecidableEq, Repr

/-- `json.Unmarshal(msg.Body, &event)`: an absent member leaves the zero value, the
`event` member goes through `PortfolioEvent.UnmarshalText`. -/
def unmarshalEvent : Body → Except Error Event
  | .malformed err => .error err
  | .object event accountName =>
    match event with
    | none => .ok { Event := 0, AccountName := accountName.getD "" }
    | some txt =>
      match PortfolioEvent.UnmarshalText txt with
      | .error err => .error err
      | .ok ev => .ok { Event := ev, AccountName := accountName.getD "" }

/-- `EventConsumer.handleMessage` on a delivery with the given body. -/
def handleDelivery (pm : Manager) (fuel : Nat) (now : Int) (body : Body) :
    Option ((Bool × Option Error) × Manager) :=
  handleMessage pm fuel now (unmarshalEvent body)

/-- The `requeue` that `handleMessage` returns next to the error of a dispatch. -/
def requeueOf : Option Error → Bool
  | none => false
  | some err => !err.AsDomain

/-! ## api/rest: the request that adds triggers -/

/-- An element of `requests.AddTriggers`; `none` is the zero value of `Type` and of
`Currency`, and the nil pointer of `Limit` and of `Percent`. -/
structure requests.AddTriggersElem where
  Type_ : Option TriggerType
  Currency : Option Currency
  TrailingAlert : Bool
  Limit : Option Decimal
  Percent : Option Decimal
deriving DecidableEq, Repr

/-- The body of the loop of `AddTriggers.Validate` for one element. -/
def requests.validateElem (t : requests.AddTriggersElem) : Option Error :=
  let typeErr : Option Error :=
    match t.Type_ with
    | none => some (.sentinel "trigger type is required")
    | some .CRL =>
      match t.Limit with
      | none => some (.sentinel "limit is required for trigger type")
      | some limit =>
        if limit = 0 then some (.sentinel "limit is required for trigger type") else none
    | some .CCBP =>
      match t.Percent with
      | none => some (.sentinel "percent is required for trigger type")
      | some percent =>
        if percent = 0 then some (.sentinel "percent is required for trigger type") else none
  match typeErr with
  | some err => some err
  | none => if t.Currency = none then some (.sentinel "currency is required") else none

/-- `AddTriggers.Validate`: the error of the first element that has one. -/
def requests.Validate : List requests.AddTriggersElem → Option Error
  | [] => none
  | t :: rest =>
    match requests.validateElem t with
    | some err => some err
    | none => requests.Validate rest

/-- `NewCostChangedByPercent`; `id` is `uuid.New()` and `now` is `time.Now().UTC()`. -/
def NewCostChangedByPercent (portf : Portfolio) (id : UUID) (now : Int) (currency : Currency)
    (percent : Decimal) (trailingAlert : Bool) : CostChangedByPercent :=
  { id := id, trailingAlert := trailingAlert, currency := currency, percent := percent,
    startTotalCost := TotalBalance portf.dataHolder.totalBalance currency, createdAt := now }

/-- `NewCostReachedLimit`; `id` is `uuid.New()` and `now` is `time.Now().UTC()`. -/
def NewCostReachedLimit (id : UUID) (now : Int) (currency : Currency) (limit : Decimal) :
    CostReachedLimit :=
  { id := id, currency := currency, limit := limit, createdAt := now }

/-- The trigger `portfoliosController.addTriggers` builds for one element of a validated
request (`none` where its loop continues without one). -/
def buildTrigger (portf : Portfolio) (id : UUID) (now : Int) (elem : requests.AddTriggersElem) :
    Option Trigger :=
  match elem.Type_, elem.Currency with
  | some .CCBP, some currency =>
    elem.Percent.map (fun percent =>
      .ccbp (NewCostChangedByPercent portf id now currency percent elem.TrailingAlert))
  | some .CRL, some currency =>
    elem.Limit.map (fun limit => .crl (NewCostReachedLimit id now currency limit))
  | _, _ => none

/-! ## The close channel of the registered portfolios -/

/-- Whether no close signal is waiting in the close channel of a portfolio that is open:
the state in which a send of `Close` finds the channel empty. -/
def Portfolio.channelClear (p : Portfolio) : Bool := p.closed != 0 || p.closedCh.isEmpty

/-- Whether every portfolio of the registry has its close channel clear. -/
def Manager.channelsClear (pm : Manager) : Bool :=
  pm.portfolios.all (fun e => e.2.channelClear)

/-! ## Test fixtures -/

/-- A store that accepts every call and has carried out none. -/
def emptyStore : DB := { failure := fun _ => none, applied := [] }

/-- The trailing trigger of the spec's scenario: anchor 100, threshold 10 percent. -/
def trailingDemo : CostChangedByPercent :=
  { trailingAlert := true, id := ⟨"t-1"⟩, currency := .USDT, startTotalCost := 100,
    percent := 10, createdAt := 0 }

/-- A store that rejects every call. -/
def brokenStore : DB := { failure := fun _ => some (.sentinel "connection refused"), applied := [] }

/-- The hot totals of the spec's scenario: 110, then 115, then 121 (in USDT). -/
def demoTotals : List ConvertedTo := [[(.USDT, 110)], [(.USDT, 115)], [(.USDT, 121)]]

/-- An adapter with no instrument and an empty catalog. -/
def bareGateway : Gateway :=
  { Name := "test", Instrument := fun _ => .error (.sentinel "instrument not found"),
    AllSymbols := [] }

/-- A key-value cache that holds nothing and never fails. -/
def emptyCache : RedisClient := { values := [], getErr := none, setErr := none, delErr := none }

/-- An account whose `Balances()` reports the given balances. -/
def accountWith (balances : List (CoreCurrency × Balance)) : Account :=
  { Balances := .ok balances, notifying := false, released := false }

/-- A new portfolio "acc" on the bare adapter with an empty cache and no publisher. -/
def demoPortfolio : Portfolio :=
  NewPortfolio 1 "acc" emptyStore emptyCache bareGateway (accountWith []) none

/-- The adapter of the spec's cross-rate scenario: `ETH/USDT` at ask 200 and `USDT/DOGE` at
ask 200, and no other instrument. -/
def hopGateway : Gateway :=
  { Name := "test",
    Instrument := fun symbol =>
      if symbol = "ETHUSDT" then .ok { bid := 0, ask := 200 }
      else if symbol = "USDTDOGE" then .ok { bid := 0, ask := 200 }
      else .error (.sentinel "instrument not found"),
    AllSymbols := [{ Base := "ETH", Quote := "USDT" }, { Base := "USDT", Quote := "DOGE" }] }

/-- A new portfolio on the adapter of the cross-rate scenario. -/
def hopPortfolio : Portfolio :=
  NewPortfolio 1 "acc" emptyStore emptyCache hopGateway (accountWith []) none

/-- The one-shot trigger of the spec's scenario: `CRL(USDT, limit = 100)`. -/
def limitDemo : CostReachedLimit :=
  { id := ⟨"crl-1"⟩, limit := 100, currency := .USDT, createdAt := 0 }

/-- A publisher that accepts every event and has received none. -/
def quietPublisher : Publisher := { failure := fun _ => none, received := [] }

/-- A new portfolio "acc" with balances `{USDT: 120}`, a publisher, and two triggers: the
one-shot `limitDemo` and the trailing `trailingDemo`. -/
def watchedPortfolio : Portfolio :=
  (NewPortfolio 1 "acc" emptyStore emptyCache bareGateway (accountWith [("USDT", ⟨120⟩)])
    (some quietPublisher)).addTriggers [.crl limitDemo, .ccbp trailingDemo]

/-- The spec's scenario of the initial fire: a new portfolio "acc" with an empty cache,
initial balances `{USDT: 120}`, a publisher and the restored trigger `CRL(USDT, 100)`. -/
def seededPortfolio : Portfolio :=
  (NewPortfolio 1 "acc" emptyStore emptyCache bareGateway (accountWith [("USDT", ⟨120⟩)])
    (some quietPublisher)).addTriggers [.crl limitDemo]

/-- An adapter with no instrument whose catalog is the chain `C0/C1`, `C1/C2`, ...,
`C5/C6`. -/
def chainGateway : Gateway :=
  { Name := "test", Instrument := fun _ => .error (.sentinel "instrument not found"),
    AllSymbols :=
      [{ Base := "C0", Quote := "C1" }, { Base := "C1", Quote := "C2" },
       { Base := "C2", Quote := "C3" }, { Base := "C3", Quote := "C4" },
       { Base := "C4", Quote := "C5" }, { Base := "C5", Quote := "C6" }] }

/-- A new portfolio on the chain adapter. -/
def chainPortfolio : Portfolio :=
  NewPortfolio 1 "acc" emptyStore emptyCache chainGateway (accountWith []) none

/-- The adapter `Binance.PROD` of the manager scenarios: no instrument, an empty catalog,
and an account with balances `{USDT: 120}` for every key. -/
def binanceGateway : Gateway :=
  { bareGateway with Account := fun _ => .ok (accountWith [("USDT", ⟨120⟩)]) }

/-- The portfolio `load` builds for the account "a" of the manager scenarios, before it
is started: the two restored triggers `limitDemo` and `trailingDemo`. -/
def restoredPortfolio : Portfolio :=
  (NewPortfolio 1 "a" emptyStore emptyCache binanceGateway (accountWith [("USDT", ⟨120⟩)])
    (some quietPublisher)).addTriggers [.crl limitDemo, .ccbp trailingDemo]

/-- The adapter registry of the manager scenarios: `Binance.PROD` hands out an account
with balances `{USDT: 120}`, `Locked.PROD` rejects every key, `Flaky.PROD` times out, and
no other exchange is configured. -/
def demoGateways : String → Option Gateway := fun exchangeName =>
  if exchangeName = "Binance.PROD" then some binanceGateway
  else if exchangeName = "Locked.PROD" then
    some { bareGateway with Account := fun _ => .error coreErrInvalidAPIKey }
  else if exchangeName = "Flaky.PROD" then
    some { bareGateway with Account := fun _ => .error (.sentinel "timeout") }
  else none

/-- The account named `name` on the exchange `exchangeName`. -/
def accountOn (id : Int) (name exchangeName : String) : repo.Account :=
  { ID := id, Name := name, ExchangeName := exchangeName, Key := "key", Secret := "secret",
    Passphrase := none }

/-- The persisted row of the one-shot trigger `limitDemo`. -/
def limitRow : repo.TriggerRow :=
  { ID := ⟨"crl-1"⟩, Type_ := "COST_REACHED_LIMIT", Currency := "USDT", CreatedAt := 0,
    Limit := some 100, Percent := none, StartTotalCost := none, TrailingAlert := false }

/-- The persisted row of the trailing trigger `trailingDemo`. -/
def trailingRow : repo.TriggerRow :=
  { ID := ⟨"t-1"⟩, Type_ := "COST_CHANGED_BY_PERCENT", Currency := "USDT", CreatedAt := 0,
    Limit := none, Percent := some 10, StartTotalCost := some 100, TrailingAlert := true }

/-- The rows the join query of the manager scenarios returns: "a" on `Binance.PROD` with
its two persisted triggers and a row of unknown type, "b" on the unconfigured exchange
`Mars`, "c" on `Locked.PROD`, and "f" on `Binance.PROD` whose trigger row names no known
currency. -/
def demoAccounts : List repo.Accounts_SelectWithPortfolioTriggersRow :=
  [{ ID := 1, Name := "a", ExchangeName := "Binance.PROD", Key := "key", Secret := "secret",
     Passphrase := none,
     Triggers := [limitRow, trailingRow, { limitRow with ID := ⟨"x-1"⟩, Type_ := "OTHER" }] },
   { ID := 2, Name := "b", ExchangeName := "Mars", Key := "key", Secret := "secret",
     Passphrase := none, Triggers := [] },
   { ID := 3, Name := "c", ExchangeName := "Locked.PROD", Key := "key", Secret := "secret",
     Passphrase := none, Triggers := [] },
   { ID := 6, Name := "f", ExchangeName := "Binance.PROD", Key := "key", Secret := "secret",
     Passphrase := none, Triggers := [{ limitRow with Currency := "EUR" }] }]

/-- The database of the manager scenarios: account "a" on `Binance.PROD`, "b" on the
unconfigured exchange `Mars`, "c" on `Locked.PROD`, "d" on `Flaky.PROD`; the lookup of
"e" fails with a connection error, and any other name has no row. The join query returns
`demoAccounts`. -/
def demoQuerier : Querier :=
  { Accounts_GetByName := fun name =>
      if name = "a" then .ok (accountOn 1 "a" "Binance.PROD")
      else if name = "b" then .ok (accountOn 2 "b" "Mars")
      else if name = "c" then .ok (accountOn 3 "c" "Locked.PROD")
      else if name = "d" then .ok (accountOn 4 "d" "Flaky.PROD")
      else if name = "e" then .error (.sentinel "connection refused")
      else .error pgxErrNoRows,
    Accounts_SelectWithPortfolioTriggers := .ok demoAccounts }

/-- A new manager over the database and adapters of the manager scenarios. -/
def demoManager : Manager :=
  NewManager emptyStore demoQuerier emptyCache demoGateways (some quietPublisher)

/-- The manager of the scenarios with the open portfolio "a" registered. -/
def busyManager : Manager :=
  { demoManager with portfolios := [("a", { demoPortfolio with name := "a", closed := 0 })] }

/-- The portfolio `watchedPortfolio` once an update has left the hot total `{USDT: 120}`. -/
def pricedPortfolio : Portfolio :=
  { watchedPortfolio with
    dataHolder := { watchedPortfolio.dataHolder with totalBalance := [(.USDT, 120)] } }

/-- An adapter account whose `Balances()` times out. -/
def stuckAccount : Account :=
  { Balances := .error (.sentinel "timeout"), notifying := false, released := false }

/-- An adapter that hands out `stuckAccount` for every key. -/
def stuckGateway : Gateway := { bareGateway with Account := fun _ => .ok stuckAccount }

/-- A new portfolio "a" on `stuckAccount`: its `start` fails after clearing the closed
flag. -/
def stuckPortfolio : Portfolio :=
  NewPortfolio 1 "a" emptyStore emptyCache stuckGateway stuckAccount (some quietPublisher)

/-- The manager of the scenarios with `stuckGateway` as the adapter of every exchange. -/
def stuckManager : Manager :=
  NewManager emptyStore demoQuerier emptyCache (fun _ => some stuckGateway) (some quietPublisher)

/-- A store that rejects every update of a start total cost and accepts every other
call. -/
def pickyStore : DB :=
  { failure := fun q =>
      match q with
      | .PortfolioTriggers_UpdateStartTotalCost _ => some (.sentinel "connection refused")
      | _ => none,
    applied := [] }

/-- A publisher that fails on every event. -/
def deafPublisher : Publisher :=
  { failure := fun _ => some (.sentinel "channel closed"), received := [] }

/-- A new portfolio "acc" on `pickyStore` with the failing publisher and two triggers: the
trailing `trailingDemo`, whose evaluation fails when it fires (the store rejects the
anchor update), and the one-shot `limitDemo`. -/
def harshPortfolio : Portfolio :=
  (NewPortfolio 1 "acc" pickyStore emptyCache bareGateway (accountWith [("USDT", ⟨120⟩)])
    (some deafPublisher)).addTriggers [.ccbp trailingDemo, .crl limitDemo]

/-- A request element for a limit trigger with the negative limit -5. -/
def negativeLimitElem : requests.AddTriggersElem :=
  { Type_ := some .CRL, Currency := some .USDT, TrailingAlert := false, Limit := some (-5),
    Percent := none }

/-- A request element for a trailing percent trigger with the negative threshold -1. -/
def negativePercentElem : requests.AddTriggersElem :=
  { Type_ := some .CCBP, Currency := some .USDT, TrailingAlert := true, Limit := none,
    Percent := some (-1) }

/-- A request element for a percent trigger with the threshold 10. -/
def percentElem : requests.AddTriggersElem :=
  { Type_ := some .CCBP, Currency := some .USDT, TrailingAlert := false, Limit := none,
    Percent := some 10 }

/-! # Theorems -/

/-! ## CostReachedLimit -/

/-- C3: `CostReachedLimit.TryExecute` returns no error and a status with `Ok` true exactly
when the hot total is at least the limit, `Done` equal to `Ok` and `CurrentValue` the
total; the trigger and the store are left as they were. -/
theorem crl_tryExecute_spec (c : CostReachedLimit) (totalBalance : ConvertedTo) (db : DB) :
    ∃ st, Trigger.TryExecute (.crl c) totalBalance db = (.ok st, .crl c, db) ∧
      (st.Ok = true ↔ c.limit ≤ TotalBalance totalBalance c.currency) ∧
      st.Done = st.Ok ∧
      st.CurrentValue = TotalBalance totalBalance c.currency := by
  refine ⟨_, rfl, ?_, rfl, rfl⟩
  simp

/-! ## CostChangedByPercent: one evaluation -/

/-- C1: at the spec's scenario (trailing trigger, anchor 100, threshold 10, total 110) the
trigger fires and the in-memory anchor becomes 110, but the value handed to the store
under the trigger's id is the previous anchor 100, not 110. -/
theorem ccbp_persists_previous_anchor :
    trailingDemo.TryExecute [(.USDT, 110)] emptyStore =
      (.ok { Ok := true, Done := false, CurrentValue := 10 },
       { trailingDemo with startTotalCost := 110 },
       { emptyStore with applied := [.PortfolioTriggers_UpdateStartTotalCost
          { StartTotalCost := some 100, ID := trailingDemo.id }] }) ∧
    (trailingDemo.TryExecute [(.USDT, 110)] emptyStore).2.2.applied ≠
      [.PortfolioTriggers_UpdateStartTotalCost
          { StartTotalCost := some 110, ID := trailingDemo.id }] := by
  constructor
  · simp [CostChangedByPercent.TryExecute, trailingDemo, emptyStore, DB.exec, TotalBalance,
      ConvertedTo.get, mapGet?, devPercent]
    norm_num
  · simp [CostChangedByPercent.TryExecute, trailingDemo, emptyStore, DB.exec, TotalBalance,
      ConvertedTo.get, mapGet?, devPercent]
    norm_num

/-- C4: with a positive anchor `A`, threshold `P` and hot total `T`, and the store update
(attempted only when the trigger fires and is trailing) succeeding, `TryExecute` returns a
status with `Ok` true exactly when `|T - A| / A * 100 >= P`, `Done = (Ok and not
trailingAlert)` and `CurrentValue` the deviation percentage; the store is not touched
unless the trigger fires and is trailing. -/
theorem ccbp_tryExecute_spec (c : CostChangedByPercent) (totalBalance : ConvertedTo) (db : DB)
    (hA : 0 < c.startTotalCost)
    (hstore : c.trailingAlert = true →
      c.percent ≤ |TotalBalance totalBalance c.currency - c.startTotalCost|
        / c.startTotalCost * 100 →
      db.failure (.PortfolioTriggers_UpdateStartTotalCost
        { StartTotalCost := some c.startTotalCost, ID := c.id }) = none) :
    ∃ st, (c.TryExecute totalBalance db).1 = .ok st ∧
      (st.Ok = true ↔ c.percent ≤ |TotalBalance totalBalance c.currency - c.startTotalCost|
        / c.startTotalCost * 100) ∧
      st.Done = (st.Ok && !c.trailingAlert) ∧
      st.CurrentValue = |TotalBalance totalBalance c.currency - c.startTotalCost|
        / c.startTotalCost * 100 ∧
      (¬ (st.Ok = true ∧ c.trailingAlert = true) → (c.TryExecute totalBalance db).2.2 = db) := by
  have _hpos := hA
  by_cases hfire : c.percent ≤ |TotalBalance totalBalance c.currency - c.startTotalCost|
      / c.startTotalCost * 100
  · cases htr : c.trailingAlert
    · refine ⟨⟨true, true, _⟩, ?_, ?_, ?_, rfl, ?_⟩ <;>
        simp [CostChangedByPercent.TryExecute, devPercent, hfire, htr]
    · have hs := hstore htr hfire
      refine ⟨⟨true, false, _⟩, ?_, ?_, ?_, rfl, ?_⟩ <;>
        simp [CostChangedByPercent.TryExecute, devPercent, hfire, htr, DB.exec, hs]
  · have hlt := not_le.mp hfire
    refine ⟨⟨false, false, _⟩, ?_, ?_, ?_, rfl, ?_⟩ <;>
      simp [CostChangedByPercent.TryExecute, devPercent, hfire, hlt]

/-- The statement of C4 at the spec's scenario: anchor 100, threshold 10, total 110. -/
theorem ccbp_tryExecute_spec_witness :
    ∃ st, (trailingDemo.TryExecute [(.USDT, 110)] emptyStore).1 = .ok st ∧
      (st.Ok = true ↔ trailingDemo.percent ≤
        |TotalBalance [(.USDT, 110)] trailingDemo.currency - trailingDemo.startTotalCost|
          / trailingDemo.startTotalCost * 100) ∧
      st.Done = (st.Ok && !trailingDemo.trailingAlert) ∧
      st.CurrentValue =
        |TotalBalance [(.USDT, 110)] trailingDemo.currency - trailingDemo.startTotalCost|
          / trailingDemo.startTotalCost * 100 ∧
      (¬ (st.Ok = true ∧ trailingDemo.trailingAlert = true) →
        (trailingDemo.TryExecute [(.USDT, 110)] emptyStore).2.2 = emptyStore) :=
  ccbp_tryExecute_spec trailingDemo [(.USDT, 110)] emptyStore
    (by norm_num [trailingDemo]) (fun _ _ => rfl)

/-- C6: when the store rejects the anchor update of a firing trailing trigger,
`TryExecute` returns an error (the store's error, wrapped) and no status, and the trigger
is exactly as before, so the next evaluation compares against the old anchor. -/
theorem ccbp_store_failure_keeps_anchor (c : CostChangedByPercent) (totalBalance : ConvertedTo)
    (db : DB) (e : Error)
    (htrailing : c.trailingAlert = true)
    (hfire : c.percent ≤ devPercent (TotalBalance totalBalance c.currency) c.startTotalCost)
    (hfail : db.failure (.PortfolioTriggers_UpdateStartTotalCost
        { StartTotalCost := some c.startTotalCost, ID := c.id }) = some e) :
    (c.TryExecute totalBalance db).1 =
        .error (.wrap e "failed to update start total cost of portfolio trigger") ∧
      (c.TryExecute totalBalance db).2.1 = c ∧
      (c.TryExecute totalBalance db).2.2 = db ∧
      ∀ tb1 db1, (c.TryExecute totalBalance db).2.1.TryExecute tb1 db1 = c.TryExecute tb1 db1 := by
  have h : c.TryExecute totalBalance db =
      (.error (.wrap e "failed to update start total cost of portfolio trigger"), c, db) := by
    simp [CostChangedByPercent.TryExecute, hfire, htrailing, DB.exec, hfail]
  rw [h]
  exact ⟨rfl, rfl, rfl, fun _ _ => rfl⟩

/-- The statement of C6 at the spec's scenario with a store that rejects every call. -/
theorem ccbp_store_failure_keeps_anchor_witness :
    (trailingDemo.TryExecute [(.USDT, 110)] brokenStore).1 =
        .error (.wrap (.sentinel "connection refused")
          "failed to update start total cost of portfolio trigger") ∧
      (trailingDemo.TryExecute [(.USDT, 110)] brokenStore).2.1 = trailingDemo ∧
      (trailingDemo.TryExecute [(.USDT, 110)] brokenStore).2.2 = brokenStore ∧
      ∀ tb1 db1, (trailingDemo.TryExecute [(.USDT, 110)] brokenStore).2.1.TryExecute tb1 db1 =
        trailingDemo.TryExecute tb1 db1 :=
  ccbp_store_failure_keeps_anchor trailingDemo [(.USDT, 110)] brokenStore
    (.sentinel "connection refused") rfl
    (by norm_num [trailingDemo, devPercent, TotalBalance, ConvertedTo.get, mapGet?]) rfl

/-! ## CostChangedByPercent: a trailing trigger over a sequence of updates -/

/-- One evaluation of a trailing trigger against a store that accepts every call. -/
theorem ccbp_tryExecute_trailing (c : CostChangedByPercent) (totalBalance : ConvertedTo)
    (db : DB) (hdb : db.alwaysSucceeds) (htr : c.trailingAlert = true) :
    c.TryExecute totalBalance db =
      (.ok { Ok := decide (c.percent ≤
              devPercent (TotalBalance totalBalance c.currency) c.startTotalCost),
             Done := false,
             CurrentValue := devPercent (TotalBalance totalBalance c.currency) c.startTotalCost },
       { c with startTotalCost :=
          if c.percent ≤ devPercent (TotalBalance totalBalance c.currency) c.startTotalCost
          then TotalBalance totalBalance c.currency else c.startTotalCost },
       { db with applied :=
          if c.percent ≤ devPercent (TotalBalance totalBalance c.currency) c.startTotalCost
          then db.applied ++ [.PortfolioTriggers_UpdateStartTotalCost
            { StartTotalCost := some c.startTotalCost, ID := c.id }]
          else db.applied }) := by
  by_cases hfire : c.percent ≤ devPercent (TotalBalance totalBalance c.currency) c.startTotalCost
  · simp [CostChangedByPercent.TryExecute, hfire, htr, DB.exec, hdb _]
  · have hlt := not_le.mp hfire
    simp [CostChangedByPercent.TryExecute, hfire, hlt]

/-- Unfolding `run` on a non-empty list of updates. -/
theorem ccbp_run_cons (c c1 : CostChangedByPercent) (db db1 : DB) (tb : ConvertedTo)
    (rest : List ConvertedTo) (r : Except Error ExecutionStatus)
    (h : c.TryExecute tb db = (r, c1, db1)) :
    (c.run db (tb :: rest)).1 = r :: (CostChangedByPercent.run c1 db1 rest).1 := by
  simp [CostChangedByPercent.run, h]

/-- One step of a trailing run, with the next trigger and store named. -/
theorem ccbp_trailing_next (c : CostChangedByPercent) (tb : ConvertedTo) (db : DB)
    (hdb : db.alwaysSucceeds) (htr : c.trailingAlert = true) :
    ∃ c1 db1, c.TryExecute tb db =
        (.ok { Ok := decide (c.percent ≤ devPercent (TotalBalance tb c.currency) c.startTotalCost),
               Done := false,
               CurrentValue := devPercent (TotalBalance tb c.currency) c.startTotalCost },
          c1, db1) ∧
      db1.alwaysSucceeds ∧ c1.trailingAlert = true ∧ c1.percent = c.percent ∧
      c1.currency = c.currency ∧
      c1.startTotalCost =
        (if c.percent ≤ devPercent (TotalBalance tb c.currency) c.startTotalCost
          then TotalBalance tb c.currency else c.startTotalCost) :=
  ⟨_, _, ccbp_tryExecute_trailing c tb db hdb htr, fun q => hdb q, htr, rfl, rfl, rfl⟩

/-- The status of every step of a trailing run, against the spec's anchor. -/
theorem ccbp_run_step (pre : List ConvertedTo) :
    ∀ (c : CostChangedByPercent) (db : DB) (tb : ConvertedTo) (post : List ConvertedTo),
      db.alwaysSucceeds → c.trailingAlert = true →
      (c.run db (pre ++ tb :: post)).1[pre.length]? =
        some (.ok
          { Ok := decide (c.percent ≤ devPercent (TotalBalance tb c.currency)
              (anchorAfter c.startTotalCost
                (List.zip (pre.map (fun x => TotalBalance x c.currency))
                  ((c.run db pre).1.map fired)))),
            Done := false,
            CurrentValue := devPercent (TotalBalance tb c.currency)
              (anchorAfter c.startTotalCost
                (List.zip (pre.map (fun x => TotalBalance x c.currency))
                  ((c.run db pre).1.map fired))) }) := by
  induction pre with
  | nil =>
    intro c db tb post hdb htr
    obtain ⟨c1, db1, h, -⟩ := ccbp_trailing_next c tb db hdb htr
    rw [List.nil_append, ccbp_run_cons c c1 db db1 tb post _ h]
    simp [anchorAfter, CostChangedByPercent.run]
  | cons x pre ih =>
    intro c db tb post hdb htr
    obtain ⟨c1, db1, h, hdb1, htr1, hp1, hc1, ha1⟩ := ccbp_trailing_next c x db hdb htr
    have ih1 := ih c1 db1 tb post hdb1 htr1
    rw [hp1, hc1, ha1] at ih1
    rw [List.cons_append, ccbp_run_cons c c1 db db1 x (pre ++ tb :: post) _ h,
      ccbp_run_cons c c1 db db1 x pre _ h]
    simp only [List.length_cons, List.getElem?_cons_succ, List.map_cons, List.zip_cons_cons,
      anchorAfter, fired, decide_eq_true_eq]
    exact ih1

/-- A trailing trigger that fired does not fire again on the same total. -/
theorem ccbp_run_no_refire (pre : List ConvertedTo) :
    ∀ (c : CostChangedByPercent) (db : DB) (tb1 tb2 : ConvertedTo) (post : List ConvertedTo),
      db.alwaysSucceeds → c.trailingAlert = true → 0 < c.percent →
      TotalBalance tb1 c.currency = TotalBalance tb2 c.currency →
      ((c.run db (pre ++ tb1 :: tb2 :: post)).1[pre.length]?).map fired = some true →
      ((c.run db (pre ++ tb1 :: tb2 :: post)).1[pre.length + 1]?).map fired = some false := by
  induction pre with
  | nil =>
    intro c db tb1 tb2 post hdb htr hp hT h1
    obtain ⟨c1, db1, h, hdb1, htr1, hp1, hc1, ha1⟩ := ccbp_trailing_next c tb1 db hdb htr
    obtain ⟨c2, db2, h2, -⟩ := ccbp_trailing_next c1 tb2 db1 hdb1 htr1
    rw [List.nil_append, ccbp_run_cons c c1 db db1 tb1 (tb2 :: post) _ h,
      ccbp_run_cons c1 c2 db1 db2 tb2 post _ h2] at h1 ⊢
    simp only [List.length_nil, List.getElem?_cons_zero, Option.map_some', fired,
      Option.some.injEq, decide_eq_true_eq] at h1
    simp only [List.length_nil, zero_add, List.getElem?_cons_succ, List.getElem?_cons_zero,
      Option.map_some', fired, Option.some.injEq, decide_eq_false_iff_not, not_le]
    rw [hp1, hc1, ha1, if_pos h1, ← hT]
    simpa [devPercent] using hp
  | cons x pre ih =>
    intro c db tb1 tb2 post hdb htr hp hT h1
    obtain ⟨c1, db1, h, hdb1, htr1, hp1, hc1, ha1⟩ := ccbp_trailing_next c x db hdb htr
    rw [List.cons_append, ccbp_run_cons c c1 db db1 x _ _ h] at h1 ⊢
    simp only [List.length_cons, List.getElem?_cons_succ] at h1 ⊢
    exact ih c1 db1 tb1 tb2 post hdb1 htr1 (hp1 ▸ hp) (hc1 ▸ hT) h1

/-- C5: a trailing-alert trigger with `percent > 0`, a positive initial anchor and a store
that always succeeds, run over any sequence of positive totals: at every step it returns a
status whose `Ok` holds exactly when `|t - a| / a * 100 >= percent`, where `a` is the total
at its most recent earlier fire (the initial anchor if there is none); `Done` is never
set; and a fire is never followed by a fire against the same total. -/
theorem ccbp_trailing_sequence (c : CostChangedByPercent) (db : DB) (totals : List ConvertedTo)
    (hdb : db.alwaysSucceeds) (htr : c.trailingAlert = true) (hp : 0 < c.percent)
    (ha : 0 < c.startTotalCost) (hpos : ∀ tb ∈ totals, 0 < TotalBalance tb c.currency) :
    (∀ pre tb post, totals = pre ++ tb :: post →
      ∃ st, (c.run db totals).1[pre.length]? = some (.ok st) ∧
        (st.Ok = true ↔ c.percent ≤
          |TotalBalance tb c.currency -
              anchorAfter c.startTotalCost
                (List.zip (pre.map (fun x => TotalBalance x c.currency))
                  ((c.run db pre).1.map fired))| /
            anchorAfter c.startTotalCost
              (List.zip (pre.map (fun x => TotalBalance x c.currency))
                ((c.run db pre).1.map fired)) * 100) ∧
        st.Done = false) ∧
    (∀ pre tb1 tb2 post, totals = pre ++ tb1 :: tb2 :: post →
      TotalBalance tb1 c.currency = TotalBalance tb2 c.currency →
      ((c.run db totals).1[pre.length]?).map fired = some true →
      ((c.run db totals).1[pre.length + 1]?).map fired = some false) := by
  have _ha := ha
  have _hpos := hpos
  constructor
  · intro pre tb post htot
    subst htot
    refine ⟨_, ccbp_run_step pre c db tb post hdb htr, ?_, rfl⟩
    simp [devPercent]
  · intro pre tb1 tb2 post htot hT h1
    subst htot
    exact ccbp_run_no_refire pre c db tb1 tb2 post hdb htr hp hT h1

/-- The statement of C5 at the spec's scenario (anchor 100, threshold 10, totals 110, 115,
121): the third evaluation is measured against the anchor left by the earlier fires, and
the three evaluations give fire, no fire, fire. -/
theorem ccbp_trailing_sequence_witness :
    (∃ st, (trailingDemo.run emptyStore demoTotals).1[2]? = some (.ok st) ∧
        (st.Ok = true ↔ trailingDemo.percent ≤
          |TotalBalance [(.USDT, 121)] trailingDemo.currency -
              anchorAfter trailingDemo.startTotalCost
                (List.zip ([[(Currency.USDT, (110 : Decimal))], [(.USDT, 115)]].map
                    (fun x => TotalBalance x trailingDemo.currency))
                  ((trailingDemo.run emptyStore [[(.USDT, 110)], [(.USDT, 115)]]).1.map fired))| /
            anchorAfter trailingDemo.startTotalCost
              (List.zip ([[(Currency.USDT, (110 : Decimal))], [(.USDT, 115)]].map
                  (fun x => TotalBalance x trailingDemo.currency))
                ((trailingDemo.run emptyStore [[(.USDT, 110)], [(.USDT, 115)]]).1.map fired))
              * 100) ∧
        st.Done = false) ∧
      (trailingDemo.run emptyStore demoTotals).1.map fired = [true, false, true] :=
  ⟨(ccbp_trailing_sequence trailingDemo emptyStore demoTotals (fun _ => rfl) rfl
      (by norm_num [trailingDemo]) (by norm_num [trailingDemo])
      (by simp [demoTotals, trailingDemo, TotalBalance, ConvertedTo.get, mapGet?])).1
      [[(.USDT, 110)], [(.USDT, 115)]] [(.USDT, 121)] [] rfl,
    by
      simp [demoTotals, CostChangedByPercent.run, CostChangedByPercent.TryExecute, trailingDemo,
        emptyStore, DB.exec, TotalBalance, ConvertedTo.get, mapGet?, devPercent, fired]
      norm_num⟩

/-! ## updateData -/

/-- C2: two balance updates in a row on a fresh portfolio, `{USDT: 100}` and then
`{USDT: 110}`. Both succeed; the second starts from the snapshot the first left in the
cache and adds to its total, so the saved snapshot has `balance.total[USDT] = 210` while
its `balance.details` sum to `110`. -/
theorem updateData_total_accumulates :
    ∃ d1 p1 d2 p2,
      demoPortfolio.updateData 2 [("USDT", ⟨100⟩)] = some (.ok d1, p1) ∧
      p1.updateData 2 [("USDT", ⟨110⟩)] = some (.ok d2, p2) ∧
      mapGet? p2.dataHolder.rdb.values "portfolio:acc" = some d2 ∧
      d2.Balance.Total.get .USDT = 210 ∧
      (d2.Balance.Details.map (fun e => e.2.get .USDT)).sum = 110 := by
  refine ⟨_, _, _, _, rfl, rfl, ?_, ?_, ?_⟩
  · rfl
  · norm_num [ConvertedTo.get, mapGet?, mapSet]
  · norm_num [ConvertedTo.get, mapGet?, mapSet]

/-! ## price -/

/-- The catalog loop only gets more defined when the calls it makes do. -/
theorem priceHops_mono (f g : CoreCurrency → CoreCurrency → Int → Option Decimal)
    (hfg : ∀ b q d v, f b q d = some v → g b q d = some v)
    (base quote : CoreCurrency) (depth : Int) (symbols : List Symbol) (v : Decimal)
    (h : priceHops f base quote depth symbols = some v) :
    priceHops g base quote depth symbols = some v := by
  induction symbols with
  | nil => simpa [priceHops] using h
  | cons s rest ih =>
    unfold priceHops at h ⊢
    by_cases hb : s.Base ≠ base
    · rw [if_pos hb] at h ⊢
      exact ih h
    · rw [if_neg hb] at h ⊢
      cases h1 : f s.Quote quote (depth + 1) with
      | none => simp [h1] at h
      | some r =>
        rw [h1] at h
        rw [hfg _ _ _ _ h1]
        by_cases hr : r ≠ 0
        · simp only [hr, ne_eq, not_false_eq_true, if_true] at h ⊢
          cases h2 : f s.Base s.Quote 0 with
          | none => simp [h2] at h
          | some w =>
            rw [h2] at h
            rw [hfg _ _ _ _ h2]
            exact h
        · simp only [hr, if_false] at h ⊢
          exact ih h

/-- One more unit of fuel does not change a result of `price`. -/
theorem price_mono_succ (p : Portfolio) (fuel : Nat) :
    ∀ (base quote : CoreCurrency) (depth : Int) (v : Decimal),
      p.price fuel base quote depth = some v → p.price (fuel + 1) base quote depth = some v := by
  induction fuel with
  | zero => intro base quote depth v h; simp [Portfolio.price] at h
  | succ n ih =>
    intro base quote depth v h
    rw [Portfolio.price] at h ⊢
    by_cases hbq : base = quote
    · rw [if_pos hbq] at h ⊢; exact h
    · rw [if_neg hbq] at h ⊢
      cases hd : p.gw.Instrument (base ++ quote) with
      | ok inst => rw [hd] at h; exact h
      | error e =>
        rw [hd] at h
        cases hi : p.gw.Instrument (quote ++ base) with
        | ok inst => rw [hi] at h; exact h
        | error e1 =>
          rw [hi] at h
          by_cases hdep : depth > 5
          · simp only [hdep, if_true] at h ⊢; exact h
          · simp only [hdep, if_false] at h ⊢
            exact priceHops_mono _ _ ih _ _ _ _ _ h

/-- More fuel does not change a result of `price`. -/
theorem price_mono (p : Portfolio) (n m : Nat) (hnm : n ≤ m) (base quote : CoreCurrency)
    (depth : Int) (v : Decimal) (h : p.price n base quote depth = some v) :
    p.price m base quote depth = some v := by
  induction hnm with
  | refl => exact h
  | step _ ih => exact price_mono_succ p _ _ _ _ _ ih

/-- A call of `price` returns at most one value. -/
theorem priceReturns_unique (p : Portfolio) (base quote : CoreCurrency) (depth : Int)
    (v w : Decimal) (hv : p.priceReturns base quote depth v)
    (hw : p.priceReturns base quote depth w) : v = w := by
  obtain ⟨n, hn⟩ := hv
  obtain ⟨m, hm⟩ := hw
  have h1 := price_mono p n (max n m) (le_max_left _ _) _ _ _ _ hn
  have h2 := price_mono p m (max n m) (le_max_right _ _) _ _ _ _ hm
  rw [h1] at h2
  exact Option.some.inj h2

/-- Finitely many calls that each return zero do so within a common amount of fuel. -/
theorem price_common_fuel (p : Portfolio) (base quote : CoreCurrency) (depth : Int)
    (symbols : List Symbol)
    (h : ∀ s ∈ symbols, s.Base = base → p.priceReturns s.Quote quote depth 0) :
    ∃ n, ∀ m, n ≤ m → ∀ s ∈ symbols, s.Base = base → p.price m s.Quote quote depth = some 0 := by
  induction symbols with
  | nil => exact ⟨0, fun _ _ s hs => absurd hs (List.not_mem_nil s)⟩
  | cons a rest ih =>
    obtain ⟨n, hn⟩ := ih (fun s hs => h s (List.mem_cons_of_mem _ hs))
    by_cases ha : a.Base = base
    · obtain ⟨k, hk⟩ := h a (List.mem_cons_self _ _) ha
      refine ⟨max n k, fun m hm s hs hsb => ?_⟩
      rcases List.mem_cons.mp hs with rfl | hs
      · exact price_mono p k m (le_trans (le_max_right _ _) hm) _ _ _ _ hk
      · exact hn m (le_trans (le_max_left _ _) hm) s hs hsb
    · refine ⟨n, fun m hm s hs hsb => ?_⟩
      rcases List.mem_cons.mp hs with rfl | hs
      · exact absurd hsb ha
      · exact hn m hm s hs hsb

/-- The catalog loop when no hop resolves. -/
theorem priceHops_all_zero (f : CoreCurrency → CoreCurrency → Int → Option Decimal)
    (base quote : CoreCurrency) (depth : Int) (symbols : List Symbol)
    (h : ∀ s ∈ symbols, s.Base = base → f s.Quote quote (depth + 1) = some 0) :
    priceHops f base quote depth symbols = some 0 := by
  induction symbols with
  | nil => rfl
  | cons s rest ih =>
    have ih1 := ih (fun s1 hs1 => h s1 (List.mem_cons_of_mem _ hs1))
    unfold priceHops
    by_cases hb : s.Base ≠ base
    · rw [if_pos hb]; exact ih1
    · rw [if_neg hb, h s (List.mem_cons_self _ _) (not_not.mp hb)]
      simpa using ih1

/-- The catalog loop when `s` is the first hop that resolves. -/
theorem priceHops_first (f : CoreCurrency → CoreCurrency → Int → Option Decimal)
    (base quote : CoreCurrency) (depth : Int) (pre post : List Symbol) (s : Symbol)
    (r v : Decimal)
    (hpre : ∀ s1 ∈ pre, s1.Base = base → f s1.Quote quote (depth + 1) = some 0)
    (hs : s.Base = base) (hr : f s.Quote quote (depth + 1) = some r) (hr0 : r ≠ 0)
    (hv : f s.Base s.Quote 0 = some v) :
    priceHops f base quote depth (pre ++ s :: post) = some (v * r) := by
  induction pre with
  | nil =>
    rw [List.nil_append]
    unfold priceHops
    rw [if_neg (not_not.mpr hs), hr]
    simp [hr0, hv]
  | cons a rest ih =>
    have ih1 := ih (fun s1 hs1 => hpre s1 (List.mem_cons_of_mem _ hs1))
    rw [List.cons_append]
    unfold priceHops
    by_cases hb : a.Base ≠ base
    · rw [if_pos hb]; exact ih1
    · rw [if_neg hb, hpre a (List.mem_cons_self _ _) (not_not.mp hb)]
      simpa using ih1

/-- `price` past the identity, direct and inverse cases, within the depth cap. -/
theorem price_hops_eq (p : Portfolio) (fuel : Nat) (base quote : CoreCurrency) (depth : Int)
    (hne : base ≠ quote)
    (hdirect : ∃ e, p.gw.Instrument (base ++ quote) = .error e)
    (hinverse : ∃ e, p.gw.Instrument (quote ++ base) = .error e)
    (hdepth : depth ≤ 5) :
    p.price (fuel + 1) base quote depth =
      priceHops (fun b q d => p.price fuel b q d) base quote depth p.gw.AllSymbols := by
  obtain ⟨e1, h1⟩ := hdirect
  obtain ⟨e2, h2⟩ := hinverse
  rw [Portfolio.price, if_neg hne, h1, h2]
  simp [not_lt.mpr hdepth]

/-- C10: for `base ≠ quote` with neither `Instrument(base+quote)` nor
`Instrument(quote+base)` available and `depth <= 5`: when `s` is the first symbol of the
catalog with `s.base = base` whose call `price(s.quote, quote, depth+1)` returns a non-zero
`r` (the earlier symbols with that base returning `0`) and `price(s.base, s.quote, 0)`
returns `v`, then `price(base, quote, depth)` returns `v * r` and nothing else; and when
every symbol with that base returns `0`, it returns `0` and nothing else. -/
theorem price_recursive_hop (p : Portfolio) (base quote : CoreCurrency) (depth : Int)
    (hne : base ≠ quote)
    (hdirect : ∃ e, p.gw.Instrument (base ++ quote) = .error e)
    (hinverse : ∃ e, p.gw.Instrument (quote ++ base) = .error e)
    (hdepth : depth ≤ 5) :
    (∀ pre s post r v, p.gw.AllSymbols = pre ++ s :: post →
      (∀ s1 ∈ pre, s1.Base = base → p.priceReturns s1.Quote quote (depth + 1) 0) →
      s.Base = base → p.priceReturns s.Quote quote (depth + 1) r → r ≠ 0 →
      p.priceReturns s.Base s.Quote 0 v →
      p.priceReturns base quote depth (v * r) ∧
        ∀ w, p.priceReturns base quote depth w → w = v * r) ∧
    ((∀ s ∈ p.gw.AllSymbols, s.Base = base → p.priceReturns s.Quote quote (depth + 1) 0) →
      p.priceReturns base quote depth 0 ∧ ∀ w, p.priceReturns base quote depth w → w = 0) := by
  constructor
  · intro pre s post r v hcat hpre hs hr hr0 hv
    have hret : p.priceReturns base quote depth (v * r) := by
      obtain ⟨n, hn⟩ := price_common_fuel p base quote (depth + 1) pre hpre
      obtain ⟨k, hk⟩ := hr
      obtain ⟨j, hj⟩ := hv
      refine ⟨max n (max k j) + 1, ?_⟩
      rw [price_hops_eq p _ base quote depth hne hdirect hinverse hdepth, hcat]
      refine priceHops_first _ base quote depth pre post s r v ?_ hs ?_ hr0 ?_
      · exact fun s1 hs1 hb => hn _ (le_max_left _ _) s1 hs1 hb
      · exact price_mono p k _ (le_trans (le_max_left _ _) (le_max_right _ _)) _ _ _ _ hk
      · exact price_mono p j _ (le_trans (le_max_right _ _) (le_max_right _ _)) _ _ _ _ hj
    exact ⟨hret, fun w hw => priceReturns_unique p base quote depth w _ hw hret⟩
  · intro hall
    have hret : p.priceReturns base quote depth 0 := by
      obtain ⟨n, hn⟩ := price_common_fuel p base quote (depth + 1) p.gw.AllSymbols hall
      refine ⟨n + 1, ?_⟩
      rw [price_hops_eq p _ base quote depth hne hdirect hinverse hdepth]
      exact priceHops_all_zero _ base quote depth _ (fun s hs hb => hn n le_rfl s hs hb)
    exact ⟨hret, fun w hw => priceReturns_unique p base quote depth w _ hw hret⟩

/-- The statement of C10 at the spec's scenario: with `ETH/USDT` at ask 200 and `USDT/DOGE`
at ask 200 and no `ETH/DOGE` or `DOGE/ETH` instrument, `price(ETH, DOGE, 0)` returns
`200 * 200`, which is `40000`. -/
theorem price_recursive_hop_witness :
    (hopPortfolio.priceReturns "ETH" "DOGE" 0 (200 * 200) ∧
      ∀ w, hopPortfolio.priceReturns "ETH" "DOGE" 0 w → w = 200 * 200) ∧
    hopPortfolio.price 2 "ETH" "DOGE" 0 = some 40000 :=
  ⟨(price_recursive_hop hopPortfolio "ETH" "DOGE" 0 (by decide) ⟨_, rfl⟩ ⟨_, rfl⟩
      (by decide)).1 [] ⟨"ETH", "USDT"⟩ [⟨"USDT", "DOGE"⟩] 200 200 rfl
      (fun _ h => absurd h (List.not_mem_nil _)) rfl ⟨1, rfl⟩ (by norm_num) ⟨1, rfl⟩,
    by
      simp [Portfolio.price, priceHops, hopPortfolio, NewPortfolio, hopGateway, Instrument.Price]
      norm_num⟩

/-! ## handleBalanceUpdate: the trigger loop -/

/-- The shape of one evaluation of a `CostChangedByPercent`: the result and the trigger it
leaves behind (the same trigger, up to its anchor) depend on the store only through the
calls it rejects, and the evaluation does not change which calls are rejected. -/
theorem ccbp_tryExecute_shape (c : CostChangedByPercent) (tb : ConvertedTo)
    (failure : Query → Option Error) :
    ∃ r a, ∀ applied, ∃ applied1,
      c.TryExecute tb { failure := failure, applied := applied } =
        (r, { c with startTotalCost := a }, { failure := failure, applied := applied1 }) := by
  by_cases hok : (!decide (devPercent (TotalBalance tb c.currency) c.startTotalCost < c.percent)
      && c.trailingAlert) = true
  · cases hf : failure (.PortfolioTriggers_UpdateStartTotalCost
        { StartTotalCost := some c.startTotalCost, ID := c.id }) with
    | some e =>
      refine ⟨.error (.wrap e "failed to update start total cost of portfolio trigger"),
        c.startTotalCost, fun applied => ⟨applied, ?_⟩⟩
      unfold CostChangedByPercent.TryExecute
      dsimp only
      rw [if_pos hok]
      simp only [DB.exec, hf]
    | none =>
      exact ⟨_, TotalBalance tb c.currency, fun applied => ⟨_, by
        unfold CostChangedByPercent.TryExecute
        dsimp only
        rw [if_pos hok]
        simp only [DB.exec, hf]
        rfl⟩⟩
  · exact ⟨_, c.startTotalCost, fun applied => ⟨applied, by
      unfold CostChangedByPercent.TryExecute
      dsimp only
      rw [if_neg hok]⟩⟩

/-- The shape of one evaluation of a trigger, see `ccbp_tryExecute_shape`. -/
theorem tryExecute_shape (t : Trigger) (tb : ConvertedTo) (failure : Query → Option Error) :
    ∃ r t1, t1.ID = t.ID ∧ ∀ applied, ∃ applied1,
      t.TryExecute tb { failure := failure, applied := applied } =
        (r, t1, { failure := failure, applied := applied1 }) := by
  cases t with
  | crl c =>
    exact ⟨c.TryExecute tb, .crl c, rfl, fun applied => ⟨applied, rfl⟩⟩
  | ccbp c =>
    obtain ⟨r, a, h⟩ := ccbp_tryExecute_shape c tb failure
    refine ⟨r, .ccbp { c with startTotalCost := a }, rfl, fun applied => ?_⟩
    obtain ⟨applied1, h1⟩ := h applied
    refine ⟨applied1, ?_⟩
    show ((c.TryExecute tb _).1, Trigger.ccbp (c.TryExecute tb _).2.1,
      (c.TryExecute tb _).2.2) = _
    rw [h1]

/-- Writing through an entry keeps the keys of the map. -/
theorem mapModify_keys {κ ν : Type} [DecidableEq κ] (m : List (κ × ν)) (key : κ) (val : ν) :
    (mapModify m key val).map Prod.fst = m.map Prod.fst := by
  induction m with
  | nil => rfl
  | cons e rest ih =>
    obtain ⟨k, v⟩ := e
    unfold mapModify
    by_cases hk : k = key
    · simp [hk]
    · simp [hk, ih]

/-- The keys after `delete(m, k)`. -/
theorem mapDelete_keys {κ ν : Type} [DecidableEq κ] (m : List (κ × ν)) (key : κ) :
    (mapDelete m key).map Prod.fst = (m.map Prod.fst).filter (fun k => !decide (k = key)) := by
  induction m with
  | nil => rfl
  | cons e rest ih =>
    obtain ⟨k, v⟩ := e
    unfold mapDelete at ih ⊢
    by_cases hk : k = key
    · simp [List.filter_cons, hk, ih]
    · simp [List.filter_cons, hk, ih]

/-- The body of the trigger loop in one equation: the trigger is written back, it is
deleted from the map exactly when it is retired, the publisher receives the fired event
if there is one, and nothing else of the portfolio changes but the store's record. -/
theorem checkTrigger_eq (p : Portfolio) (now : Int) (tID : String) (t : Trigger) :
    ∃ (db1 : DB) (t1 : Trigger), db1.failure = p.db.failure ∧
      p.checkTrigger now tID t =
        { p with
          db := db1
          triggers :=
            if p.retires t = true then mapDelete (mapModify p.triggers tID t1) tID
            else mapModify p.triggers tID t1
          tePublisher :=
            match p.firedEvent now t, p.tePublisher with
            | some ev, some pub => some (pub.call ev).2
            | _, pub => pub } := by
  obtain ⟨r, t1, hID, h⟩ := tryExecute_shape t p.dataHolder.totalBalance p.db.failure
  obtain ⟨applied1, h1⟩ := h p.db.applied
  have h2 : t.TryExecute p.dataHolder.totalBalance p.db =
      (r, t1, { failure := p.db.failure, applied := applied1 }) := h1
  unfold Portfolio.checkTrigger Portfolio.retires Portfolio.firedEvent
  rw [h2]
  cases r with
  | error e =>
    refine ⟨{ failure := p.db.failure, applied := applied1 }, t1, rfl, ?_⟩
    cases hpub : p.tePublisher <;> simp
  | ok st =>
    cases hDone : st.Done
    · refine ⟨{ failure := p.db.failure, applied := applied1 }, t1, rfl, ?_⟩
      cases hOk : st.Ok <;> cases hpub : p.tePublisher <;> simp [hOk, hDone, hpub]
    · cases hdel : p.db.failure (.PortfolioTriggers_Delete t.ID) with
      | some e =>
        refine ⟨{ failure := p.db.failure, applied := applied1 }, t1, rfl, ?_⟩
        cases hOk : st.Ok <;> cases hpub : p.tePublisher <;>
          simp [hOk, hDone, hpub, hdel, hID, DB.exec]
      | none =>
        refine ⟨{ failure := p.db.failure,
                  applied := applied1 ++ [.PortfolioTriggers_Delete t.ID] }, t1, rfl, ?_⟩
        cases hOk : st.Ok <;> cases hpub : p.tePublisher <;>
          simp [hOk, hDone, hpub, hdel, hID, DB.exec]

/-- Whether a trigger is retired depends on the portfolio only through its hot total and
the calls its store rejects. -/
theorem retires_congr (p q : Portfolio) (t : Trigger) (hd : q.dataHolder = p.dataHolder)
    (hf : q.db.failure = p.db.failure) : q.retires t = p.retires t := by
  obtain ⟨r, t1, -, h⟩ := tryExecute_shape t p.dataHolder.totalBalance p.db.failure
  obtain ⟨a1, h1⟩ := h p.db.applied
  obtain ⟨a2, h2⟩ := h q.db.applied
  have h3 : t.TryExecute p.dataHolder.totalBalance p.db =
      (r, t1, { failure := p.db.failure, applied := a1 }) := h1
  have h4 : t.TryExecute q.dataHolder.totalBalance q.db =
      (r, t1, { failure := p.db.failure, applied := a2 }) := by
    rw [hd, ← h2, ← hf]
  unfold Portfolio.retires
  rw [h3, h4, hf]

/-- The event a trigger fires depends on the portfolio only through its name, its hot
total and the calls its store rejects. -/
theorem firedEvent_congr (p q : Portfolio) (now : Int) (t : Trigger)
    (hn : q.name = p.name) (hd : q.dataHolder = p.dataHolder)
    (hf : q.db.failure = p.db.failure) : q.firedEvent now t = p.firedEvent now t := by
  obtain ⟨r, t1, -, h⟩ := tryExecute_shape t p.dataHolder.totalBalance p.db.failure
  obtain ⟨a1, h1⟩ := h p.db.applied
  obtain ⟨a2, h2⟩ := h q.db.applied
  have h3 : t.TryExecute p.dataHolder.totalBalance p.db =
      (r, t1, { failure := p.db.failure, applied := a1 }) := h1
  have h4 : t.TryExecute q.dataHolder.totalBalance q.db =
      (r, t1, { failure := p.db.failure, applied := a2 }) := by
    rw [hd, ← h2, ← hf]
  unfold Portfolio.firedEvent
  rw [h3, h4, hn]
  cases r <;> rfl

/-- What the loop body leaves untouched, and what it does to the keys of the trigger map
and to the publisher. -/
theorem checkTrigger_spec (p : Portfolio) (now : Int) (tID : String) (t : Trigger) :
    (p.checkTrigger now tID t).name = p.name ∧
    (p.checkTrigger now tID t).dataHolder = p.dataHolder ∧
    (p.checkTrigger now tID t).db.failure = p.db.failure ∧
    (p.checkTrigger now tID t).closed = p.closed ∧
    (p.checkTrigger now tID t).acc = p.acc ∧
    (p.checkTrigger now tID t).triggers.map Prod.fst =
      (p.triggers.map Prod.fst).filter (fun k => !(decide (k = tID) && p.retires t)) ∧
    (p.checkTrigger now tID t).tePublisher =
      p.tePublisher.map (fun pub =>
        { pub with received := pub.received ++ (p.firedEvent now t).toList }) := by
  obtain ⟨db1, t1, hf, h⟩ := checkTrigger_eq p now tID t
  rw [h]
  refine ⟨rfl, rfl, hf, rfl, rfl, ?_, ?_⟩
  · cases hr : p.retires t
    · simp [mapModify_keys]
    · simp [mapModify_keys, mapDelete_keys]
  · cases hev : p.firedEvent now t <;> cases hpub : p.tePublisher <;> simp [Publisher.call]

/-- The trigger loop over the entries `l`: what it leaves untouched, which keys remain
in the trigger map, and which events the publisher receives, in order. -/
theorem checkTriggers_spec (now : Int) (l : List (String × Trigger)) :
    ∀ p : Portfolio,
      (Portfolio.checkTriggers now p l).name = p.name ∧
      (Portfolio.checkTriggers now p l).dataHolder = p.dataHolder ∧
      (Portfolio.checkTriggers now p l).db.failure = p.db.failure ∧
      (Portfolio.checkTriggers now p l).closed = p.closed ∧
      (Portfolio.checkTriggers now p l).acc = p.acc ∧
      (Portfolio.checkTriggers now p l).triggers.map Prod.fst =
        (p.triggers.map Prod.fst).filter
          (fun k => !(l.any (fun e => decide (k = e.1) && p.retires e.2))) ∧
      (Portfolio.checkTriggers now p l).tePublisher =
        p.tePublisher.map (fun pub =>
          { pub with received := pub.received ++ l.filterMap (fun e => p.firedEvent now e.2) }) := by
  induction l with
  | nil =>
    intro p
    refine ⟨rfl, rfl, rfl, rfl, rfl, ?_, ?_⟩
    · simp [Portfolio.checkTriggers]
    · cases hpub : p.tePublisher <;> simp [Portfolio.checkTriggers, hpub]
  | cons e rest ih =>
    intro p
    obtain ⟨tID, t⟩ := e
    obtain ⟨hn, hd, hf, hc, ha, hk, hp⟩ := checkTrigger_spec p now tID t
    obtain ⟨ihn, ihd, ihf, ihc, iha, ihk, ihp⟩ := ih (p.checkTrigger now tID t)
    have hret : ∀ t1, (p.checkTrigger now tID t).retires t1 = p.retires t1 :=
      fun t1 => retires_congr p _ t1 hd hf
    have hev : ∀ t1, (p.checkTrigger now tID t).firedEvent now t1 = p.firedEvent now t1 :=
      fun t1 => firedEvent_congr p _ now t1 hn hd hf
    simp only [hret, hev] at ihk ihp
    unfold Portfolio.checkTriggers
    refine ⟨ihn.trans hn, ihd.trans hd, ihf.trans hf, ihc.trans hc, iha.trans ha, ?_, ?_⟩
    · rw [ihk, hk, List.filter_filter]
      apply List.filter_congr
      intro k _
      simp only [List.any_cons, Bool.not_or, Bool.and_comm]
    · rw [ihp, hp]
      cases hpub : p.tePublisher with
      | none => rfl
      | some pub =>
        cases hfe : p.firedEvent now t <;> simp [List.filterMap_cons, hfe]

/-! ## handleBalanceUpdate -/

/-- `updateData` touches nothing of the portfolio but its data holder. -/
theorem updateData_frame (p p1 : Portfolio) (fuel : Nat)
    (balances : List (CoreCurrency × Balance)) (r : Except Error Data)
    (h : p.updateData fuel balances = some (r, p1)) :
    p1 = { p with dataHolder := p1.dataHolder } := by
  unfold Portfolio.updateData at h
  dsimp only at h
  split at h
  · simp only [Option.some.injEq, Prod.mk.injEq] at h
    rw [← h.2]
  · split at h
    · exact absurd h (by simp)
    · split at h
      · simp only [Option.some.injEq, Prod.mk.injEq] at h
        rw [← h.2]
      · simp only [Option.some.injEq, Prod.mk.injEq] at h
        rw [← h.2]

/-- `handleBalanceUpdate` once `updateData` has succeeded: it returns no error, and the
portfolio it leaves is the one the trigger loop leaves. -/
theorem handleBalanceUpdate_eq (p p1 : Portfolio) (fuel : Nat) (now : Int)
    (balances : List (CoreCurrency × Balance)) (d : Data)
    (h : p.updateData fuel balances = some (.ok d, p1)) :
    p.handleBalanceUpdate fuel now balances =
      some (none, Portfolio.checkTriggers now p1 p1.triggers) := by
  unfold Portfolio.handleBalanceUpdate
  rw [h]

/-- Unfolding `retires`. -/
theorem retires_iff (p : Portfolio) (t : Trigger) :
    p.retires t = true ↔
      ∃ st, (t.TryExecute p.dataHolder.totalBalance p.db).1 = .ok st ∧ st.Done = true ∧
        p.db.failure (.PortfolioTriggers_Delete t.ID) = none := by
  unfold Portfolio.retires
  cases (t.TryExecute p.dataHolder.totalBalance p.db).1 with
  | error e => simp
  | ok st => simp [Option.isNone_iff_eq_none]

/-- A trailing-alert trigger never reports `Done`. -/
theorem ccbp_trailing_not_done (c : CostChangedByPercent) (tb : ConvertedTo) (db : DB)
    (st : ExecutionStatus) (htr : c.trailingAlert = true)
    (h : (Trigger.TryExecute (.ccbp c) tb db).1 = .ok st) : st.Done = false := by
  have h1 : (c.TryExecute tb db).1 = .ok st := h
  unfold CostChangedByPercent.TryExecute at h1
  dsimp only at h1
  split at h1
  · unfold DB.exec at h1
    split at h1
    · simp at h1
    · simp only [Except.ok.injEq] at h1
      rw [← h1]
      simp [htr]
  · simp only [Except.ok.injEq] at h1
    rw [← h1]
    simp [htr]

/-- C7: after `handleBalanceUpdate` with `updateData` succeeding (it then returns no
error), no trigger has been added to the in-memory map, and a trigger of the map has been
removed if and only if its `TryExecute` returned `Done = true` and the store delete for its
id succeeded; in particular every trailing-alert trigger is still in the map. -/
theorem handleBalanceUpdate_removes_retired (p p1 : Portfolio) (fuel : Nat) (now : Int)
    (balances : List (CoreCurrency × Balance)) (d : Data)
    (hupd : p.updateData fuel balances = some (.ok d, p1))
    (hnodup : (p.triggers.map Prod.fst).Nodup) :
    ∃ p2, p.handleBalanceUpdate fuel now balances = some (none, p2) ∧
      (∀ k, k ∈ p2.triggers.map Prod.fst → k ∈ p.triggers.map Prod.fst) ∧
      (∀ tID t, (tID, t) ∈ p.triggers →
        (tID ∉ p2.triggers.map Prod.fst ↔
          ∃ st, (t.TryExecute p1.dataHolder.totalBalance p1.db).1 = .ok st ∧
            st.Done = true ∧ p1.db.failure (.PortfolioTriggers_Delete t.ID) = none)) ∧
      (∀ tID c, (tID, Trigger.ccbp c) ∈ p.triggers → c.trailingAlert = true →
        tID ∈ p2.triggers.map Prod.fst) := by
  have hframe := updateData_frame p p1 fuel balances _ hupd
  have htr : p1.triggers = p.triggers := by rw [hframe]
  obtain ⟨-, -, -, -, -, hk, -⟩ := checkTriggers_spec now p1.triggers p1
  rw [htr] at hk
  have hiff : ∀ tID t, (tID, t) ∈ p.triggers →
      (tID ∉ (Portfolio.checkTriggers now p1 p.triggers).triggers.map Prod.fst ↔
        p1.retires t = true) := by
    intro tID t hmem
    rw [hk, List.mem_filter]
    have hin : tID ∈ p.triggers.map Prod.fst := List.mem_map.mpr ⟨(tID, t), hmem, rfl⟩
    constructor
    · intro hnot
      have hany : (p.triggers.any (fun e => decide (tID = e.1) && p1.retires e.2)) = true := by
        by_contra hc
        exact hnot ⟨hin, by simpa using hc⟩
      obtain ⟨e, he, hcond⟩ := List.any_eq_true.mp hany
      simp only [Bool.and_eq_true, decide_eq_true_eq] at hcond
      have heq : e = (tID, t) :=
        List.inj_on_of_nodup_map hnodup he hmem hcond.1.symm
      rw [heq] at hcond
      exact hcond.2
    · intro hret hnot
      have hany : (p.triggers.any (fun e => decide (tID = e.1) && p1.retires e.2)) = true :=
        List.any_eq_true.mpr ⟨(tID, t), hmem, by simp [hret]⟩
      simp [hany] at hnot
  refine ⟨_, by rw [handleBalanceUpdate_eq p p1 fuel now balances d hupd, htr], ?_, ?_, ?_⟩
  · intro k hkmem
    rw [hk] at hkmem
    exact (List.mem_filter.mp hkmem).1
  · intro tID t hmem
    rw [hiff tID t hmem, retires_iff]
  · intro tID c hmem htrail
    by_contra hnot
    obtain ⟨st, hst, hdone, -⟩ := (retires_iff p1 _).mp ((hiff tID _ hmem).mp hnot)
    rw [ccbp_trailing_not_done c _ _ st htrail hst] at hdone
    exact Bool.false_ne_true hdone

/-- C8: during one `handleBalanceUpdate` with a publisher configured (`updateData`
succeeding), the publisher is handed, in the order of the loop, exactly one event for
each in-memory trigger whose `TryExecute` returned `Ok = true` and none for any other; the
event carries the portfolio's name, the trigger's settings and the status's
`CurrentValue` (see `firedEvent`). -/
theorem handleBalanceUpdate_publishes_fired (p p1 : Portfolio) (fuel : Nat) (now : Int)
    (balances : List (CoreCurrency × Balance)) (d : Data) (pub : Publisher)
    (hupd : p.updateData fuel balances = some (.ok d, p1))
    (hpub : p.tePublisher = some pub) :
    ∃ p2, p.handleBalanceUpdate fuel now balances = some (none, p2) ∧
      p2.tePublisher = some
        { pub with
          received := pub.received ++ p.triggers.filterMap (fun e => p1.firedEvent now e.2) } ∧
      (∀ t, (∃ ev, p1.firedEvent now t = some ev) ↔
        ∃ st, (t.TryExecute p1.dataHolder.totalBalance p1.db).1 = .ok st ∧ st.Ok = true) ∧
      (∀ t ev, p1.firedEvent now t = some ev →
        ev.Portfolio = p.name ∧
        ev.TriggerSettings = (t.TryExecute p1.dataHolder.totalBalance p1.db).2.1.Settings ∧
        ∃ st, (t.TryExecute p1.dataHolder.totalBalance p1.db).1 = .ok st ∧
          ev.CurrentValue = st.CurrentValue) := by
  have hframe := updateData_frame p p1 fuel balances _ hupd
  have htr : p1.triggers = p.triggers := by rw [hframe]
  have hp1 : p1.tePublisher = some pub := by rw [hframe]; exact hpub
  have hname : p1.name = p.name := by rw [hframe]
  obtain ⟨-, -, -, -, -, -, hp⟩ := checkTriggers_spec now p1.triggers p1
  rw [hp1, htr] at hp
  refine ⟨_, by rw [handleBalanceUpdate_eq p p1 fuel now balances d hupd, htr], hp, ?_, ?_⟩
  · intro t
    unfold Portfolio.firedEvent
    rcases t.TryExecute p1.dataHolder.totalBalance p1.db with ⟨r, t1, db1⟩
    cases r with
    | error e => simp
    | ok st => cases hOk : st.Ok <;> simp [hOk]
  · intro t ev
    unfold Portfolio.firedEvent
    rcases t.TryExecute p1.dataHolder.totalBalance p1.db with ⟨r, t1, db1⟩
    cases r with
    | error e => simp
    | ok st =>
      cases hOk : st.Ok
      · simp [hOk]
      · intro h
        simp only [hOk, if_true, Option.some.injEq] at h
        rw [← h]
        exact ⟨hname, rfl, st, rfl, rfl⟩

/-- The statement of C7 on `watchedPortfolio` (balances `{USDT: 120}`): the update
returns no error, adds no trigger, removes the one-shot trigger that fired and keeps the
trailing one. -/
theorem handleBalanceUpdate_removes_retired_witness :
    ∃ p2, watchedPortfolio.handleBalanceUpdate 2 0 [("USDT", ⟨120⟩)] = some (none, p2) ∧
      (∀ k, k ∈ p2.triggers.map Prod.fst → k ∈ watchedPortfolio.triggers.map Prod.fst) ∧
      "crl-1" ∉ p2.triggers.map Prod.fst ∧ "t-1" ∈ p2.triggers.map Prod.fst := by
  obtain ⟨p2, h, hsub, hiff, htrail⟩ :=
    handleBalanceUpdate_removes_retired watchedPortfolio _ 2 0 [("USDT", ⟨120⟩)] _ rfl
      (by decide)
  refine ⟨p2, h, hsub, ?_, ?_⟩
  · refine (hiff "crl-1" (.crl limitDemo) (List.Mem.head _)).mpr ⟨_, rfl, ?_, rfl⟩
    simp [CostReachedLimit.TryExecute, limitDemo, TotalBalance, ConvertedTo.get, mapGet?, mapSet]
    norm_num
  · exact htrail "t-1" trailingDemo (List.Mem.tail _ (List.Mem.head _)) rfl

/-- The statement of C8 on `watchedPortfolio` (balances `{USDT: 120}`): both triggers
fire, and the publisher receives one event for each, in the order of the loop, with the
portfolio's name and the status's value (the total 120 for the limit trigger, the
deviation 20 for the percent trigger). -/
theorem handleBalanceUpdate_publishes_fired_witness :
    ∃ p2 pub2, watchedPortfolio.handleBalanceUpdate 2 7 [("USDT", ⟨120⟩)] = some (none, p2) ∧
      p2.tePublisher = some pub2 ∧
      pub2.received =
        [{ Portfolio := "acc", Timestamp := 7, CurrentValue := 120,
           TriggerSettings := limitDemo.Settings },
         { Portfolio := "acc", Timestamp := 7, CurrentValue := 20,
           TriggerSettings := { trailingDemo with startTotalCost := 120 }.Settings }] := by
  have hupd : ∃ d p1, watchedPortfolio.updateData 2 [("USDT", ⟨120⟩)] = some (.ok d, p1) ∧
      TotalBalance p1.dataHolder.totalBalance .USDT = 120 ∧ p1.db = emptyStore ∧
      p1.name = "acc" :=
    ⟨_, _, rfl, by norm_num [TotalBalance, ConvertedTo.get, mapGet?, mapSet, emptyData], rfl, rfl⟩
  obtain ⟨d, p1, hupd, htb, hdb, hname⟩ := hupd
  obtain ⟨p2, h, hp, -, -⟩ :=
    handleBalanceUpdate_publishes_fired watchedPortfolio p1 2 7 [("USDT", ⟨120⟩)] d
      quietPublisher hupd rfl
  have hl : watchedPortfolio.triggers =
      [("crl-1", .crl limitDemo), ("t-1", .ccbp trailingDemo)] := rfl
  have h1 : p1.firedEvent 7 (.crl limitDemo) =
      some { Portfolio := "acc", Timestamp := 7, CurrentValue := 120,
             TriggerSettings := limitDemo.Settings } := by
    have htb1 : TotalBalance p1.dataHolder.totalBalance limitDemo.currency = 120 := htb
    simp only [Portfolio.firedEvent, Trigger.TryExecute, CostReachedLimit.TryExecute, htb1, hname,
      Trigger.Settings]
    norm_num [limitDemo]
  have h2 : p1.firedEvent 7 (.ccbp trailingDemo) =
      some { Portfolio := "acc", Timestamp := 7, CurrentValue := 20,
             TriggerSettings := { trailingDemo with startTotalCost := 120 }.Settings } := by
    have htb1 : TotalBalance p1.dataHolder.totalBalance trailingDemo.currency = 120 := htb
    have hdev : devPercent 120 trailingDemo.startTotalCost = 20 := by
      norm_num [devPercent, trailingDemo]
    unfold Portfolio.firedEvent Trigger.TryExecute CostChangedByPercent.TryExecute
    simp only [htb1, hdev, hdb, hname, DB.exec, emptyStore, Trigger.Settings]
    norm_num [trailingDemo]
  rw [hl] at hp
  simp only [List.filterMap_cons, List.filterMap_nil, h1, h2] at hp
  exact ⟨p2, _, h, hp, rfl⟩

/-! ## start -/

/-- `price` reads nothing of the portfolio but its adapter. -/
theorem price_gw (p q : Portfolio) (h : q.gw = p.gw) (fuel : Nat) :
    ∀ (base quote : CoreCurrency) (depth : Int),
      q.price fuel base quote depth = p.price fuel base quote depth := by
  induction fuel with
  | zero => intro base quote depth; rfl
  | succ n ih =>
    intro base quote depth
    have hfun : (fun b qu d => Portfolio.price q n b qu d) =
        (fun b qu d => Portfolio.price p n b qu d) := by
      funext b qu d
      exact ih b qu d
    rw [Portfolio.price, Portfolio.price, h, hfun]

/-- `updateData` on an empty cache that accepts the write, for the single balance
`{USDT: a}`: the hot total in USDT becomes `a`. -/
theorem updateData_fresh_usdt (p : Portfolio) (fuel : Nat) (a v : Decimal)
    (hget : p.dataHolder.rdb.getErr = none)
    (hmiss : mapGet? p.dataHolder.rdb.values p.dataHolder.redisKey = none)
    (hset : p.dataHolder.rdb.setErr = none)
    (hprice : p.price fuel "USDT" "BTC" 0 = some v) :
    ∃ d p1, p.updateData fuel [("USDT", ⟨a⟩)] = some (.ok d, p1) ∧
      TotalBalance p1.dataHolder.totalBalance .USDT = a := by
  obtain ⟨n, rfl⟩ : ∃ n, fuel = n + 1 := by
    cases fuel with
    | zero => simp [Portfolio.price] at hprice
    | succ n => exact ⟨n, rfl⟩
  have hp1 : p.price (n + 1) "USDT" "USDT" 0 = some 1 := by simp [Portfolio.price]
  simp [Portfolio.updateData, dataHolder.Get, RedisClient.Get, hget, hmiss, Error.Is, redisNil,
    Portfolio.updateDataLoop, Currency.String, hp1, hprice, dataHolder.Save, RedisClient.Set,
    hset, TotalBalance, ConvertedTo.get, mapGet?, mapSet, emptyData]
  exact ⟨_, _, ⟨rfl, rfl⟩, by simp [mapGet?]⟩

/-- C9: `start` on a portfolio that is not started. If it returns nil, one complete
`handleBalanceUpdate` pass over the adapter's initial balances has returned nil before, and
the portfolio is the one that pass left (now subscribed, with its worker spawned). And in
the spec's scenario (empty cache that accepts the write, initial balances `{USDT: 120}`, one
trigger `CRL(USDT, limit = 100)`, a publisher, a store that accepts the delete, the
re-pricing of USDT in BTC returning) it does return nil, exactly one event with current
value 120 has been handed to the publisher, the trigger has been deleted from the store,
and the in-memory map is empty. -/
theorem start_runs_initial_pass (p : Portfolio) (fuel : Nat) (now : Int)
    (hclosed : p.closed ≠ 0) :
    (∀ p1, p.start fuel now = some (none, p1) →
      ∃ bals p2, p.acc.Balances = .ok bals ∧
        Portfolio.handleBalanceUpdate { p with closed := 0 } fuel now bals = some (none, p2) ∧
        p1 = { p2 with acc := { p2.acc with notifying := true }, worker := true }) ∧
    (∀ (c : CostReachedLimit) (pub : Publisher) (v : Decimal),
      p.acc.Balances = .ok [("USDT", ⟨120⟩)] →
      p.dataHolder.rdb.getErr = none →
      mapGet? p.dataHolder.rdb.values p.dataHolder.redisKey = none →
      p.dataHolder.rdb.setErr = none →
      p.triggers = [(c.id.String, .crl c)] → c.currency = .USDT → c.limit = 100 →
      p.tePublisher = some pub →
      p.db.failure (.PortfolioTriggers_Delete c.id) = none →
      p.price fuel "USDT" "BTC" 0 = some v →
      ∃ p1, p.start fuel now = some (none, p1) ∧
        p1.tePublisher = some
          { pub with
            received := pub.received ++
              [{ Portfolio := p.name, Timestamp := now, CurrentValue := 120,
                 TriggerSettings := c.Settings }] } ∧
        p1.db.applied = p.db.applied ++ [.PortfolioTriggers_Delete c.id] ∧
        p1.triggers = [] ∧ p1.IsClosed = false) := by
  constructor
  · intro p1 h
    unfold Portfolio.start at h
    rw [if_neg hclosed] at h
    dsimp only at h
    cases hb : p.acc.Balances with
    | error e => rw [hb] at h; simp at h
    | ok bals =>
      rw [hb] at h
      dsimp only at h
      cases hh : Portfolio.handleBalanceUpdate { p with closed := 0 } fuel now bals with
      | none => rw [hh] at h; simp at h
      | some res =>
        obtain ⟨err, p2⟩ := res
        rw [hh] at h
        cases err with
        | some e => simp at h
        | none =>
          simp only [Option.some.injEq, Prod.mk.injEq, true_and] at h
          exact ⟨bals, p2, rfl, hh, h.symm⟩
  · intro c pub v hbal hget hmiss hset htrig hcur hlim hpub hdel hprice
    have hprice0 : Portfolio.price { p with closed := 0 } fuel "USDT" "BTC" 0 = some v := by
      rw [price_gw p { p with closed := 0 } rfl]; exact hprice
    obtain ⟨d, p2, hupd, hT⟩ :=
      updateData_fresh_usdt { p with closed := 0 } fuel 120 v hget hmiss hset hprice0
    have hframe := updateData_frame _ p2 fuel _ _ hupd
    have hT1 : TotalBalance p2.dataHolder.totalBalance c.currency = 120 := by rw [hcur]; exact hT
    have hhandle := handleBalanceUpdate_eq _ p2 fuel now _ d hupd
    have htr2 : p2.triggers = [(c.id.String, .crl c)] := by rw [hframe]; exact htrig
    have hpub2 : p2.tePublisher = some pub := by rw [hframe]; exact hpub
    have hdb2 : p2.db = p.db := by rw [hframe]
    have hname2 : p2.name = p.name := by rw [hframe]
    have hclosed2 : p2.closed = 0 := by rw [hframe]
    have hloop : Portfolio.checkTriggers now p2 p2.triggers =
        { p2 with
          db := { p.db with applied := p.db.applied ++ [.PortfolioTriggers_Delete c.id] }
          triggers := []
          tePublisher := some
            { pub with
              received := pub.received ++
                [{ Portfolio := p.name, Timestamp := now, CurrentValue := 120,
                   TriggerSettings := c.Settings }] } } := by
      rw [htr2]
      unfold Portfolio.checkTriggers Portfolio.checkTriggers Portfolio.checkTrigger
      simp only [Trigger.TryExecute, CostReachedLimit.TryExecute, hT1, hlim]
      have hfire : (!decide ((120 : Decimal) < 100)) = true := by norm_num
      simp [hfire, htr2, hpub2, hdb2, hname2, DB.exec, hdel, Trigger.ID, Publisher.call,
        mapModify, mapDelete, Trigger.Settings]
    refine ⟨{ (Portfolio.checkTriggers now p2 p2.triggers) with
        acc := { (Portfolio.checkTriggers now p2 p2.triggers).acc with notifying := true },
        worker := true }, ?_, ?_, ?_, ?_, ?_⟩
    · unfold Portfolio.start
      rw [if_neg hclosed]
      dsimp only
      rw [hbal]
      dsimp only
      rw [hhandle]
    · rw [hloop]
    · rw [hloop]
    · rw [hloop]
    · rw [hloop]
      simp [Portfolio.IsClosed, hclosed2]

/-- The statement of C9 on `seededPortfolio`: `start` returns nil, the publisher has
received exactly one event, with current value 120, the store has carried out the delete
of the trigger, the in-memory map is empty and the portfolio is open. -/
theorem start_runs_initial_pass_witness :
    ∃ p1, seededPortfolio.start 1 7 = some (none, p1) ∧
      p1.tePublisher = some
        { quietPublisher with
          received :=
            [{ Portfolio := "acc", Timestamp := 7, CurrentValue := 120,
               TriggerSettings := limitDemo.Settings }] } ∧
      p1.db.applied = [.PortfolioTriggers_Delete ⟨"crl-1"⟩] ∧
      p1.triggers = [] ∧ p1.IsClosed = false :=
  (start_runs_initial_pass seededPortfolio 1 7 (by decide)).2 limitDemo quietPublisher 0
    rfl rfl rfl rfl rfl rfl rfl rfl rfl rfl

/-! ## price: inverse, identity, and the depth of the calls -/

/-- C11: for `base ≠ quote`, when `Instrument(base+quote)` does not exist and
`Instrument(quote+base)` exists with ask `A`, then at every depth `price(base, quote,
depth)` returns `1/A` when `A ≠ 0` and `0` when `A = 0`, and nothing else, whatever the
catalog contains. -/
theorem price_inverse (p : Portfolio) (base quote : CoreCurrency) (depth : Int)
    (inst : Instrument) (hne : base ≠ quote)
    (hdirect : ∃ e, p.gw.Instrument (base ++ quote) = .error e)
    (hinverse : p.gw.Instrument (quote ++ base) = .ok inst) :
    (∀ fuel, p.price (fuel + 1) base quote depth =
      some (if inst.ask = 0 then 0 else 1 / inst.ask)) ∧
    p.priceReturns base quote depth (if inst.ask = 0 then 0 else 1 / inst.ask) ∧
    ∀ w, p.priceReturns base quote depth w → w = (if inst.ask = 0 then 0 else 1 / inst.ask) := by
  obtain ⟨e, hd⟩ := hdirect
  have h : ∀ fuel, p.price (fuel + 1) base quote depth =
      some (if inst.ask = 0 then 0 else 1 / inst.ask) := by
    intro fuel
    rw [Portfolio.price, if_neg hne, hd, hinverse]
    by_cases ha : inst.ask = 0 <;> simp [Instrument.Price, ha]
  exact ⟨h, ⟨1, h 0⟩, fun w hw => priceReturns_unique p base quote depth w _ hw ⟨1, h 0⟩⟩

/-- The statement of C11 on the adapter of the cross-rate scenario: only `ETH/USDT`
exists, at ask 200, so `price(USDT, ETH, depth)` is `1/200` at depth 0 and at depth 9. -/
theorem price_inverse_witness :
    hopPortfolio.price 1 "USDT" "ETH" 0 = some (1 / 200) ∧
    hopPortfolio.price 1 "USDT" "ETH" 9 = some (1 / 200) := by
  have h0 := (price_inverse hopPortfolio "USDT" "ETH" 0 ⟨0, 200⟩ (by decide) ⟨_, rfl⟩ rfl).1 0
  have h9 := (price_inverse hopPortfolio "USDT" "ETH" 9 ⟨0, 200⟩ (by decide) ⟨_, rfl⟩ rfl).1 0
  norm_num at h0 h9
  exact ⟨h0, h9⟩

/-- C12: `price(c, c, d)` returns `1`, and nothing else, for every currency `c`, every
depth `d` and every portfolio (so every adapter and catalog); the call makes no nested
call. -/
theorem price_identity (p : Portfolio) (c : CoreCurrency) (d : Int) :
    (∀ fuel, p.price (fuel + 1) c c d = some 1) ∧
    p.priceReturns c c d 1 ∧
    (∀ w, p.priceReturns c c d w → w = 1) ∧
    (∀ fuel, p.priceCalls (fuel + 1) c c d = (some 1, [d])) := by
  have h : ∀ fuel, p.price (fuel + 1) c c d = some 1 := by
    intro fuel
    rw [Portfolio.price, if_pos rfl]
  refine ⟨h, ⟨1, h 0⟩, fun w hw => priceReturns_unique p c c d w _ hw ⟨1, h 0⟩, ?_⟩
  intro fuel
  rw [Portfolio.priceCalls, if_pos rfl]

/-- The catalog loop with its calls computes what the catalog loop computes. -/
theorem priceHopsCalls_fst (selfC : CoreCurrency → CoreCurrency → Int → Option Decimal × List Int)
    (self : CoreCurrency → CoreCurrency → Int → Option Decimal)
    (h : ∀ b q d, (selfC b q d).1 = self b q d)
    (base quote : CoreCurrency) (depth : Int) (symbols : List Symbol) :
    (priceHopsCalls selfC base quote depth symbols).1 = priceHops self base quote depth symbols := by
  induction symbols with
  | nil => rfl
  | cons s rest ih =>
    unfold priceHopsCalls priceHops
    by_cases hb : s.Base ≠ base
    · rw [if_pos hb, if_pos hb]; exact ih
    · rw [if_neg hb, if_neg hb, ← h s.Quote quote (depth + 1), ← h s.Base s.Quote 0]
      cases h1 : (selfC s.Quote quote (depth + 1)).1 with
      | none => rfl
      | some r =>
        by_cases hr : r ≠ 0
        · simp only [hr, ne_eq, not_false_eq_true, if_true]
          cases (selfC s.Base s.Quote 0).1 <;> rfl
        · simp only [hr, if_false]
          exact ih

/-- `priceCalls` computes what `price` computes. -/
theorem priceCalls_fst (p : Portfolio) (fuel : Nat) :
    ∀ (base quote : CoreCurrency) (depth : Int),
      (p.priceCalls fuel base quote depth).1 = p.price fuel base quote depth := by
  induction fuel with
  | zero => intro base quote depth; rfl
  | succ n ih =>
    intro base quote depth
    rw [Portfolio.priceCalls, Portfolio.price]
    by_cases hbq : base = quote
    · rw [if_pos hbq, if_pos hbq]
    · rw [if_neg hbq, if_neg hbq]
      cases p.gw.Instrument (base ++ quote) with
      | ok inst => rfl
      | error e =>
        cases p.gw.Instrument (quote ++ base) with
        | ok inst => by_cases ha : inst.Price.2 = 0 <;> simp [ha]
        | error e1 =>
          by_cases hdep : depth > 5
          · simp only [hdep, if_true]
          · simp only [hdep, if_false]
            exact priceHopsCalls_fst _ _ ih _ _ _ _

/-- The calls of the catalog loop stay within depth 6 when those of `self` do. -/
theorem priceHopsCalls_depth_le
    (self : CoreCurrency → CoreCurrency → Int → Option Decimal × List Int)
    (h : ∀ b q d, d ≤ 6 → ∀ x ∈ (self b q d).2, x ≤ 6)
    (base quote : CoreCurrency) (depth : Int) (hdepth : depth ≤ 5) (symbols : List Symbol) :
    ∀ x ∈ (priceHopsCalls self base quote depth symbols).2, x ≤ 6 := by
  induction symbols with
  | nil => intro x hx; simp [priceHopsCalls] at hx
  | cons s rest ih =>
    have hq := h s.Quote quote (depth + 1) (by omega)
    have hz := h s.Base s.Quote 0 (by omega)
    unfold priceHopsCalls
    by_cases hb : s.Base ≠ base
    · rw [if_pos hb]; exact ih
    · rw [if_neg hb]
      cases h1 : (self s.Quote quote (depth + 1)).1 with
      | none => exact hq
      | some r =>
        by_cases hr : r ≠ 0
        · simp only [hr, ne_eq, not_false_eq_true, if_true]
          intro x hx
          rcases List.mem_append.mp hx with hx | hx
          · exact hq x hx
          · exact hz x hx
        · simp only [hr, if_false]
          intro x hx
          rcases List.mem_append.mp hx with hx | hx
          · exact hq x hx
          · exact ih x hx

/-- What does hold of the depth: from a call at depth at most 6 (so from every top-level
call at depth 0) no call of `price` is made at a depth above 6. -/
theorem priceCalls_depth_le (p : Portfolio) (fuel : Nat) :
    ∀ (base quote : CoreCurrency) (depth : Int), depth ≤ 6 →
      ∀ x ∈ (p.priceCalls fuel base quote depth).2, x ≤ 6 := by
  induction fuel with
  | zero =>
    intro base quote depth hd x hx
    simp only [Portfolio.priceCalls, List.mem_singleton] at hx
    omega
  | succ n ih =>
    intro base quote depth hd x hx
    rw [Portfolio.priceCalls] at hx
    by_cases hbq : base = quote
    · rw [if_pos hbq] at hx
      simp only [List.mem_singleton] at hx
      omega
    · rw [if_neg hbq] at hx
      cases hdir : p.gw.Instrument (base ++ quote) with
      | ok inst =>
        rw [hdir] at hx
        simp only [List.mem_singleton] at hx
        omega
      | error e =>
        rw [hdir] at hx
        cases hinv : p.gw.Instrument (quote ++ base) with
        | ok inst =>
          rw [hinv] at hx
          simp only [List.mem_singleton] at hx
          omega
        | error e1 =>
          rw [hinv] at hx
          by_cases hdep : depth > 5
          · simp only [hdep, if_true, List.mem_singleton] at hx
            omega
          · simp only [hdep, if_false, List.mem_cons] at hx
            rcases hx with hx | hx
            · omega
            · exact priceHopsCalls_depth_le _ ih base quote depth (by omega) _ x hx

/-- C13: on the chain catalog `C0/C1, ..., C5/C6` with no instrument, the top-level call
`price(C0, Z, 0)` returns 0 after nested calls at the depths 1, 2, 3, 4, 5 and 6: a call
with a depth argument greater than 5 is made. -/
theorem price_reaches_depth_six :
    chainPortfolio.priceCalls 7 "C0" "Z" 0 = (some 0, [0, 1, 2, 3, 4, 5, 6]) ∧
    chainPortfolio.price 7 "C0" "Z" 0 = some 0 ∧
    (6 : Int) ∈ (chainPortfolio.priceCalls 7 "C0" "Z" 0).2 := by
  have h : chainPortfolio.priceCalls 7 "C0" "Z" 0 = (some 0, [0, 1, 2, 3, 4, 5, 6]) := by
    simp [Portfolio.priceCalls, priceHopsCalls, chainPortfolio, chainGateway, NewPortfolio]
  refine ⟨h, ?_, ?_⟩
  · rw [← priceCalls_fst, h]
  · rw [h]; decide

/-! ## AddTriggers -/

/-- Reading back the key just written. -/
theorem mapGet?_mapSet_self {κ ν : Type} [DecidableEq κ] (m : List (κ × ν)) (key : κ) (val : ν) :
    mapGet? (mapSet m key val) key = some val := by
  induction m with
  | nil => simp [mapSet, mapGet?]
  | cons e rest ih =>
    obtain ⟨k, v⟩ := e
    unfold mapSet
    by_cases hk : k = key
    · simp [hk, mapGet?]
    · simp [hk, mapGet?, ih]

/-- Writing a key leaves the other keys as they were. -/
theorem mapGet?_mapSet_ne {κ ν : Type} [DecidableEq κ] (m : List (κ × ν)) (key k1 : κ) (val : ν)
    (h : key ≠ k1) : mapGet? (mapSet m key val) k1 = mapGet? m k1 := by
  induction m with
  | nil => simp [mapSet, mapGet?, h]
  | cons e rest ih =>
    obtain ⟨k, v⟩ := e
    unfold mapSet
    by_cases hk : k = key
    · subst hk; simp [mapGet?, h]
    · rw [if_neg hk]
      by_cases hk1 : k = k1
      · simp [hk1, mapGet?]
      · simp [hk1, mapGet?, ih]

/-- `addTriggers` leaves the keys of no given trigger as they were. -/
theorem addTriggers_get_other (triggers : List Trigger) :
    ∀ (m : List (String × Trigger)) (k : String), k ∉ triggers.map (fun t => t.ID.String) →
      mapGet? (triggers.foldl (fun m t => mapSet m t.ID.String t) m) k = mapGet? m k := by
  induction triggers with
  | nil => intro m k _; rfl
  | cons a rest ih =>
    intro m k hk
    simp only [List.map_cons, List.mem_cons, not_or] at hk
    rw [List.foldl_cons, ih _ k hk.2, mapGet?_mapSet_ne _ _ _ _ (Ne.symm hk.1)]

/-- `addTriggers` puts every given trigger under its id, when the ids are distinct. -/
theorem addTriggers_get (triggers : List Trigger) :
    ∀ (m : List (String × Trigger)), (triggers.map (fun t => t.ID.String)).Nodup →
      ∀ t ∈ triggers,
        mapGet? (triggers.foldl (fun m t => mapSet m t.ID.String t) m) t.ID.String = some t := by
  induction triggers with
  | nil => intro m _ t ht; exact absurd ht (List.not_mem_nil t)
  | cons a rest ih =>
    intro m hnd t ht
    rw [List.map_cons, List.nodup_cons] at hnd
    rw [List.foldl_cons]
    rcases List.mem_cons.mp ht with rfl | ht
    · rw [addTriggers_get_other rest _ _ hnd.1, mapGet?_mapSet_self]
    · exact ih _ hnd.2 t ht

/-- The settings of a trigger carry its id. -/
theorem settings_ID (t : Trigger) : t.Settings.ID = t.ID := by
  cases t <;> rfl

/-- `AddTriggers` makes one store call, the batch insert whose parameters carry the
triggers' ids in input order and the portfolio's id, each row being built from the
settings of its trigger. If the store rejects it, the error is returned and the portfolio
(its trigger map included) is unchanged. If the store accepts it, that one call is
recorded, the returned settings are the given triggers' settings in input order, and when
the ids are distinct every given trigger is in the map under its id, the other keys being
as before. -/
theorem addTriggers_distinct (p : Portfolio) (triggers : List Trigger) :
    ((triggers.map p.createParams).map (fun a => a.ID) = triggers.map Trigger.ID ∧
      (∀ a ∈ triggers.map p.createParams, a.PortfolioID = p.id) ∧
      triggers.map p.createParams = triggers.map (fun t =>
        { ID := t.ID, PortfolioID := p.id, Type_ := t.Settings.Type_.String,
          Currency := t.Settings.Currency.String, CreatedAt := t.Settings.CreatedAt,
          Limit := t.Settings.Limit, Percent := t.Settings.Percent,
          TrailingAlert := t.Settings.TrailingAlert,
          StartTotalCost := t.Settings.StartTotalCost })) ∧
    (∀ e, p.db.failure (.PortfolioTriggers_Create (triggers.map p.createParams)) = some e →
      p.AddTriggers triggers = (.error e, p)) ∧
    (p.db.failure (.PortfolioTriggers_Create (triggers.map p.createParams)) = none →
      (p.AddTriggers triggers).1 = .ok (triggers.map Trigger.Settings) ∧
      (p.AddTriggers triggers).2.db.applied =
        p.db.applied ++ [.PortfolioTriggers_Create (triggers.map p.createParams)] ∧
      ((triggers.map Trigger.ID).Nodup → ∀ t ∈ triggers,
        mapGet? (p.AddTriggers triggers).2.triggers t.ID.String = some t) ∧
      (∀ k, k ∉ triggers.map (fun t => t.ID.String) →
        mapGet? (p.AddTriggers triggers).2.triggers k = mapGet? p.triggers k)) := by
  refine ⟨⟨?_, ?_, ?_⟩, ?_, ?_⟩
  · simp [Portfolio.createParams, settings_ID]
  · intro a ha
    obtain ⟨t, -, rfl⟩ := List.mem_map.mp ha
    rfl
  · apply List.map_congr_left
    intro t _
    unfold Portfolio.createParams
    rw [settings_ID]
  · intro e he
    simp [Portfolio.AddTriggers, DB.exec, he]
  · intro hok
    have h : p.AddTriggers triggers =
        (.ok (triggers.map Trigger.Settings),
          Portfolio.addTriggers
            { p with db := { p.db with applied := p.db.applied ++
                [.PortfolioTriggers_Create (triggers.map p.createParams)] } } triggers) := by
      simp [Portfolio.AddTriggers, DB.exec, hok]
    rw [h]
    refine ⟨rfl, rfl, ?_, ?_⟩
    · intro hnd t ht
      have hinj : Function.Injective UUID.String := by
        intro a b hab
        cases a; cases b
        simpa [UUID.String] using hab
      have hnd1 : (triggers.map (fun t => t.ID.String)).Nodup := by
        have := hnd.map hinj
        simpa [List.map_map, Function.comp] using this
      exact addTriggers_get triggers _ hnd1 t ht
    · intro k hk
      exact addTriggers_get_other triggers _ k hk

/-- On `demoPortfolio` with the two demo triggers, whose ids differ: the store records the
one batch insert, the settings come back in input order and both triggers are in the map
under their ids. -/
theorem addTriggers_distinct_demo :
    (demoPortfolio.AddTriggers [.crl limitDemo, .ccbp trailingDemo]).1 =
        .ok [limitDemo.Settings, trailingDemo.Settings] ∧
      (demoPortfolio.AddTriggers [.crl limitDemo, .ccbp trailingDemo]).2.db.applied =
        [.PortfolioTriggers_Create
          ([Trigger.crl limitDemo, .ccbp trailingDemo].map demoPortfolio.createParams)] ∧
      mapGet? (demoPortfolio.AddTriggers [.crl limitDemo, .ccbp trailingDemo]).2.triggers "crl-1" =
        some (.crl limitDemo) ∧
      mapGet? (demoPortfolio.AddTriggers [.crl limitDemo, .ccbp trailingDemo]).2.triggers "t-1" =
        some (.ccbp trailingDemo) := by
  obtain ⟨h1, h2, h3, -⟩ :=
    (addTriggers_distinct demoPortfolio [.crl limitDemo, .ccbp trailingDemo]).2.2 rfl
  have hnd : ([Trigger.crl limitDemo, .ccbp trailingDemo].map Trigger.ID).Nodup := by decide
  exact ⟨h1, h2, h3 hnd _ (List.Mem.head _), h3 hnd _ (List.Mem.tail _ (List.Mem.head _))⟩

/-- C19: `AddTriggers` given two triggers with the same id "same" (a one-shot trigger with
limit 100, then a trailing trigger with threshold 10 percent and anchor 100) on a new
portfolio whose store accepts every call. The doc comment of `AddTriggers` says that
triggers with the same id result in an error; the call returns no error: it returns the
settings of both triggers in input order, the store has recorded the one batch insert with
the two rows of the portfolio under the same id, and the map holds under "same" the later
trigger alone, so that not every given trigger is in the map under its id: the first one
is not in the map. -/
theorem addTriggers_same_id :
    (Trigger.crl { limitDemo with id := ⟨"same"⟩ }).ID =
      (Trigger.ccbp { trailingDemo with id := ⟨"same"⟩ }).ID ∧
    demoPortfolio.db.failure = (fun _ => none) ∧
    demoPortfolio.triggers = [] ∧
    demoPortfolio.AddTriggers
        [.crl { limitDemo with id := ⟨"same"⟩ }, .ccbp { trailingDemo with id := ⟨"same"⟩ }] =
      (.ok [{ ID := ⟨"same"⟩, Currency := .USDT, CreatedAt := 0, Type_ := .CRL,
              Limit := some 100, Percent := none, StartTotalCost := none,
              TrailingAlert := false },
            { ID := ⟨"same"⟩, Currency := .USDT, CreatedAt := 0, Type_ := .CCBP,
              Limit := none, Percent := some 10, StartTotalCost := some 100,
              TrailingAlert := true }],
       { demoPortfolio with
         db :=
           { demoPortfolio.db with
             applied := [.PortfolioTriggers_Create
               [{ ID := ⟨"same"⟩, PortfolioID := 1, Type_ := "COST_REACHED_LIMIT",
                  Currency := "USDT", CreatedAt := 0, Limit := some 100, Percent := none,
                  TrailingAlert := false, StartTotalCost := none },
                { ID := ⟨"same"⟩, PortfolioID := 1, Type_ := "COST_CHANGED_BY_PERCENT",
                  Currency := "USDT", CreatedAt := 0, Limit := none, Percent := some 10,
                  TrailingAlert := true, StartTotalCost := some 100 }]] }
         triggers := [("same", .ccbp { trailingDemo with id := ⟨"same"⟩ })] }) ∧
    mapGet? (demoPortfolio.AddTriggers
        [.crl { limitDemo with id := ⟨"same"⟩ },
         .ccbp { trailingDemo with id := ⟨"same"⟩ }]).2.triggers "same" =
      some (.ccbp { trailingDemo with id := ⟨"same"⟩ }) ∧
    Trigger.ccbp { trailingDemo with id := ⟨"same"⟩ } ≠
      Trigger.crl { limitDemo with id := ⟨"same"⟩ } :=
  ⟨rfl, rfl, rfl, rfl, rfl, fun h => Trigger.noConfusion h⟩

/-! ## Close and IsClosed -/

/-- `handleBalanceUpdate` does not touch the closed flag. -/
theorem handleBalanceUpdate_closed (p p1 : Portfolio) (fuel : Nat) (now : Int)
    (balances : List (CoreCurrency × Balance)) (err : Option Error)
    (h : p.handleBalanceUpdate fuel now balances = some (err, p1)) : p1.closed = p.closed := by
  unfold Portfolio.handleBalanceUpdate at h
  cases hu : p.updateData fuel balances with
  | none => rw [hu] at h; simp at h
  | some res =>
    obtain ⟨r, p2⟩ := res
    have hframe := updateData_frame p p2 fuel balances r hu
    have hc2 : p2.closed = p.closed := by rw [hframe]
    rw [hu] at h
    cases r with
    | error e =>
      simp only [Option.some.injEq, Prod.mk.injEq] at h
      rw [← h.2, hc2]
    | ok d =>
      simp only [Option.some.injEq, Prod.mk.injEq] at h
      rw [← h.2, (checkTriggers_spec now p2.triggers p2).2.2.2.1, hc2]

/-- Whatever `start` returns, it leaves the closed flag cleared. -/
theorem start_closed (p p1 : Portfolio) (fuel : Nat) (now : Int) (err : Option Error)
    (h : p.start fuel now = some (err, p1)) : p1.closed = 0 := by
  unfold Portfolio.start at h
  by_cases hc : p.closed = 0
  · rw [if_pos hc] at h
    simp only [Option.some.injEq, Prod.mk.injEq] at h
    rw [← h.2, hc]
  · rw [if_neg hc] at h
    dsimp only at h
    cases hb : p.acc.Balances with
    | error e =>
      rw [hb] at h
      simp only [Option.some.injEq, Prod.mk.injEq] at h
      rw [← h.2]
    | ok bals =>
      rw [hb] at h
      dsimp only at h
      cases hh : Portfolio.handleBalanceUpdate { p with closed := 0 } fuel now bals with
      | none => rw [hh] at h; simp at h
      | some res =>
        obtain ⟨e1, p2⟩ := res
        have hc2 := handleBalanceUpdate_closed _ p2 fuel now bals e1 hh
        rw [hh] at h
        cases e1 with
        | some e =>
          simp only [Option.some.injEq, Prod.mk.injEq] at h
          rw [← h.2, hc2]
        | none =>
          simp only [Option.some.injEq, Prod.mk.injEq] at h
          rw [← h.2]
          exact hc2

/-- `Close` on a closed portfolio returns and changes nothing. -/
theorem close_of_closed (p : Portfolio) (destroy : Bool) (h : p.closed = 1) :
    p.Close destroy = some p := by
  unfold Portfolio.Close
  rw [if_neg (by omega)]
  cases p
  simp_all

/-- Any number of `Close` calls on a closed portfolio returns and changes nothing. -/
theorem closeAll_of_closed (flags : List Bool) :
    ∀ p : Portfolio, p.closed = 1 → Portfolio.closeAll p flags = some p := by
  induction flags with
  | nil => intro p _; rfl
  | cons d rest ih =>
    intro p h
    rw [Portfolio.closeAll, close_of_closed p d h]
    exact ih p h

/-- `Close` on an open portfolio whose close channel is empty returns, with the flag set
and the one signal in the channel. -/
theorem close_of_open (p : Portfolio) (destroy : Bool) (hc : p.closed = 0)
    (hch : p.closedCh = []) :
    p.Close destroy = some { p with closed := 1, closedCh := [destroy] } := by
  unfold Portfolio.Close
  rw [if_pos hc, hch]

/-- `Close` on an open portfolio whose close channel holds a value does not return. -/
theorem close_blocked (p : Portfolio) (destroy : Bool) (hc : p.closed = 0)
    (hch : p.closedCh ≠ []) : p.Close destroy = none := by
  unfold Portfolio.Close
  rw [if_pos hc]
  cases h : p.closedCh with
  | nil => exact absurd h hch
  | cons a rest => rfl

/-- Whenever `Close` returns, the closed flag is set. -/
theorem close_closed (p p1 : Portfolio) (destroy : Bool) (h : p.Close destroy = some p1) :
    p1.closed = 1 := by
  unfold Portfolio.Close at h
  by_cases hc : p.closed = 0
  · rw [if_pos hc] at h
    cases hch : p.closedCh with
    | nil =>
      rw [hch] at h
      simp only [Option.some.injEq] at h
      rw [← h]
    | cons a rest => rw [hch] at h; simp at h
  · rw [if_neg hc] at h
    simp only [Option.some.injEq] at h
    rw [← h]

/-! ## Manager: the shape of AddPortfolio -/

/-- An error that is (or wraps) a given `domain.Error` is a domain error for `errors.As`. -/
theorem has_domain_asDomain (e : Error) (d : String) (h : e.Has (.domain d) = true) :
    e.AsDomain = true := by
  induction e with
  | sentinel n => simp [Error.Has] at h
  | domain t => rfl
  | wrap cause msg ih => exact ih h

/-- The four outcomes of `getGatewayAndAccount`. -/
theorem getGatewayAndAccount_cases (pm : Manager) (exchangeName accName key secret : String)
    (passphrase : Option String) :
    (pm.gwsMngr exchangeName = none ∧
      pm.getGatewayAndAccount exchangeName accName key secret passphrase =
        .error (.wrap ErrGatewayNotFound exchangeName)) ∨
    (∃ gw e, pm.gwsMngr exchangeName = some gw ∧
      gw.Account { Key := key, Secret := secret, Passphrase := passphrase } = .error e ∧
      (e.Has coreErrInvalidAPIKey || e.Has coreErrMarketClosed) = true ∧
      pm.getGatewayAndAccount exchangeName accName key secret passphrase =
        .error (.wrap ErrGateway ("account " ++ accName))) ∨
    (∃ gw e, pm.gwsMngr exchangeName = some gw ∧
      gw.Account { Key := key, Secret := secret, Passphrase := passphrase } = .error e ∧
      (e.Has coreErrInvalidAPIKey || e.Has coreErrMarketClosed) = false ∧
      pm.getGatewayAndAccount exchangeName accName key secret passphrase =
        .error (.wrap e ("failed to get account " ++ accName))) ∨
    (∃ gw acc, pm.gwsMngr exchangeName = some gw ∧
      gw.Account { Key := key, Secret := secret, Passphrase := passphrase } = .ok acc ∧
      pm.getGatewayAndAccount exchangeName accName key secret passphrase = .ok (gw, acc)) := by
  unfold Manager.getGatewayAndAccount
  cases hg : pm.gwsMngr exchangeName with
  | none => exact Or.inl ⟨rfl, rfl⟩
  | some gw =>
    dsimp only
    cases ha : gw.Account { Key := key, Secret := secret, Passphrase := passphrase } with
    | ok acc => exact Or.inr (Or.inr (Or.inr ⟨gw, acc, rfl, ha, rfl⟩))
    | error e =>
      cases ht : (e.Has coreErrInvalidAPIKey || e.Has coreErrMarketClosed) with
      | true => exact Or.inr (Or.inl ⟨gw, e, rfl, ha, ht, by simp [ha, ht]⟩)
      | false => exact Or.inr (Or.inr (Or.inl ⟨gw, e, rfl, ha, ht, by simp [ha, ht]⟩))

/-- The outcomes of `AddPortfolio` for a name that is not registered, by the answers of the
database, the adapter registry, the adapter and the worker start. -/
theorem addPortfolio_cases (pm : Manager) (fuel : Nat) (now : Int) (name : String)
    (hfresh : mapGet? pm.portfolios name = none) :
    (∃ e, pm.queries.Accounts_GetByName name = .error e ∧ e.Has pgxErrNoRows = true ∧
      pm.AddPortfolio fuel now name = some (some (.wrap ErrAccountNotFound name), pm)) ∨
    (∃ e, pm.queries.Accounts_GetByName name = .error e ∧ e.Has pgxErrNoRows = false ∧
      pm.AddPortfolio fuel now name =
        some (some (.wrap e ("failed to get account by name=" ++ name)), pm)) ∨
    (∃ account, pm.queries.Accounts_GetByName name = .ok account ∧
      pm.gwsMngr account.ExchangeName = none ∧
      pm.AddPortfolio fuel now name = some (none, pm)) ∨
    (∃ account gw e, pm.queries.Accounts_GetByName name = .ok account ∧
      pm.gwsMngr account.ExchangeName = some gw ∧
      gw.Account { Key := account.Key, Secret := account.Secret,
                   Passphrase := account.Passphrase } = .error e ∧
      (e.Has coreErrInvalidAPIKey || e.Has coreErrMarketClosed) = true ∧
      pm.AddPortfolio fuel now name =
        some (some (.wrap ErrGateway ("account " ++ account.Name)), pm)) ∨
    (∃ account gw e, pm.queries.Accounts_GetByName name = .ok account ∧
      pm.gwsMngr account.ExchangeName = some gw ∧
      gw.Account { Key := account.Key, Secret := account.Secret,
                   Passphrase := account.Passphrase } = .error e ∧
      (e.Has coreErrInvalidAPIKey || e.Has coreErrMarketClosed) = false ∧
      e.Has ErrGatewayNotFound = true ∧
      pm.AddPortfolio fuel now name = some (none, pm)) ∨
    (∃ account gw e, pm.queries.Accounts_GetByName name = .ok account ∧
      pm.gwsMngr account.ExchangeName = some gw ∧
      gw.Account { Key := account.Key, Secret := account.Secret,
                   Passphrase := account.Passphrase } = .error e ∧
      (e.Has coreErrInvalidAPIKey || e.Has coreErrMarketClosed) = false ∧
      e.Has ErrGatewayNotFound = false ∧
      pm.AddPortfolio fuel now name =
        some (some (.wrap e ("failed to get account " ++ account.Name)), pm)) ∨
    (∃ account gw acc, pm.queries.Accounts_GetByName name = .ok account ∧
      pm.gwsMngr account.ExchangeName = some gw ∧
      gw.Account { Key := account.Key, Secret := account.Secret,
                   Passphrase := account.Passphrase } = .ok acc ∧
      pm.AddPortfolio fuel now name =
        match (NewPortfolio account.ID account.Name pm.db pm.rdb gw acc
            pm.eventPublisher).start fuel now with
        | none => none
        | some (err, portf) =>
          some (err.map (fun e => .wrap e "failed to start portfolio scheduling for account"),
            if (mapGet? pm.portfolios account.Name).isSome then pm
            else { pm with portfolios := mapSet pm.portfolios account.Name portf })) := by
  unfold Manager.AddPortfolio
  rw [hfresh]
  simp only [Option.isSome_none, Bool.false_eq_true, if_false]
  cases hl : pm.queries.Accounts_GetByName name with
  | error e =>
    cases hn : e.Has pgxErrNoRows with
    | true => exact Or.inl ⟨e, rfl, hn, by simp [hn]⟩
    | false => exact Or.inr (Or.inl ⟨e, rfl, hn, by simp [hn]⟩)
  | ok account =>
    dsimp only
    rcases getGatewayAndAccount_cases pm account.ExchangeName account.Name account.Key
      account.Secret account.Passphrase with
      ⟨hg, h⟩ | ⟨gw, e, hg, ha, ht, h⟩ | ⟨gw, e, hg, ha, ht, h⟩ | ⟨gw, acc, hg, ha, h⟩
    · refine Or.inr (Or.inr (Or.inl ⟨account, rfl, hg, ?_⟩))
      rw [h]
      rfl
    · refine Or.inr (Or.inr (Or.inr (Or.inl ⟨account, gw, e, rfl, hg, ha, ht, ?_⟩)))
      rw [h]
      rfl
    · cases hgnf : e.Has ErrGatewayNotFound with
      | true =>
        refine Or.inr (Or.inr (Or.inr (Or.inr (Or.inl ⟨account, gw, e, rfl, hg, ha, ht, hgnf, ?_⟩))))
        rw [h]
        have hw : (Error.wrap e ("failed to get account " ++ account.Name)).Has
            ErrGatewayNotFound = true := hgnf
        simp only [hw, if_true]
      | false =>
        refine Or.inr (Or.inr (Or.inr (Or.inr (Or.inr (Or.inl
          ⟨account, gw, e, rfl, hg, ha, ht, hgnf, ?_⟩)))))
        rw [h]
        have hw : (Error.wrap e ("failed to get account " ++ account.Name)).Has
            ErrGatewayNotFound = false := hgnf
        simp only [hw, Bool.false_eq_true, if_false]
    · refine Or.inr (Or.inr (Or.inr (Or.inr (Or.inr (Or.inr ⟨account, gw, acc, rfl, hg, ha, ?_⟩)))))
      rw [h]

/-! ## Manager: the registry -/

/-- A key reads as absent exactly when it is not among the keys. -/
theorem mapGet?_eq_none_iff {κ ν : Type} [DecidableEq κ] (m : List (κ × ν)) (key : κ) :
    mapGet? m key = none ↔ key ∉ m.map Prod.fst := by
  induction m with
  | nil => simp [mapGet?]
  | cons e rest ih =>
    obtain ⟨k, v⟩ := e
    unfold mapGet?
    by_cases hk : k = key
    · simp [hk]
    · simp [hk, ih, Ne.symm hk]

/-- Writing an absent key adds it at the end. -/
theorem mapSet_keys_of_absent {κ ν : Type} [DecidableEq κ] (m : List (κ × ν)) (key : κ) (val : ν)
    (h : key ∉ m.map Prod.fst) : (mapSet m key val).map Prod.fst = m.map Prod.fst ++ [key] := by
  induction m with
  | nil => rfl
  | cons e rest ih =>
    obtain ⟨k, v⟩ := e
    simp only [List.map_cons, List.mem_cons, not_or] at h
    unfold mapSet
    rw [if_neg (Ne.symm h.1)]
    simp [ih h.2]

/-- The registry after `AddPortfolio`: as before, or with one portfolio added under a
name that was not registered. -/
theorem addPortfolio_registry (pm pm1 : Manager) (fuel : Nat) (now : Int) (name : String)
    (err : Option Error) (h : pm.AddPortfolio fuel now name = some (err, pm1)) :
    pm1 = pm ∨ ∃ k portf, mapGet? pm.portfolios k = none ∧
      pm1 = { pm with portfolios := mapSet pm.portfolios k portf } := by
  cases hreg : mapGet? pm.portfolios name with
  | some portf =>
    have h0 : pm.AddPortfolio fuel now name = some (some (.wrap ErrExist name), pm) := by
      simp [Manager.AddPortfolio, hreg]
    rw [h0] at h
    simp only [Option.some.injEq, Prod.mk.injEq] at h
    exact Or.inl h.2.symm
  | none =>
    rcases addPortfolio_cases pm fuel now name hreg with
      ⟨_, _, _, h0⟩ | ⟨_, _, _, h0⟩ | ⟨_, _, _, h0⟩ | ⟨_, _, _, _, _, _, _, h0⟩ |
      ⟨_, _, _, _, _, _, _, _, h0⟩ | ⟨_, _, _, _, _, _, _, _, h0⟩ | ⟨account, gw, acc, _, _, _, h0⟩
    all_goals rw [h0] at h
    · exact Or.inl (by simp only [Option.some.injEq, Prod.mk.injEq] at h; exact h.2.symm)
    · exact Or.inl (by simp only [Option.some.injEq, Prod.mk.injEq] at h; exact h.2.symm)
    · exact Or.inl (by simp only [Option.some.injEq, Prod.mk.injEq] at h; exact h.2.symm)
    · exact Or.inl (by simp only [Option.some.injEq, Prod.mk.injEq] at h; exact h.2.symm)
    · exact Or.inl (by simp only [Option.some.injEq, Prod.mk.injEq] at h; exact h.2.symm)
    · exact Or.inl (by simp only [Option.some.injEq, Prod.mk.injEq] at h; exact h.2.symm)
    · cases hs : (NewPortfolio account.ID account.Name pm.db pm.rdb gw acc
          pm.eventPublisher).start fuel now with
      | none => rw [hs] at h; simp at h
      | some res =>
        obtain ⟨e1, portf⟩ := res
        rw [hs] at h
        simp only [Option.some.injEq, Prod.mk.injEq] at h
        cases hk : mapGet? pm.portfolios account.Name with
        | some v =>
          rw [hk] at h
          exact Or.inl (by simpa using h.2.symm)
        | none =>
          rw [hk] at h
          exact Or.inr ⟨account.Name, portf, hk, by simpa using h.2.symm⟩

/-- `AddPortfolio` keeps every registered portfolio, and keeps the names distinct. -/
theorem addPortfolio_keeps (pm pm1 : Manager) (fuel : Nat) (now : Int) (name : String)
    (err : Option Error) (h : pm.AddPortfolio fuel now name = some (err, pm1)) :
    (∀ k v, mapGet? pm.portfolios k = some v → mapGet? pm1.portfolios k = some v) ∧
    ((pm.portfolios.map Prod.fst).Nodup → (pm1.portfolios.map Prod.fst).Nodup) := by
  rcases addPortfolio_registry pm pm1 fuel now name err h with rfl | ⟨k, portf, hk, rfl⟩
  · exact ⟨fun _ _ hv => hv, fun hn => hn⟩
  · refine ⟨?_, ?_⟩
    · intro k1 v hv
      have hne : k ≠ k1 := by
        rintro rfl
        rw [hk] at hv
        exact absurd hv (by simp)
      show mapGet? (mapSet pm.portfolios k portf) k1 = some v
      rw [mapGet?_mapSet_ne _ _ _ _ hne, hv]
    · intro hn
      have habs : k ∉ pm.portfolios.map Prod.fst := (mapGet?_eq_none_iff _ _).mp hk
      show ((mapSet pm.portfolios k portf).map Prod.fst).Nodup
      rw [mapSet_keys_of_absent _ _ _ habs]
      exact List.Nodup.append hn (List.nodup_singleton k)
        (by simpa [List.disjoint_singleton] using habs)

/-- The three outcomes of `DeletePortfolio`: the name is not registered; the name is
registered and the call of `Close` does not return; the name is registered, its portfolio
is closed and dropped from the registry. -/
theorem deletePortfolio_cases (pm : Manager) (name : String) :
    (mapGet? pm.portfolios name = none ∧
      pm.DeletePortfolio name = some (some (.wrap ErrNotFound name), pm, none)) ∨
    (∃ portf, mapGet? pm.portfolios name = some portf ∧ portf.Close true = none ∧
      pm.DeletePortfolio name = none) ∨
    (∃ portf closedPortf, mapGet? pm.portfolios name = some portf ∧
      portf.Close true = some closedPortf ∧
      pm.DeletePortfolio name =
        some (none, { pm with portfolios := mapDelete pm.portfolios name },
          some closedPortf)) := by
  unfold Manager.DeletePortfolio
  cases hreg : mapGet? pm.portfolios name with
  | none => exact Or.inl ⟨rfl, rfl⟩
  | some portf =>
    dsimp only
    cases hcl : portf.Close true with
    | none => exact Or.inr (Or.inl ⟨portf, rfl, hcl, rfl⟩)
    | some q => exact Or.inr (Or.inr ⟨portf, q, rfl, hcl, rfl⟩)

/-- Every sequence of registry calls keeps the names of the registry distinct. -/
theorem applyAll_nodup (fuel : Nat) (now : Int) (ops : List RegistryOp) :
    ∀ pm pm1 : Manager, (pm.portfolios.map Prod.fst).Nodup →
      Manager.applyAll fuel now pm ops = some pm1 → (pm1.portfolios.map Prod.fst).Nodup := by
  induction ops with
  | nil =>
    intro pm pm1 hn h
    simp only [Manager.applyAll, Option.some.injEq] at h
    rw [← h]; exact hn
  | cons op rest ih =>
    intro pm pm1 hn h
    rw [Manager.applyAll] at h
    cases ha : pm.apply fuel now op with
    | none => rw [ha] at h; simp at h
    | some pm2 =>
      rw [ha] at h
      refine ih pm2 pm1 ?_ h
      cases op with
      | AddPortfolio name =>
        simp only [Manager.apply, Option.map_eq_some'] at ha
        obtain ⟨⟨err, pm3⟩, hadd, rfl⟩ := ha
        exact (addPortfolio_keeps pm pm3 fuel now name err hadd).2 hn
      | DeletePortfolio name =>
        simp only [Manager.apply, Option.map_eq_some'] at ha
        obtain ⟨r, hdel, rfl⟩ := ha
        rcases deletePortfolio_cases pm name with ⟨-, h0⟩ | ⟨portf, -, -, h0⟩ |
          ⟨portf, q, -, -, h0⟩
        · rw [h0] at hdel
          simp only [Option.some.injEq] at hdel
          rw [← hdel]
          exact hn
        · rw [h0] at hdel
          simp at hdel
        · rw [h0] at hdel
          simp only [Option.some.injEq] at hdel
          rw [← hdel]
          show ((mapDelete pm.portfolios name).map Prod.fst).Nodup
          rw [mapDelete_keys]
          exact hn.filter _

/-- C14: `AddPortfolio(name)` for a registered name returns the domain error
portfolio-exists and leaves the manager as it was (nothing replaced, no worker started);
no call of `AddPortfolio` ever replaces a registered portfolio; and over every sequence of
`AddPortfolio` and `DeletePortfolio` calls the names of the registry stay distinct. -/
theorem addPortfolio_exists :
    (∀ (pm : Manager) fuel now name portf, mapGet? pm.portfolios name = some portf →
      pm.AddPortfolio fuel now name = some (some (.wrap ErrExist name), pm) ∧
      (Error.wrap ErrExist name).Has ErrExist = true ∧
      (Error.wrap ErrExist name).AsDomain = true) ∧
    (∀ (pm pm1 : Manager) fuel now name err, pm.AddPortfolio fuel now name = some (err, pm1) →
      ∀ k v, mapGet? pm.portfolios k = some v → mapGet? pm1.portfolios k = some v) ∧
    (∀ (pm pm1 : Manager) fuel now ops, (pm.portfolios.map Prod.fst).Nodup →
      Manager.applyAll fuel now pm ops = some pm1 → (pm1.portfolios.map Prod.fst).Nodup) := by
  refine ⟨?_, ?_, ?_⟩
  · intro pm fuel now name portf hreg
    exact ⟨by simp [Manager.AddPortfolio, hreg], by simp [Error.Has, ErrExist], rfl⟩
  · intro pm pm1 fuel now name err h
    exact (addPortfolio_keeps pm pm1 fuel now name err h).1
  · intro pm pm1 fuel now ops hn h
    exact applyAll_nodup fuel now ops pm pm1 hn h

/-! ## Manager: the errors of AddPortfolio -/

/-- An error of `updateData` wraps an error of the cache. -/
theorem updateData_error_foreign (p p1 : Portfolio) (fuel : Nat)
    (balances : List (CoreCurrency × Balance)) (e : Error)
    (h : p.updateData fuel balances = some (.error e, p1))
    (hget : ∀ e1, p.dataHolder.rdb.getErr = some e1 → e1.AsDomain = false)
    (hset : ∀ e1, p.dataHolder.rdb.setErr = some e1 → e1.AsDomain = false) :
    e.AsDomain = false := by
  unfold Portfolio.updateData at h
  dsimp only at h
  split at h
  · rename_i err hstart
    simp only [Option.some.injEq, Prod.mk.injEq, Except.error.injEq] at h
    rw [← h.1]
    unfold dataHolder.Get RedisClient.Get at hstart
    cases hg : p.dataHolder.rdb.getErr with
    | some e1 =>
      rw [hg] at hstart
      dsimp only at hstart
      split at hstart
      · simp only [Except.error.injEq] at hstart
        rw [← hstart]
        exact hget e1 hg
      · simp at hstart
    | none =>
      rw [hg] at hstart
      dsimp only at hstart
      cases hv : mapGet? p.dataHolder.rdb.values p.dataHolder.redisKey with
      | some d => rw [hv] at hstart; simp at hstart
      | none =>
        rw [hv] at hstart
        simp [Error.Is, redisNil] at hstart
  · split at h
    · exact absurd h (by simp)
    · split at h
      · rename_i data1 err dh hsave
        simp only [Option.some.injEq, Prod.mk.injEq, Except.error.injEq] at h
        rw [← h.1]
        unfold dataHolder.Save RedisClient.Set at hsave
        cases hs : p.dataHolder.rdb.setErr with
        | some e1 =>
          rw [hs] at hsave
          simp only [Prod.mk.injEq, Option.some.injEq] at hsave
          rw [← hsave.1]
          exact hset e1 hs
        | none =>
          rw [hs] at hsave
          simp at hsave
      · simp at h

/-- An error of `start` is, or wraps, an error of the account handle or of the cache. -/
theorem start_error_foreign (p p1 : Portfolio) (fuel : Nat) (now : Int) (e : Error)
    (h : p.start fuel now = some (some e, p1))
    (hbal : ∀ e1, p.acc.Balances = .error e1 → e1.AsDomain = false)
    (hget : ∀ e1, p.dataHolder.rdb.getErr = some e1 → e1.AsDomain = false)
    (hset : ∀ e1, p.dataHolder.rdb.setErr = some e1 → e1.AsDomain = false) :
    e.AsDomain = false := by
  unfold Portfolio.start at h
  by_cases hc : p.closed = 0
  · rw [if_pos hc] at h
    simp at h
  · rw [if_neg hc] at h
    dsimp only at h
    cases hb : p.acc.Balances with
    | error e1 =>
      rw [hb] at h
      simp only [Option.some.injEq, Prod.mk.injEq] at h
      rw [← h.1]
      exact hbal e1 hb
    | ok bals =>
      rw [hb] at h
      dsimp only at h
      unfold Portfolio.handleBalanceUpdate at h
      cases hu : Portfolio.updateData { p with closed := 0 } fuel bals with
      | none => rw [hu] at h; simp at h
      | some res =>
        obtain ⟨r, p2⟩ := res
        rw [hu] at h
        cases r with
        | ok d => simp at h
        | error e1 =>
          simp only [Option.some.injEq, Prod.mk.injEq] at h
          rw [← h.1]
          exact updateData_error_foreign _ p2 fuel bals e1 hu hget hset

/-- The statement of C14 on `busyManager`, where "a" is registered: `AddPortfolio("a")`
returns portfolio-exists and leaves the manager as it was, and after the calls
`AddPortfolio("a")`, `AddPortfolio("b")`, `DeletePortfolio("a")`, `AddPortfolio("a")` the
names of the registry are still distinct. -/
theorem addPortfolio_exists_witness :
    busyManager.AddPortfolio 1 7 "a" = some (some (.wrap ErrExist "a"), busyManager) ∧
    ∃ pm1, Manager.applyAll 1 7 busyManager
        [.AddPortfolio "a", .AddPortfolio "b", .DeletePortfolio "a", .AddPortfolio "a"] = some pm1 ∧
      (pm1.portfolios.map Prod.fst).Nodup := by
  have h : ∃ pm1, Manager.applyAll 1 7 busyManager
      [.AddPortfolio "a", .AddPortfolio "b", .DeletePortfolio "a", .AddPortfolio "a"] = some pm1 :=
    ⟨_, rfl⟩
  obtain ⟨pm1, h1⟩ := h
  exact ⟨(addPortfolio_exists.1 busyManager 1 7 "a" _ rfl).1,
    pm1, h1, addPortfolio_exists.2.2 busyManager pm1 1 7 _ (by decide) h1⟩

/-- C15: `AddPortfolio` for an existing account whose exchange has no configured adapter
returns nil and leaves the manager as it was (nothing registered, no portfolio built or
started); the `ACCOUNT_CREATED` delivery for it makes `handleMessage` return no error, so
it is acknowledged. -/
theorem addPortfolio_unsupported_exchange (pm : Manager) (fuel : Nat) (now : Int)
    (name : String) (account : repo.Account)
    (hfresh : mapGet? pm.portfolios name = none)
    (hacc : pm.queries.Accounts_GetByName name = .ok account)
    (hgw : pm.gwsMngr account.ExchangeName = none) :
    pm.AddPortfolio fuel now name = some (none, pm) ∧
    handleMessage pm fuel now (.ok { Event := AccountCreated, AccountName := name }) =
      some ((false, none), pm) ∧
    disposition (false, none) = .ack := by
  have h : pm.AddPortfolio fuel now name = some (none, pm) := by
    rcases addPortfolio_cases pm fuel now name hfresh with
      ⟨_, h1, _⟩ | ⟨_, h1, _⟩ | ⟨_, _, _, h0⟩ | ⟨a, _, _, h1, h2, _⟩ |
      ⟨a, _, _, h1, h2, _⟩ | ⟨a, _, _, h1, h2, _⟩ | ⟨a, _, _, h1, h2, _⟩
    · rw [hacc] at h1; simp at h1
    · rw [hacc] at h1; simp at h1
    · exact h0
    all_goals
      rw [hacc] at h1
      simp only [Except.ok.injEq] at h1
      rw [← h1, hgw] at h2
      simp at h2
  refine ⟨h, ?_, rfl⟩
  simp [handleMessage, h]

/-- The statement of C15 on `demoManager`: account "b" is on the exchange `Mars`, which
has no adapter. -/
theorem addPortfolio_unsupported_exchange_witness :
    demoManager.AddPortfolio 1 7 "b" = some (none, demoManager) ∧
    handleMessage demoManager 1 7 (.ok { Event := AccountCreated, AccountName := "b" }) =
      some ((false, none), demoManager) ∧
    disposition (false, none) = .ack :=
  addPortfolio_unsupported_exchange demoManager 1 7 "b" (accountOn 2 "b" "Mars") rfl rfl rfl

/-- C16: `AddPortfolio` for a name that is not registered. When the account lookup
reports no rows it returns the domain error account-not-found; on any other lookup error
it returns that error, wrapped; when building the adapter account fails with
invalid-api-key or market-closed it returns the domain error gateway; on any other adapter
error it returns that error, wrapped; and in all four cases the manager is as before
(nothing registered). Conversely, the collaborators' errors being no domain errors, an
error returned by `AddPortfolio` is account-not-found only in the first case, gateway only
in the third, and a domain error in no other case. -/
theorem addPortfolio_error_translation (pm : Manager) (fuel : Nat) (now : Int) (name : String)
    (hfresh : mapGet? pm.portfolios name = none) :
    (∀ e, pm.queries.Accounts_GetByName name = .error e → e.Has pgxErrNoRows = true →
      pm.AddPortfolio fuel now name = some (some (.wrap ErrAccountNotFound name), pm)) ∧
    (∀ e, pm.queries.Accounts_GetByName name = .error e → e.Has pgxErrNoRows = false →
      pm.AddPortfolio fuel now name =
        some (some (.wrap e ("failed to get account by name=" ++ name)), pm)) ∧
    (∀ account gw e, pm.queries.Accounts_GetByName name = .ok account →
      pm.gwsMngr account.ExchangeName = some gw →
      gw.Account { Key := account.Key, Secret := account.Secret,
                   Passphrase := account.Passphrase } = .error e →
      (e.Has coreErrInvalidAPIKey || e.Has coreErrMarketClosed) = true →
      pm.AddPortfolio fuel now name =
        some (some (.wrap ErrGateway ("account " ++ account.Name)), pm)) ∧
    (∀ account gw e, pm.queries.Accounts_GetByName name = .ok account →
      pm.gwsMngr account.ExchangeName = some gw →
      gw.Account { Key := account.Key, Secret := account.Secret,
                   Passphrase := account.Passphrase } = .error e →
      (e.Has coreErrInvalidAPIKey || e.Has coreErrMarketClosed) = false →
      e.Has ErrGatewayNotFound = false →
      pm.AddPortfolio fuel now name =
        some (some (.wrap e ("failed to get account " ++ account.Name)), pm)) ∧
    (pm.foreignErrors name → ∀ err pm1, pm.AddPortfolio fuel now name = some (some err, pm1) →
      (err.Has ErrAccountNotFound = true ↔
        ∃ e, pm.queries.Accounts_GetByName name = .error e ∧ e.Has pgxErrNoRows = true) ∧
      (err.Has ErrGateway = true ↔
        ∃ account gw e, pm.queries.Accounts_GetByName name = .ok account ∧
          pm.gwsMngr account.ExchangeName = some gw ∧
          gw.Account { Key := account.Key, Secret := account.Secret,
                       Passphrase := account.Passphrase } = .error e ∧
          (e.Has coreErrInvalidAPIKey || e.Has coreErrMarketClosed) = true) ∧
      (err.AsDomain = true → err.Has ErrAccountNotFound = true ∨ err.Has ErrGateway = true)) := by
  have hcases := addPortfolio_cases pm fuel now name hfresh
  refine ⟨?_, ?_, ?_, ?_, ?_⟩
  · intro e he hn
    rcases hcases with ⟨e1, h1, h2, h0⟩ | ⟨e1, h1, h2, h0⟩ | ⟨_, h1, _⟩ | ⟨_, _, _, h1, _⟩ |
      ⟨_, _, _, h1, _⟩ | ⟨_, _, _, h1, _⟩ | ⟨_, _, _, h1, _⟩
    · exact h0
    · rw [he] at h1
      simp only [Except.error.injEq] at h1
      rw [← h1, hn] at h2
      simp at h2
    all_goals rw [he] at h1; simp at h1
  · intro e he hn
    rcases hcases with ⟨e1, h1, h2, h0⟩ | ⟨e1, h1, h2, h0⟩ | ⟨_, h1, _⟩ | ⟨_, _, _, h1, _⟩ |
      ⟨_, _, _, h1, _⟩ | ⟨_, _, _, h1, _⟩ | ⟨_, _, _, h1, _⟩
    · rw [he] at h1
      simp only [Except.error.injEq] at h1
      rw [← h1, hn] at h2
      simp at h2
    · rw [he] at h1
      simp only [Except.error.injEq] at h1
      rw [h1]
      exact h0
    all_goals rw [he] at h1; simp at h1
  · intro account gw e hacc hgw hae ht
    rcases hcases with ⟨_, h1, _⟩ | ⟨_, h1, _⟩ | ⟨a, h1, h2, _⟩ | ⟨a, g, e1, h1, h2, h3, h4, h0⟩ |
      ⟨a, g, e1, h1, h2, h3, h4, _⟩ | ⟨a, g, e1, h1, h2, h3, h4, _⟩ | ⟨a, g, _, h1, h2, h3, _⟩
    · rw [hacc] at h1; simp at h1
    · rw [hacc] at h1; simp at h1
    all_goals
      rw [hacc] at h1
      simp only [Except.ok.injEq] at h1
      subst h1
      rw [hgw] at h2
    · simp at h2
    · exact h0
    all_goals
      simp only [Option.some.injEq] at h2
      subst h2
      rw [hae] at h3
    · simp only [Except.error.injEq] at h3
      subst h3
      rw [ht] at h4
      simp at h4
    · simp only [Except.error.injEq] at h3
      subst h3
      rw [ht] at h4
      simp at h4
    · simp at h3
  · intro account gw e hacc hgw hae ht hgnf
    rcases hcases with ⟨_, h1, _⟩ | ⟨_, h1, _⟩ | ⟨a, h1, h2, _⟩ | ⟨a, g, e1, h1, h2, h3, h4, _⟩ |
      ⟨a, g, e1, h1, h2, h3, h4, h5, _⟩ | ⟨a, g, e1, h1, h2, h3, h4, h5, h0⟩ |
      ⟨a, g, _, h1, h2, h3, _⟩
    · rw [hacc] at h1; simp at h1
    · rw [hacc] at h1; simp at h1
    all_goals
      rw [hacc] at h1
      simp only [Except.ok.injEq] at h1
      subst h1
      rw [hgw] at h2
    · simp at h2
    all_goals
      simp only [Option.some.injEq] at h2
      subst h2
      rw [hae] at h3
    · simp only [Except.error.injEq] at h3
      subst h3
      rw [ht] at h4
      simp at h4
    · simp only [Except.error.injEq] at h3
      subst h3
      rw [hgnf] at h5
      simp at h5
    · simp only [Except.error.injEq] at h3
      subst h3
      exact h0
    · simp at h3
  · intro hforeign err pm1 hret
    obtain ⟨hdb, hadapter, hbal, hget, hset⟩ := hforeign
    have hnf : ∀ e : Error, e.AsDomain = false → ∀ d, e.Has (.domain d) = false := by
      intro e he d
      cases hh : e.Has (.domain d) with
      | false => rfl
      | true => rw [has_domain_asDomain e d hh] at he; simp at he
    rcases hcases with ⟨e, h1, h2, h0⟩ | ⟨e, h1, h2, h0⟩ | ⟨a, h1, h2, h0⟩ |
      ⟨a, g, e, h1, h2, h3, h4, h0⟩ | ⟨a, g, e, h1, h2, h3, h4, h5, h0⟩ |
      ⟨a, g, e, h1, h2, h3, h4, h5, h0⟩ | ⟨a, g, acc, h1, h2, h3, h0⟩
    · rw [h0] at hret
      simp only [Option.some.injEq, Prod.mk.injEq] at hret
      rw [← hret.1]
      refine ⟨⟨fun _ => ⟨e, h1, h2⟩, fun _ => by simp [Error.Has, ErrAccountNotFound]⟩,
        ⟨fun h => ?_, fun ⟨_, _, _, h6, _⟩ => ?_⟩, fun _ => Or.inl (by simp [Error.Has, ErrAccountNotFound])⟩
      · simp [Error.Has, ErrAccountNotFound, ErrGateway] at h
      · rw [h1] at h6; simp at h6
    · rw [h0] at hret
      simp only [Option.some.injEq, Prod.mk.injEq] at hret
      rw [← hret.1]
      have hclean := hdb e h1
      refine ⟨⟨fun h => ?_, fun ⟨e1, h6, h7⟩ => ?_⟩, ⟨fun h => ?_, fun ⟨_, _, _, h6, _⟩ => ?_⟩,
        fun h => ?_⟩
      · have := hnf e hclean "account isn't found"
        rw [show (Error.wrap e ("failed to get account by name=" ++ name)).Has ErrAccountNotFound
          = e.Has (.domain "account isn't found") from rfl, this] at h
        simp at h
      · rw [h1] at h6
        simp only [Except.error.injEq] at h6
        rw [← h6, h2] at h7
        simp at h7
      · have := hnf e hclean "gateway error"
        rw [show (Error.wrap e ("failed to get account by name=" ++ name)).Has ErrGateway
          = e.Has (.domain "gateway error") from rfl, this] at h
        simp at h
      · rw [h1] at h6; simp at h6
      · rw [show (Error.wrap e ("failed to get account by name=" ++ name)).AsDomain
          = e.AsDomain from rfl, hclean] at h
        simp at h
    · rw [h0] at hret; simp at hret
    · rw [h0] at hret
      simp only [Option.some.injEq, Prod.mk.injEq] at hret
      rw [← hret.1]
      refine ⟨⟨fun h => ?_, fun ⟨_, h6, _⟩ => ?_⟩,
        ⟨fun _ => ⟨a, g, e, h1, h2, h3, h4⟩, fun _ => by simp [Error.Has, ErrGateway]⟩,
        fun _ => Or.inr (by simp [Error.Has, ErrGateway])⟩
      · simp [Error.Has, ErrAccountNotFound, ErrGateway] at h
      · rw [h1] at h6; simp at h6
    · rw [h0] at hret; simp at hret
    · rw [h0] at hret
      simp only [Option.some.injEq, Prod.mk.injEq] at hret
      rw [← hret.1]
      have hclean := hadapter a g e h1 h2 h3
      refine ⟨⟨fun h => ?_, fun ⟨_, h6, _⟩ => ?_⟩, ⟨fun h => ?_, fun ⟨a1, g1, e1, h6, h7, h8, h9⟩ => ?_⟩,
        fun h => ?_⟩
      · have := hnf e hclean "account isn't found"
        rw [show (Error.wrap e ("failed to get account " ++ a.Name)).Has ErrAccountNotFound
          = e.Has (.domain "account isn't found") from rfl, this] at h
        simp at h
      · rw [h1] at h6; simp at h6
      · have := hnf e hclean "gateway error"
        rw [show (Error.wrap e ("failed to get account " ++ a.Name)).Has ErrGateway
          = e.Has (.domain "gateway error") from rfl, this] at h
        simp at h
      · rw [h1] at h6
        simp only [Except.ok.injEq] at h6
        subst h6
        rw [h2] at h7
        simp only [Option.some.injEq] at h7
        subst h7
        rw [h3] at h8
        simp only [Except.error.injEq] at h8
        subst h8
        rw [h4] at h9
        simp at h9
      · rw [show (Error.wrap e ("failed to get account " ++ a.Name)).AsDomain
          = e.AsDomain from rfl, hclean] at h
        simp at h
    · rw [h0] at hret
      cases hs : (NewPortfolio a.ID a.Name pm.db pm.rdb g acc pm.eventPublisher).start fuel now with
      | none => rw [hs] at hret; simp at hret
      | some res =>
        obtain ⟨e1, portf⟩ := res
        rw [hs] at hret
        cases e1 with
        | none => simp at hret
        | some e2 =>
          simp only [Option.map_some', Option.some.injEq, Prod.mk.injEq] at hret
          rw [← hret.1]
          have hclean : e2.AsDomain = false :=
            start_error_foreign _ portf fuel now e2 hs (fun e3 h3' => hbal a g acc e3 h1 h2 h3 h3')
              hget hset
          refine ⟨⟨fun h => ?_, fun ⟨_, h6, _⟩ => ?_⟩, ⟨fun h => ?_, fun ⟨a1, g1, e3, h6, h7, h8, _⟩ => ?_⟩,
            fun h => ?_⟩
          · have := hnf e2 hclean "account isn't found"
            rw [show (Error.wrap e2 "failed to start portfolio scheduling for account").Has
              ErrAccountNotFound = e2.Has (.domain "account isn't found") from rfl, this] at h
            simp at h
          · rw [h1] at h6; simp at h6
          · have := hnf e2 hclean "gateway error"
            rw [show (Error.wrap e2 "failed to start portfolio scheduling for account").Has
              ErrGateway = e2.Has (.domain "gateway error") from rfl, this] at h
            simp at h
          · rw [h1] at h6
            simp only [Except.ok.injEq] at h6
            subst h6
            rw [h2] at h7
            simp only [Option.some.injEq] at h7
            subst h7
            rw [h3] at h8
            simp at h8
          · rw [show (Error.wrap e2 "failed to start portfolio scheduling for account").AsDomain
              = e2.AsDomain from rfl, hclean] at h
            simp at h

/-- The statement of C16 on `demoManager`: "zz" has no row (account-not-found), the lookup
of "e" fails otherwise (that error, wrapped), "c" is on an adapter that rejects the key
(gateway), "d" on one that times out (that error, wrapped); the manager is unchanged each
time. -/
theorem addPortfolio_error_translation_witness :
    demoManager.AddPortfolio 1 7 "zz" =
      some (some (.wrap ErrAccountNotFound "zz"), demoManager) ∧
    demoManager.AddPortfolio 1 7 "e" =
      some (some (.wrap (.sentinel "connection refused") ("failed to get account by name=" ++ "e")),
        demoManager) ∧
    demoManager.AddPortfolio 1 7 "c" =
      some (some (.wrap ErrGateway ("account " ++ "c")), demoManager) ∧
    demoManager.AddPortfolio 1 7 "d" =
      some (some (.wrap (.sentinel "timeout") ("failed to get account " ++ "d")), demoManager) :=
  ⟨(addPortfolio_error_translation demoManager 1 7 "zz" rfl).1 pgxErrNoRows rfl (by decide),
   (addPortfolio_error_translation demoManager 1 7 "e" rfl).2.1 (.sentinel "connection refused")
      rfl (by decide),
   (addPortfolio_error_translation demoManager 1 7 "c" rfl).2.2.1 (accountOn 3 "c" "Locked.PROD")
      { bareGateway with Account := fun _ => .error coreErrInvalidAPIKey } coreErrInvalidAPIKey
      rfl rfl rfl (by decide),
   (addPortfolio_error_translation demoManager 1 7 "d" rfl).2.2.2.1 (accountOn 4 "d" "Flaky.PROD")
      { bareGateway with Account := fun _ => .error (.sentinel "timeout") } (.sentinel "timeout")
      rfl rfl rfl (by decide) (by decide)⟩

/-! ## Manager: DeletePortfolio -/

/-- Reading a map after `delete(m, key)`. -/
theorem mapGet?_mapDelete {κ ν : Type} [DecidableEq κ] (m : List (κ × ν)) (key k : κ) :
    mapGet? (mapDelete m key) k = if k = key then none else mapGet? m k := by
  induction m with
  | nil => simp [mapDelete, mapGet?]
  | cons e rest ih =>
    obtain ⟨k1, v⟩ := e
    unfold mapDelete at ih ⊢
    by_cases h1 : k1 = key
    · subst h1
      by_cases h2 : k = k1
      · subst h2
        simpa [List.filter_cons] using ih
      · have h3 : ¬ k1 = k := fun h => h2 h.symm
        simpa [List.filter_cons, mapGet?, h2, h3] using ih
    · by_cases h2 : k1 = k
      · subst h2
        simp [List.filter_cons, h1, mapGet?]
      · simp only [List.filter_cons, h1, decide_False, Bool.not_false, if_true, mapGet?, h2,
          if_false]
        exact ih

/-! ## Manager: restoring persisted triggers -/

/-- A row is restored, skipped (unknown type) or rejected; it is rejected exactly when it is
bad, and a restored trigger carries the row's id. -/
theorem restoreTrigger_spec (dbt : repo.TriggerRow) :
    (dbt.bad ∧ ∃ e, restoreTrigger dbt = .error e) ∨
    (¬ dbt.bad ∧ dbt.known = true ∧ ∃ t, restoreTrigger dbt = .ok (some t) ∧ t.ID = dbt.ID) ∨
    (¬ dbt.bad ∧ dbt.known = false ∧ restoreTrigger dbt = .ok none) := by
  unfold restoreTrigger repo.TriggerRow.bad repo.TriggerRow.known
  cases hc : Currency.Set dbt.Currency with
  | error e => exact Or.inl ⟨Or.inl ⟨e, rfl⟩, e, rfl⟩
  | ok cur =>
    dsimp only
    by_cases h1 : dbt.Type_ = TriggerType.CCBP.String
    · rw [if_pos h1]
      cases hp : dbt.Percent with
      | none => exact Or.inl ⟨Or.inr (Or.inl ⟨h1, Or.inl rfl⟩), _, rfl⟩
      | some percent =>
        cases hs : dbt.StartTotalCost with
        | none => exact Or.inl ⟨Or.inr (Or.inl ⟨h1, Or.inr rfl⟩), _, rfl⟩
        | some start =>
          refine Or.inr (Or.inl ⟨?_, by simp [h1], _, rfl, rfl⟩)
          have hne : ¬ dbt.Type_ = TriggerType.CRL.String := by
            rw [h1]; decide
          simp [hne]
    · rw [if_neg h1]
      by_cases h2 : dbt.Type_ = TriggerType.CRL.String
      · rw [if_pos h2]
        cases hl : dbt.Limit with
        | none => exact Or.inl ⟨Or.inr (Or.inr ⟨h2, rfl⟩), _, rfl⟩
        | some limit =>
          refine Or.inr (Or.inl ⟨?_, by simp [h2], _, rfl, rfl⟩)
          simp [h1]
      · rw [if_neg h2]
        refine Or.inr (Or.inr ⟨?_, by simp [h1, h2], rfl⟩)
        simp [h1, h2]

/-- The restoring loop fails exactly when some row is bad; otherwise it restores one
trigger for every row of a known type, in order, under the row's id. -/
theorem restoreTriggers_spec (rows : List repo.TriggerRow) :
    ((∃ dbt ∈ rows, dbt.bad) ∧ ∃ e, restoreTriggers rows = .error e) ∨
    ((∀ dbt ∈ rows, ¬ dbt.bad) ∧ ∃ triggers, restoreTriggers rows = .ok triggers ∧
      triggers.map Trigger.ID = (rows.filter (fun dbt => dbt.known)).map (fun dbt => dbt.ID)) := by
  induction rows with
  | nil => exact Or.inr ⟨fun _ h => absurd h (List.not_mem_nil _), [], rfl, rfl⟩
  | cons dbt rest ih =>
    unfold restoreTriggers
    rcases restoreTrigger_spec dbt with ⟨hbad, e, he⟩ | ⟨hgood, hk, t, ht, hid⟩ | ⟨hgood, hk, ht⟩
    · exact Or.inl ⟨⟨dbt, List.mem_cons_self _ _, hbad⟩, e, by rw [he]⟩
    · rw [ht]
      rcases ih with ⟨⟨d, hd, hb⟩, e, he⟩ | ⟨hall, ts, hts, hids⟩
      · exact Or.inl ⟨⟨d, List.mem_cons_of_mem _ hd, hb⟩, e, by rw [he]⟩
      · refine Or.inr ⟨?_, t :: ts, by rw [hts]; rfl, ?_⟩
        · intro d hd
          rcases List.mem_cons.mp hd with rfl | hd
          · exact hgood
          · exact hall d hd
        · simp [List.filter_cons, hk, hid, hids]
    · rw [ht]
      rcases ih with ⟨⟨d, hd, hb⟩, e, he⟩ | ⟨hall, ts, hts, hids⟩
      · exact Or.inl ⟨⟨d, List.mem_cons_of_mem _ hd, hb⟩, e, by rw [he]⟩
      · refine Or.inr ⟨?_, ts, by rw [hts]; rfl, ?_⟩
        · intro d hd
          rcases List.mem_cons.mp hd with rfl | hd
          · exact hgood
          · exact hall d hd
        · simp [List.filter_cons, hk, hids]

/-! ## Manager: load and Start -/

/-- `load` of a registered name returns nil and changes nothing. -/
theorem load_registered (pm : Manager) (fuel : Nat) (now : Int)
    (a : repo.Accounts_SelectWithPortfolioTriggersRow) (v : Portfolio)
    (h : mapGet? pm.portfolios a.Name = some v) : pm.load fuel now a = some (none, pm) := by
  simp [Manager.load, h]

/-- `load` of an unregistered name reads the registry only to write its one entry: on two
registries that both lack the name (the rest of the manager being the same) it returns
the same error and registers the same portfolio, or registers nothing, or does not return. -/
theorem load_congr (pm : Manager) (l : List (String × Portfolio)) (fuel : Nat) (now : Int)
    (a : repo.Accounts_SelectWithPortfolioTriggersRow)
    (h1 : mapGet? pm.portfolios a.Name = none) (h2 : mapGet? l a.Name = none) :
    (pm.load fuel now a = none ∧ Manager.load { pm with portfolios := l } fuel now a = none) ∨
    (∃ err, pm.load fuel now a = some (err, pm) ∧
      Manager.load { pm with portfolios := l } fuel now a =
        some (err, { pm with portfolios := l })) ∨
    (∃ err portf,
      pm.load fuel now a =
        some (err, { pm with portfolios := mapSet pm.portfolios a.Name portf }) ∧
      Manager.load { pm with portfolios := l } fuel now a =
        some (err, { pm with portfolios := mapSet l a.Name portf })) := by
  have hg : Manager.getGatewayAndAccount { pm with portfolios := l } a.ExchangeName a.Name a.Key
      a.Secret a.Passphrase =
      pm.getGatewayAndAccount a.ExchangeName a.Name a.Key a.Secret a.Passphrase := rfl
  unfold Manager.load
  simp only [h1, h2, hg, Option.isSome_none, Bool.false_eq_true, if_false]
  cases pm.getGatewayAndAccount a.ExchangeName a.Name a.Key a.Secret a.Passphrase with
  | error e =>
    dsimp only
    cases e.Has ErrGatewayNotFound with
    | true => exact Or.inr (Or.inl ⟨none, by simp, by simp⟩)
    | false => exact Or.inr (Or.inl ⟨some e, by simp, by simp⟩)
  | ok res =>
    obtain ⟨gw, acc⟩ := res
    dsimp only
    cases restoreTriggers a.Triggers with
    | error e => exact Or.inr (Or.inl ⟨some e, rfl, rfl⟩)
    | ok triggers =>
      dsimp only
      cases ((NewPortfolio a.ID a.Name pm.db pm.rdb gw acc pm.eventPublisher).addTriggers
          triggers).start fuel now with
      | none => exact Or.inl ⟨rfl, rfl⟩
      | some r =>
        obtain ⟨err, portf⟩ := r
        exact Or.inr (Or.inr ⟨_, portf, rfl, rfl⟩)

/-- `load` changes nothing of the manager but the registry entry of the account's name,
and only if that name was not registered. -/
theorem load_frame (pm pm1 : Manager) (fuel : Nat) (now : Int)
    (a : repo.Accounts_SelectWithPortfolioTriggersRow) (err : Option Error)
    (h : pm.load fuel now a = some (err, pm1)) :
    pm1 = { pm with portfolios := pm1.portfolios } ∧
    (∀ k, k ≠ a.Name → mapGet? pm1.portfolios k = mapGet? pm.portfolios k) ∧
    (∀ k v, mapGet? pm.portfolios k = some v → mapGet? pm1.portfolios k = some v) := by
  cases hreg : mapGet? pm.portfolios a.Name with
  | some v =>
    rw [load_registered pm fuel now a v hreg] at h
    simp only [Option.some.injEq, Prod.mk.injEq] at h
    rw [← h.2]
    exact ⟨rfl, fun _ _ => rfl, fun _ _ hv => hv⟩
  | none =>
    rcases load_congr pm pm.portfolios fuel now a hreg hreg with
      ⟨h0, -⟩ | ⟨e, h0, -⟩ | ⟨e, portf, h0, -⟩
    · rw [h0] at h; simp at h
    · rw [h0] at h
      simp only [Option.some.injEq, Prod.mk.injEq] at h
      rw [← h.2]
      exact ⟨rfl, fun _ _ => rfl, fun _ _ hv => hv⟩
    · rw [h0] at h
      simp only [Option.some.injEq, Prod.mk.injEq] at h
      rw [← h.2]
      refine ⟨rfl, fun k hk => mapGet?_mapSet_ne _ _ _ _ (Ne.symm hk), fun k v hv => ?_⟩
      have hne : a.Name ≠ k := by
        rintro rfl
        rw [hreg] at hv
        exact absurd hv (by simp)
      show mapGet? (mapSet pm.portfolios a.Name portf) k = some v
      rw [mapGet?_mapSet_ne _ _ _ _ hne, hv]

/-- The loop of `Start`: it changes nothing of the manager but the registry, keeps every
registered portfolio, touches no name outside the accounts, and (the accounts' names being
distinct) leaves under each account's name what `load` of that account alone leaves. -/
theorem loadAll_spec (fuel : Nat) (now : Int)
    (accs : List repo.Accounts_SelectWithPortfolioTriggersRow) :
    ∀ pm pm1 : Manager, Manager.loadAll fuel now pm accs = some pm1 →
      pm1 = { pm with portfolios := pm1.portfolios } ∧
      (∀ k v, mapGet? pm.portfolios k = some v → mapGet? pm1.portfolios k = some v) ∧
      (∀ k, k ∉ accs.map (fun a => a.Name) → mapGet? pm1.portfolios k = mapGet? pm.portfolios k) ∧
      ((accs.map (fun a => a.Name)).Nodup → ∀ a ∈ accs, ∃ err pm2,
        pm.load fuel now a = some (err, pm2) ∧
        mapGet? pm1.portfolios a.Name = mapGet? pm2.portfolios a.Name) := by
  induction accs with
  | nil =>
    intro pm pm1 h
    simp only [Manager.loadAll, Option.some.injEq] at h
    rw [← h]
    exact ⟨rfl, fun _ _ hv => hv, fun _ _ => rfl, fun _ a ha => absurd ha (List.not_mem_nil a)⟩
  | cons b rest ih =>
    intro pm pm1 h
    rw [Manager.loadAll] at h
    cases hl : pm.load fuel now b with
    | none => rw [hl] at h; simp at h
    | some r =>
      obtain ⟨e, pm2⟩ := r
      rw [hl] at h
      dsimp only at h
      obtain ⟨hs2, hother2, hkeep2⟩ := load_frame pm pm2 fuel now b e hl
      obtain ⟨hs1, hkeep1, hout1, hind1⟩ := ih pm2 pm1 h
      refine ⟨?_, fun k v hv => hkeep1 k v (hkeep2 k v hv), ?_, ?_⟩
      · rw [hs1, hs2]
      · intro k hk
        simp only [List.map_cons, List.mem_cons, not_or] at hk
        rw [hout1 k hk.2, hother2 k hk.1]
      · intro hnd a ha
        rw [List.map_cons, List.nodup_cons] at hnd
        rcases List.mem_cons.mp ha with rfl | ha
        · exact ⟨e, pm2, hl, hout1 _ hnd.1⟩
        · obtain ⟨err, pm3, hl3, heq3⟩ := hind1 hnd.2 a ha
          have hne : a.Name ≠ b.Name := by
            intro hab
            exact hnd.1 (List.mem_map.mpr ⟨a, ha, hab⟩)
          have hreg2 : mapGet? pm2.portfolios a.Name = mapGet? pm.portfolios a.Name :=
            hother2 _ hne
          cases hreg : mapGet? pm.portfolios a.Name with
          | some v =>
            rw [hreg] at hreg2
            rw [load_registered pm2 fuel now a v hreg2] at hl3
            simp only [Option.some.injEq, Prod.mk.injEq] at hl3
            refine ⟨none, pm, load_registered pm fuel now a v hreg, ?_⟩
            rw [heq3, ← hl3.2, hreg2, hreg]
          | none =>
            rw [hreg] at hreg2
            have hpm2 : pm2 = { pm with portfolios := pm2.portfolios } := hs2
            rcases load_congr pm pm2.portfolios fuel now a hreg hreg2 with
              ⟨-, h0⟩ | ⟨e1, hp, h0⟩ | ⟨e1, portf, hp, h0⟩
            · rw [← hpm2, hl3] at h0; simp at h0
            · rw [← hpm2, hl3] at h0
              simp only [Option.some.injEq, Prod.mk.injEq] at h0
              refine ⟨e1, pm, by rw [hp], ?_⟩
              rw [heq3, h0.2, hreg2, hreg]
            · rw [← hpm2, hl3] at h0
              simp only [Option.some.injEq, Prod.mk.injEq] at h0
              refine ⟨e1, _, hp, ?_⟩
              rw [heq3, h0.2]
              show mapGet? (mapSet pm2.portfolios a.Name portf) a.Name =
                mapGet? (mapSet pm.portfolios a.Name portf) a.Name
              rw [mapGet?_mapSet_self, mapGet?_mapSet_self]

/-- The trigger map after a `start` that returns nil: the initial pass adds no trigger, and
removes exactly the triggers it retires (evaluated on the portfolio as the initial
`updateData` leaves it). -/
theorem start_pass_triggers (p p1 : Portfolio) (fuel : Nat) (now : Int)
    (hc : p.closed ≠ 0) (hnd : (p.triggers.map Prod.fst).Nodup)
    (h : p.start fuel now = some (none, p1)) :
    ∃ bals d p0, p.acc.Balances = .ok bals ∧
      Portfolio.updateData { p with closed := 0 } fuel bals = some (.ok d, p0) ∧
      (∀ k, k ∈ p1.triggers.map Prod.fst → k ∈ p.triggers.map Prod.fst) ∧
      (∀ k t, (k, t) ∈ p.triggers → (k ∈ p1.triggers.map Prod.fst ↔ p0.retires t = false)) := by
  unfold Portfolio.start at h
  rw [if_neg hc] at h
  dsimp only at h
  cases hb : p.acc.Balances with
  | error e => rw [hb] at h; simp at h
  | ok bals =>
    rw [hb] at h
    dsimp only at h
    unfold Portfolio.handleBalanceUpdate at h
    cases hu : Portfolio.updateData { p with closed := 0 } fuel bals with
    | none => rw [hu] at h; simp at h
    | some res =>
      obtain ⟨r, p0⟩ := res
      rw [hu] at h
      cases r with
      | error e => simp at h
      | ok d =>
        simp only [Option.some.injEq, Prod.mk.injEq, true_and] at h
        have hframe := updateData_frame _ p0 fuel bals _ hu
        have htr : p0.triggers = p.triggers := by rw [hframe]
        obtain ⟨-, -, -, -, -, hk, -⟩ := checkTriggers_spec now p0.triggers p0
        rw [htr] at hk
        have hkeys : p1.triggers.map Prod.fst =
            (p.triggers.map Prod.fst).filter
              (fun k => !(p.triggers.any (fun e => decide (k = e.1) && p0.retires e.2))) := by
          rw [← h, ← hk, htr]
        refine ⟨bals, d, p0, rfl, hu, ?_, ?_⟩
        · intro k hkm
          rw [hkeys] at hkm
          exact (List.mem_filter.mp hkm).1
        · intro k t hmem
          have hin : k ∈ p.triggers.map Prod.fst := List.mem_map.mpr ⟨(k, t), hmem, rfl⟩
          rw [hkeys, List.mem_filter]
          constructor
          · intro hkm
            cases hret : p0.retires t with
            | false => rfl
            | true =>
              have hany : (p.triggers.any (fun e => decide (k = e.1) && p0.retires e.2)) = true :=
                List.any_eq_true.mpr ⟨(k, t), hmem, by simp [hret]⟩
              rw [hany] at hkm
              simp at hkm
          · intro hret
            refine ⟨hin, ?_⟩
            cases hany : (p.triggers.any (fun e => decide (k = e.1) && p0.retires e.2)) with
            | false => rfl
            | true =>
              obtain ⟨e, he, hcond⟩ := List.any_eq_true.mp hany
              simp only [Bool.and_eq_true, decide_eq_true_eq] at hcond
              have heq : e = (k, t) := List.inj_on_of_nodup_map hnd he hmem hcond.1.symm
              rw [heq, hret] at hcond
              simp at hcond

/-- Membership from a successful read. -/
theorem mem_of_mapGet? {κ ν : Type} [DecidableEq κ] (m : List (κ × ν)) (key : κ) (val : ν)
    (h : mapGet? m key = some val) : (key, val) ∈ m := by
  induction m with
  | nil => simp [mapGet?] at h
  | cons e rest ih =>
    obtain ⟨k, v⟩ := e
    unfold mapGet? at h
    by_cases hk : k = key
    · rw [if_pos hk] at h
      simp only [Option.some.injEq] at h
      rw [hk, h]
      exact List.mem_cons_self _ _
    · rw [if_neg hk] at h
      exact List.mem_cons_of_mem _ (ih h)

/-- Writing a key keeps the keys distinct. -/
theorem mapSet_nodup {κ ν : Type} [DecidableEq κ] (m : List (κ × ν)) (key : κ) (val : ν)
    (h : (m.map Prod.fst).Nodup) : ((mapSet m key val).map Prod.fst).Nodup := by
  by_cases hk : key ∈ m.map Prod.fst
  · have hkeys : (mapSet m key val).map Prod.fst = m.map Prod.fst := by
      clear h
      induction m with
      | nil => simp at hk
      | cons e rest ih =>
        obtain ⟨k, v⟩ := e
        unfold mapSet
        by_cases h1 : k = key
        · simp [h1]
        · have hk1 : key ∈ rest.map Prod.fst := by
            simp only [List.map_cons, List.mem_cons] at hk
            rcases hk with hk | hk
            · exact absurd hk.symm h1
            · exact hk
          simp [h1, ih hk1]
    rw [hkeys]; exact h
  · rw [mapSet_keys_of_absent _ _ _ hk]
    exact List.Nodup.append h (List.nodup_singleton key)
      (by simpa [List.disjoint_singleton] using hk)

/-- `addTriggers` keeps the keys of the trigger map distinct. -/
theorem addTriggers_nodup (triggers : List Trigger) :
    ∀ m : List (String × Trigger), (m.map Prod.fst).Nodup →
      ((triggers.foldl (fun m t => mapSet m t.ID.String t) m).map Prod.fst).Nodup := by
  induction triggers with
  | nil => intro m h; exact h
  | cons a rest ih =>
    intro m h
    rw [List.foldl_cons]
    exact ih _ (mapSet_nodup m _ _ h)

/-- A successful restoring loop restores every row of a known type, and every trigger it
returns is restored from a row of a known type. -/
theorem restoreTriggers_mem (rows : List repo.TriggerRow) :
    ∀ triggers, restoreTriggers rows = .ok triggers →
      (∀ dbt ∈ rows, dbt.known = true →
        ∃ t ∈ triggers, restoreTrigger dbt = .ok (some t) ∧ t.ID = dbt.ID) ∧
      (∀ t ∈ triggers, ∃ dbt ∈ rows, dbt.known = true ∧
        restoreTrigger dbt = .ok (some t) ∧ t.ID = dbt.ID) := by
  induction rows with
  | nil =>
    intro triggers h
    injection h with h
    subst h
    exact ⟨fun _ hd => absurd hd (List.not_mem_nil _), fun _ ht => absurd ht (List.not_mem_nil _)⟩
  | cons dbt rest ih =>
    intro triggers h
    unfold restoreTriggers at h
    rcases restoreTrigger_spec dbt with ⟨-, e, he⟩ | ⟨-, hk, t, ht, hid⟩ | ⟨-, hk, ht⟩
    · rw [he] at h; simp at h
    · rw [ht] at h
      dsimp only at h
      cases hr : restoreTriggers rest with
      | error e => rw [hr] at h; simp at h
      | ok ts =>
        rw [hr] at h
        injection h with h
        have h2 : triggers = t :: ts := h.symm
        subst h2
        obtain ⟨ih1, ih2⟩ := ih ts hr
        constructor
        · intro d hd hkd
          rcases List.mem_cons.mp hd with rfl | hd
          · exact ⟨t, List.mem_cons_self _ _, ht, hid⟩
          · obtain ⟨t1, ht1, hrest⟩ := ih1 d hd hkd
            exact ⟨t1, List.mem_cons_of_mem _ ht1, hrest⟩
        · intro t1 ht1
          rcases List.mem_cons.mp ht1 with rfl | ht1
          · exact ⟨dbt, List.mem_cons_self _ _, hk, ht, hid⟩
          · obtain ⟨d, hd, hrest⟩ := ih2 t1 ht1
            exact ⟨d, List.mem_cons_of_mem _ hd, hrest⟩
    · rw [ht] at h
      dsimp only at h
      cases hr : restoreTriggers rest with
      | error e => rw [hr] at h; simp at h
      | ok ts =>
        rw [hr] at h
        injection h with h
        have h2 : triggers = ts := h.symm
        subst h2
        obtain ⟨ih1, ih2⟩ := ih triggers hr
        constructor
        · intro d hd hkd
          rcases List.mem_cons.mp hd with rfl | hd
          · rw [hk] at hkd; exact absurd hkd (by simp)
          · exact ih1 d hd hkd
        · intro t1 ht1
          obtain ⟨d, hd, hrest⟩ := ih2 t1 ht1
          exact ⟨d, List.mem_cons_of_mem _ hd, hrest⟩

/-- The keys `addTriggers` leaves in an empty map are ids of the given triggers. -/
theorem addTriggers_keys (triggers : List Trigger) (k : String)
    (h : k ∈ (triggers.foldl (fun m t => mapSet m t.ID.String t) []).map Prod.fst) :
    k ∈ triggers.map (fun t => t.ID.String) := by
  by_contra hk
  have hget := addTriggers_get_other triggers [] k hk
  have hnone : mapGet? (triggers.foldl (fun m t => mapSet m t.ID.String t) []) k = none := by
    rw [hget]; rfl
  exact (mapGet?_eq_none_iff _ k).mp hnone h

/-- The outcomes of `load` for a name that is not registered, by the answers of the
adapter registry and the adapter, the persisted rows and the worker start. -/
theorem load_spec (pm : Manager) (fuel : Nat) (now : Int)
    (a : repo.Accounts_SelectWithPortfolioTriggersRow)
    (hfresh : mapGet? pm.portfolios a.Name = none) :
    (pm.gwsMngr a.ExchangeName = none → pm.load fuel now a = some (none, pm)) ∧
    (∀ gw e, pm.gwsMngr a.ExchangeName = some gw →
      gw.Account { Key := a.Key, Secret := a.Secret, Passphrase := a.Passphrase } = .error e →
      ∃ err, pm.load fuel now a = some (err, pm) ∧
        (e.Has ErrGatewayNotFound = false → err ≠ none)) ∧
    (∀ gw acc, pm.gwsMngr a.ExchangeName = some gw →
      gw.Account { Key := a.Key, Secret := a.Secret, Passphrase := a.Passphrase } = .ok acc →
      (∃ dbt ∈ a.Triggers, dbt.bad) → ∃ e, pm.load fuel now a = some (some e, pm)) ∧
    (∀ gw acc triggers, pm.gwsMngr a.ExchangeName = some gw →
      gw.Account { Key := a.Key, Secret := a.Secret, Passphrase := a.Passphrase } = .ok acc →
      restoreTriggers a.Triggers = .ok triggers →
      pm.load fuel now a =
        (((NewPortfolio a.ID a.Name pm.db pm.rdb gw acc pm.eventPublisher).addTriggers
            triggers).start fuel now).map
          (fun r =>
            (r.1.map (fun e => Error.wrap e "failed to start portfolio scheduling for account"),
              { pm with portfolios := mapSet pm.portfolios a.Name r.2 }))) := by
  refine ⟨?_, ?_, ?_, ?_⟩
  · intro hnone
    simp [Manager.load, hfresh, Manager.getGatewayAndAccount, hnone, Error.Has,
      ErrGatewayNotFound]
  · intro gw e hg ha
    cases ht : (e.Has coreErrInvalidAPIKey || e.Has coreErrMarketClosed) with
    | true =>
      refine ⟨some (.wrap ErrGateway ("account " ++ a.Name)), ?_, fun _ => by simp⟩
      simp [Manager.load, hfresh, Manager.getGatewayAndAccount, hg, ha, ht, Error.Has,
        ErrGatewayNotFound, ErrGateway]
    | false =>
      cases hn : e.Has ErrGatewayNotFound with
      | true =>
        refine ⟨none, ?_, fun h => by simp at h⟩
        simp [Manager.load, hfresh, Manager.getGatewayAndAccount, hg, ha, ht, Error.Has, hn]
      | false =>
        refine ⟨some (.wrap e ("failed to get account " ++ a.Name)), ?_, fun _ => by simp⟩
        simp [Manager.load, hfresh, Manager.getGatewayAndAccount, hg, ha, ht, Error.Has, hn]
  · intro gw acc hg ha hbad
    rcases restoreTriggers_spec a.Triggers with ⟨-, e, he⟩ | ⟨hall, -⟩
    · refine ⟨e, ?_⟩
      simp [Manager.load, hfresh, Manager.getGatewayAndAccount, hg, ha, he]
    · obtain ⟨dbt, hd, hb⟩ := hbad
      exact absurd hb (hall dbt hd)
  · intro gw acc triggers hg ha hr
    simp only [Manager.load, hfresh, Manager.getGatewayAndAccount, hg, ha, hr,
      Option.isSome_none, Bool.false_eq_true, if_false]
    cases ((NewPortfolio a.ID a.Name pm.db pm.rdb gw acc pm.eventPublisher).addTriggers
        triggers).start fuel now with
    | none => rfl
    | some r => rfl

/-- Whether `load` returns does not depend on the registry. -/
theorem load_returns_any (pm : Manager) (fuel : Nat) (now : Int)
    (a : repo.Accounts_SelectWithPortfolioTriggersRow)
    (h : (Manager.load { pm with portfolios := [] } fuel now a).isSome = true)
    (l : List (String × Portfolio)) :
    (Manager.load { pm with portfolios := l } fuel now a).isSome = true := by
  cases hreg : mapGet? l a.Name with
  | some v =>
    have hl := load_registered { pm with portfolios := l } fuel now a v hreg
    rw [hl]; rfl
  | none =>
    rcases load_congr { pm with portfolios := [] } l fuel now a rfl hreg with
      ⟨h0, -⟩ | ⟨e, -, h1⟩ | ⟨e, portf, -, h1⟩
    · rw [h0] at h; simp at h
    · have h2 : Manager.load { pm with portfolios := l } fuel now a =
          some (e, { pm with portfolios := l }) := h1
      rw [h2]; rfl
    · have h2 : Manager.load { pm with portfolios := l } fuel now a =
          some (e, { pm with portfolios := mapSet l a.Name portf }) := h1
      rw [h2]; rfl

/-- The loop of `Start` returns as soon as the `load` of every account returns. -/
theorem loadAll_returns (fuel : Nat) (now : Int)
    (accs : List repo.Accounts_SelectWithPortfolioTriggersRow) :
    ∀ pm : Manager,
      (∀ a ∈ accs, (Manager.load { pm with portfolios := [] } fuel now a).isSome = true) →
      (Manager.loadAll fuel now pm accs).isSome = true := by
  induction accs with
  | nil => intro pm _; rfl
  | cons b rest ih =>
    intro pm h
    rw [Manager.loadAll]
    have hb : (pm.load fuel now b).isSome = true :=
      load_returns_any pm fuel now b (h b (List.mem_cons_self _ _)) pm.portfolios
    cases hl : pm.load fuel now b with
    | none => rw [hl] at hb; simp at hb
    | some r =>
      obtain ⟨e, pm2⟩ := r
      dsimp only
      obtain ⟨hs2, -, -⟩ := load_frame pm pm2 fuel now b e hl
      apply ih pm2
      intro a ha
      have heq : ({ pm2 with portfolios := [] } : Manager) = { pm with portfolios := [] } := by
        rw [hs2]
      rw [heq]
      exact h a (List.mem_cons_of_mem _ ha)

/-- A `start` on a portfolio that is not started returns nil when the adapter hands out
the balances and the initial `updateData` succeeds. -/
theorem start_returns_nil (p p0 : Portfolio) (fuel : Nat) (now : Int)
    (bals : List (CoreCurrency × Balance)) (d : Data) (hc : p.closed ≠ 0)
    (hb : p.acc.Balances = .ok bals)
    (hu : Portfolio.updateData { p with closed := 0 } fuel bals = some (.ok d, p0)) :
    ∃ p1, p.start fuel now = some (none, p1) := by
  unfold Portfolio.start
  rw [if_neg hc]
  dsimp only
  rw [hb]
  dsimp only
  unfold Portfolio.handleBalanceUpdate
  rw [hu]
  exact ⟨_, rfl⟩

/-- Reading a map after a write through a pointer held in it. -/
theorem mapGet?_mapModify {κ ν : Type} [DecidableEq κ] (m : List (κ × ν)) (key k : κ) (val : ν) :
    mapGet? (mapModify m key val) k =
      if k = key then (mapGet? m key).map (fun _ => val) else mapGet? m k := by
  induction m with
  | nil => simp [mapModify, mapGet?]
  | cons e rest ih =>
    obtain ⟨k1, v⟩ := e
    unfold mapModify
    by_cases h1 : k1 = key
    · rw [if_pos h1]
      by_cases h2 : k = key
      · simp [mapGet?, h1, h2]
      · have h3 : ¬ k1 = k := fun h => h2 (h ▸ h1)
        simp [mapGet?, h2, h3]
    · rw [if_neg h1]
      by_cases h2 : k = key
      · subst h2
        rw [if_pos rfl] at ih
        simp [mapGet?, h1, ih]
      · rw [if_neg h2] at ih
        by_cases h3 : k1 = k
        · simp [mapGet?, h2, h3]
        · simp [mapGet?, h2, h3, ih]

/-- An entry of a map with distinct keys is what reading its key gives. -/
theorem mapGet?_of_mem {κ ν : Type} [DecidableEq κ] (m : List (κ × ν)) (key : κ) (val : ν)
    (hnd : (m.map Prod.fst).Nodup) (h : (key, val) ∈ m) : mapGet? m key = some val := by
  induction m with
  | nil => exact absurd h (List.not_mem_nil _)
  | cons e rest ih =>
    obtain ⟨k1, v⟩ := e
    rw [List.map_cons, List.nodup_cons] at hnd
    rcases List.mem_cons.mp h with heq | hmem
    · simp only [Prod.mk.injEq] at heq
      simp [mapGet?, heq.1, heq.2]
    · have hne : ¬ k1 = key := by
        intro hk
        apply hnd.1
        rw [hk]
        exact List.mem_map.mpr ⟨(key, val), hmem, rfl⟩
      simp [mapGet?, hne, ih hnd.2 hmem]

/-- The trigger an evaluation leaves depends on the store only through the calls it
rejects. -/
theorem tryExecute_trigger_congr (t : Trigger) (tb : ConvertedTo) (db db1 : DB)
    (hf : db1.failure = db.failure) : (t.TryExecute tb db1).2.1 = (t.TryExecute tb db).2.1 := by
  obtain ⟨r, t1, -, h⟩ := tryExecute_shape t tb db.failure
  obtain ⟨a1, h1⟩ := h db.applied
  obtain ⟨a2, h2⟩ := h db1.applied
  have h3 : t.TryExecute tb db = (r, t1, { failure := db.failure, applied := a1 }) := h1
  have h4 : t.TryExecute tb db1 = (r, t1, { failure := db.failure, applied := a2 }) := by
    rw [← h2, ← hf]
  rw [h3, h4]

/-- The trigger map after the body of the trigger loop: the evaluated trigger is written
back under its key, and the key is deleted when the trigger is retired. -/
theorem checkTrigger_triggers (p : Portfolio) (now : Int) (tID : String) (t : Trigger) :
    (p.checkTrigger now tID t).triggers =
      if p.retires t = true then
        mapDelete (mapModify p.triggers tID (t.TryExecute p.dataHolder.totalBalance p.db).2.1) tID
      else mapModify p.triggers tID (t.TryExecute p.dataHolder.totalBalance p.db).2.1 := by
  obtain ⟨r, t1, hID, h⟩ := tryExecute_shape t p.dataHolder.totalBalance p.db.failure
  obtain ⟨applied1, h1⟩ := h p.db.applied
  have h2 : t.TryExecute p.dataHolder.totalBalance p.db =
      (r, t1, { failure := p.db.failure, applied := applied1 }) := h1
  unfold Portfolio.checkTrigger Portfolio.retires
  rw [h2]
  cases r with
  | error e => simp
  | ok st =>
    cases hDone : st.Done
    · cases hOk : st.Ok <;> cases hpub : p.tePublisher <;> simp [hOk, hDone, hpub]
    · cases hdel : p.db.failure (.PortfolioTriggers_Delete t.ID) with
      | some e =>
        cases hOk : st.Ok <;> cases hpub : p.tePublisher <;>
          simp [hOk, hDone, hpub, hdel, hID, DB.exec]
      | none =>
        cases hOk : st.Ok <;> cases hpub : p.tePublisher <;>
          simp [hOk, hDone, hpub, hdel, hID, DB.exec]

/-- The trigger loop leaves the entry of a key it does not visit as it was. -/
theorem checkTriggers_get_other (now : Int) (l : List (String × Trigger)) :
    ∀ (p : Portfolio) (k : String), k ∉ l.map Prod.fst →
      mapGet? (Portfolio.checkTriggers now p l).triggers k = mapGet? p.triggers k := by
  induction l with
  | nil => intro p k _; rfl
  | cons e rest ih =>
    intro p k hk
    obtain ⟨tID, t⟩ := e
    simp only [List.map_cons, List.mem_cons, not_or] at hk
    unfold Portfolio.checkTriggers
    rw [ih _ k hk.2, checkTrigger_triggers]
    by_cases hr : p.retires t = true
    · rw [if_pos hr, mapGet?_mapDelete, if_neg hk.1, mapGet?_mapModify, if_neg hk.1]
    · rw [if_neg hr, mapGet?_mapModify, if_neg hk.1]

/-- The trigger loop over entries with distinct keys: a trigger of the map that the loop
visits and does not retire is left under its key as its evaluation leaves it. -/
theorem checkTriggers_get (now : Int) (l : List (String × Trigger)) :
    ∀ p : Portfolio, (l.map Prod.fst).Nodup → ∀ k t, (k, t) ∈ l → p.retires t = false →
      (mapGet? p.triggers k).isSome = true →
      mapGet? (Portfolio.checkTriggers now p l).triggers k =
        some (t.TryExecute p.dataHolder.totalBalance p.db).2.1 := by
  induction l with
  | nil => intro p _ k t h; exact absurd h (List.not_mem_nil _)
  | cons e rest ih =>
    intro p hnd k t hmem hret hsome
    obtain ⟨tID, t0⟩ := e
    rw [List.map_cons, List.nodup_cons] at hnd
    obtain ⟨-, hd, hf, -, -, -, -⟩ := checkTrigger_spec p now tID t0
    unfold Portfolio.checkTriggers
    rcases List.mem_cons.mp hmem with heq | hin
    · simp only [Prod.mk.injEq] at heq
      obtain ⟨hk, ht⟩ := heq
      subst hk
      subst ht
      rw [checkTriggers_get_other now rest _ k hnd.1, checkTrigger_triggers]
      have hr : ¬ p.retires t = true := by rw [hret]; simp
      rw [if_neg hr, mapGet?_mapModify, if_pos rfl]
      cases hg : mapGet? p.triggers k with
      | none => rw [hg] at hsome; simp at hsome
      | some v => rfl
    · have hne : k ≠ tID := by
        intro hk
        apply hnd.1
        rw [← hk]
        exact List.mem_map.mpr ⟨(k, t), hin, rfl⟩
      have hsame : mapGet? (p.checkTrigger now tID t0).triggers k = mapGet? p.triggers k := by
        rw [checkTrigger_triggers]
        by_cases hr : p.retires t0 = true
        · rw [if_pos hr, mapGet?_mapDelete, if_neg hne, mapGet?_mapModify, if_neg hne]
        · rw [if_neg hr, mapGet?_mapModify, if_neg hne]
      have hret1 : (p.checkTrigger now tID t0).retires t = false := by
        rw [retires_congr p _ t hd hf]
        exact hret
      rw [ih (p.checkTrigger now tID t0) hnd.2 k t hin hret1 (by rw [hsame]; exact hsome), hd,
        tryExecute_trigger_congr t p.dataHolder.totalBalance p.db _ hf]

/-- The trigger map after a `start` that returns nil: a trigger the initial pass does not
retire is left under its key as its evaluation (on the portfolio as the initial
`updateData` leaves it) leaves it. -/
theorem start_pass_values (p p1 p0 : Portfolio) (fuel : Nat) (now : Int)
    (bals : List (CoreCurrency × Balance)) (d : Data)
    (hc : p.closed ≠ 0) (hnd : (p.triggers.map Prod.fst).Nodup)
    (h : p.start fuel now = some (none, p1)) (hb : p.acc.Balances = .ok bals)
    (hu : Portfolio.updateData { p with closed := 0 } fuel bals = some (.ok d, p0)) :
    ∀ k t, (k, t) ∈ p.triggers → p0.retires t = false →
      mapGet? p1.triggers k = some (t.TryExecute p0.dataHolder.totalBalance p0.db).2.1 := by
  intro k t hmem hret
  unfold Portfolio.start at h
  rw [if_neg hc] at h
  dsimp only at h
  rw [hb] at h
  dsimp only at h
  unfold Portfolio.handleBalanceUpdate at h
  rw [hu] at h
  simp only [Option.some.injEq, Prod.mk.injEq, true_and] at h
  have hframe := updateData_frame _ p0 fuel bals _ hu
  have htr : p0.triggers = p.triggers := by rw [hframe]
  rw [← h]
  show mapGet? (Portfolio.checkTriggers now p0 p0.triggers).triggers k = _
  rw [htr]
  apply checkTriggers_get now p.triggers p0 hnd k t hmem hret
  rw [htr, mapGet?_of_mem p.triggers k t hnd hmem]
  rfl

/-- The trigger a persisted row restores carries the row's fields: id, currency, creation
time, and the limit of a CRL row, or the percent, the start total cost and the
trailing-alert flag of a CCBP row. -/
theorem restoreTrigger_fields (dbt : repo.TriggerRow) (t : Trigger)
    (h : restoreTrigger dbt = .ok (some t)) :
    ∃ cur, Currency.Set dbt.Currency = .ok cur ∧ cur.String = dbt.Currency ∧
      ((dbt.Type_ = TriggerType.CCBP.String ∧ ∃ percent startTotalCost,
          dbt.Percent = some percent ∧ dbt.StartTotalCost = some startTotalCost ∧
          t = .ccbp { trailingAlert := dbt.TrailingAlert, id := dbt.ID, currency := cur,
                      startTotalCost := startTotalCost, percent := percent,
                      createdAt := dbt.CreatedAt }) ∨
       (dbt.Type_ = TriggerType.CRL.String ∧ ∃ limit, dbt.Limit = some limit ∧
          t = .crl { id := dbt.ID, limit := limit, currency := cur,
                     createdAt := dbt.CreatedAt })) := by
  unfold restoreTrigger at h
  cases hc : Currency.Set dbt.Currency with
  | error e => rw [hc] at h; simp at h
  | ok cur =>
    rw [hc] at h
    dsimp only at h
    have hcur : cur.String = dbt.Currency := by
      unfold Currency.Set at hc
      by_cases h1 : dbt.Currency = "USDT"
      · rw [if_pos h1] at hc
        injection hc with hc
        rw [← hc, h1]
        rfl
      · rw [if_neg h1] at hc
        by_cases h2 : dbt.Currency = "BTC"
        · rw [if_pos h2] at hc
          injection hc with hc
          rw [← hc, h2]
          rfl
        · rw [if_neg h2] at hc
          simp at hc
    refine ⟨cur, rfl, hcur, ?_⟩
    by_cases h1 : dbt.Type_ = TriggerType.CCBP.String
    · rw [if_pos h1] at h
      left
      refine ⟨h1, ?_⟩
      cases hp : dbt.Percent with
      | none => rw [hp] at h; simp at h
      | some percent =>
        cases hs : dbt.StartTotalCost with
        | none => rw [hp, hs] at h; simp at h
        | some startTotalCost =>
          rw [hp, hs] at h
          simp only [Except.ok.injEq, Option.some.injEq] at h
          exact ⟨percent, startTotalCost, rfl, rfl, h.symm⟩
    · rw [if_neg h1] at h
      by_cases h2 : dbt.Type_ = TriggerType.CRL.String
      · rw [if_pos h2] at h
        right
        refine ⟨h2, ?_⟩
        cases hl : dbt.Limit with
        | none => rw [hl] at h; simp at h
        | some limit =>
          rw [hl] at h
          simp only [Except.ok.injEq, Option.some.injEq] at h
          exact ⟨limit, rfl, h.symm⟩
      · rw [if_neg h2] at h
        simp at h

/-! ## The event consumer -/

/-- `handleMessage` on a decoded envelope of one of the two known events: the result of
the dispatch with the `requeue` computed from its error. -/
theorem handleMessage_created (pm : Manager) (fuel : Nat) (now : Int) (name : String) :
    handleMessage pm fuel now (.ok { Event := AccountCreated, AccountName := name }) =
      (pm.AddPortfolio fuel now name).map (fun r => ((requeueOf r.1, r.1), r.2)) := by
  unfold handleMessage
  simp only [if_true]
  cases pm.AddPortfolio fuel now name with
  | none => rfl
  | some r =>
    obtain ⟨err, pm1⟩ := r
    cases err <;> rfl

/-- `handleMessage` on a decoded `ACCOUNT_DELETED` envelope. -/
theorem handleMessage_deleted (pm : Manager) (fuel : Nat) (now : Int) (name : String) :
    handleMessage pm fuel now (.ok { Event := AccountDeleted, AccountName := name }) =
      (pm.DeletePortfolio name).map (fun r => ((requeueOf r.1, r.1), r.2.1)) := by
  unfold handleMessage
  have hne : ¬ AccountDeleted = AccountCreated := by decide
  simp only [hne, if_false, if_true]
  cases hdel : pm.DeletePortfolio name with
  | none => rfl
  | some r =>
    obtain ⟨err, pm1, portf⟩ := r
    cases err <;> rfl

/-- C23: a delivery whose envelope names an event other than `ACCOUNT_CREATED` and
`ACCOUNT_DELETED`, or names none, whatever the manager and whatever account it names:
`handleMessage` returns an error with `requeue = false` and the manager as it was, without
a call of `AddPortfolio` or `DeletePortfolio` having to return, so the delivery is rejected
without requeue. The same holds for a decoded envelope whose event is neither of the two
constants. -/
theorem handleMessage_unknown_event (pm : Manager) (fuel : Nat) (now : Int)
    (event accountName : Option String)
    (hc : event ≠ some "ACCOUNT_CREATED") (hd : event ≠ some "ACCOUNT_DELETED") :
    (∃ err, handleDelivery pm fuel now (.object event accountName) =
        some ((false, some err), pm) ∧
      disposition (false, some err) = .reject false) ∧
    (∀ ev : Event, ev.Event ≠ AccountCreated → ev.Event ≠ AccountDeleted →
      ∃ err, handleMessage pm fuel now (.ok ev) = some ((false, some err), pm) ∧
        disposition (false, some err) = .reject false) := by
  constructor
  · cases event with
    | none =>
      refine ⟨.sentinel "unknown event", ?_, rfl⟩
      simp [handleDelivery, unmarshalEvent, handleMessage, AccountCreated, AccountDeleted]
    | some txt =>
      have h1 : ¬ txt = "ACCOUNT_CREATED" := fun h => hc (by rw [h])
      have h2 : ¬ txt = "ACCOUNT_DELETED" := fun h => hd (by rw [h])
      refine ⟨.wrap (.sentinel "invalid portfolio event") "failed to unmarshal", ?_, rfl⟩
      simp [handleDelivery, unmarshalEvent, PortfolioEvent.UnmarshalText, h1, h2, handleMessage]
  · intro ev h1 h2
    refine ⟨.sentinel "unknown event", ?_, rfl⟩
    simp [handleMessage, h1, h2]

/-- The statement of C23 on the delivery whose envelope names the event `BOGUS` and the
account `x`: it is rejected without requeue and the manager is as before. -/
theorem handleMessage_unknown_event_witness :
    ∃ err, handleDelivery demoManager 1 7 (.object (some "BOGUS") (some "x")) =
        some ((false, some err), demoManager) ∧
      disposition (false, some err) = .reject false :=
  (handleMessage_unknown_event demoManager 1 7 (some "BOGUS") (some "x")
    (by decide) (by decide)).1

/-- C24: a well-formed envelope. `ACCOUNT_CREATED` is dispatched to `AddPortfolio` and
`ACCOUNT_DELETED` to `DeletePortfolio`, with the envelope's account name; the delivery is
acknowledged when the dispatch returns nil; otherwise the dispatch error is returned, with
`requeue = true` if and only if it is not a domain error. An error that is, or wraps at
any depth, one of the manager's domain errors (portfolio-not-found, portfolio-exists,
account-not-found, gateway) gives `requeue = false`; and so do the errors the manager
returns for an unregistered name to delete, a registered name to add, an account the
lookup does not find, and an adapter that rejects the key. -/
theorem handleMessage_dispatch (pm : Manager) (fuel : Nat) (now : Int) (name : String) :
    (handleDelivery pm fuel now (.object (some "ACCOUNT_CREATED") (some name)) =
      (pm.AddPortfolio fuel now name).map (fun r => ((requeueOf r.1, r.1), r.2))) ∧
    (handleDelivery pm fuel now (.object (some "ACCOUNT_DELETED") (some name)) =
      (pm.DeletePortfolio name).map (fun r => ((requeueOf r.1, r.1), r.2.1))) ∧
    (requeueOf none = false ∧ disposition (requeueOf none, none) = .ack) ∧
    (∀ e, (requeueOf (some e) = true ↔ e.AsDomain = false) ∧
      disposition (requeueOf (some e), some e) = .reject (!e.AsDomain)) ∧
    (∀ e target, target ∈ [ErrNotFound, ErrExist, ErrAccountNotFound, ErrGateway] →
      e.Has target = true → requeueOf (some e) = false) ∧
    (mapGet? pm.portfolios name = none →
      handleDelivery pm fuel now (.object (some "ACCOUNT_DELETED") (some name)) =
        some ((false, some (.wrap ErrNotFound name)), pm)) ∧
    (∀ portf, mapGet? pm.portfolios name = some portf →
      handleDelivery pm fuel now (.object (some "ACCOUNT_CREATED") (some name)) =
        some ((false, some (.wrap ErrExist name)), pm)) ∧
    (mapGet? pm.portfolios name = none →
      (∀ e, pm.queries.Accounts_GetByName name = .error e → e.Has pgxErrNoRows = true →
        handleDelivery pm fuel now (.object (some "ACCOUNT_CREATED") (some name)) =
          some ((false, some (.wrap ErrAccountNotFound name)), pm)) ∧
      (∀ e, pm.queries.Accounts_GetByName name = .error e → e.Has pgxErrNoRows = false →
        handleDelivery pm fuel now (.object (some "ACCOUNT_CREATED") (some name)) =
          some ((!e.AsDomain,
            some (.wrap e ("failed to get account by name=" ++ name))), pm)) ∧
      (∀ account gw e, pm.queries.Accounts_GetByName name = .ok account →
        pm.gwsMngr account.ExchangeName = some gw →
        gw.Account { Key := account.Key, Secret := account.Secret,
                     Passphrase := account.Passphrase } = .error e →
        (e.Has coreErrInvalidAPIKey || e.Has coreErrMarketClosed) = true →
        handleDelivery pm fuel now (.object (some "ACCOUNT_CREATED") (some name)) =
          some ((false, some (.wrap ErrGateway ("account " ++ account.Name))), pm))) := by
  have hcreated : handleDelivery pm fuel now (.object (some "ACCOUNT_CREATED") (some name)) =
      (pm.AddPortfolio fuel now name).map (fun r => ((requeueOf r.1, r.1), r.2)) :=
    handleMessage_created pm fuel now name
  have hdeleted : handleDelivery pm fuel now (.object (some "ACCOUNT_DELETED") (some name)) =
      (pm.DeletePortfolio name).map (fun r => ((requeueOf r.1, r.1), r.2.1)) :=
    handleMessage_deleted pm fuel now name
  refine ⟨hcreated, hdeleted, ⟨rfl, rfl⟩, ?_, ?_, ?_, ?_, ?_⟩
  · intro e
    constructor
    · cases h : e.AsDomain <;> simp [requeueOf, h]
    · rfl
  · intro e target ht he
    simp only [List.mem_cons, List.mem_singleton, List.not_mem_nil, or_false] at ht
    have hd : e.AsDomain = true := by
      rcases ht with rfl | rfl | rfl | rfl
      · exact has_domain_asDomain e _ he
      · exact has_domain_asDomain e _ he
      · exact has_domain_asDomain e _ he
      · exact has_domain_asDomain e _ he
    simp [requeueOf, hd]
  · intro hfresh
    rw [hdeleted]
    simp [Manager.DeletePortfolio, hfresh, requeueOf, Error.AsDomain, ErrNotFound]
  · intro portf hreg
    rw [hcreated]
    simp [Manager.AddPortfolio, hreg, requeueOf, Error.AsDomain, ErrExist]
  · intro hfresh
    refine ⟨?_, ?_, ?_⟩
    · intro e he hn
      rw [hcreated]
      simp [Manager.AddPortfolio, hfresh, he, hn, requeueOf, Error.AsDomain, ErrAccountNotFound]
    · intro e he hn
      rw [hcreated]
      simp [Manager.AddPortfolio, hfresh, he, hn, requeueOf, Error.AsDomain]
    · intro account gw e he hg ha ht
      rw [hcreated]
      simp [Manager.AddPortfolio, hfresh, he, Manager.getGatewayAndAccount, hg, ha, ht,
        requeueOf, Error.AsDomain, Error.Has, ErrGateway, ErrGatewayNotFound]

/-- The statement of C24 on the manager scenarios: deleting the unregistered "zz" and
adding the registered "a" are rejected without requeue; adding "e", whose lookup fails
with a connection error, is rejected with requeue; adding "b", whose exchange has no
adapter, is acknowledged. -/
theorem handleMessage_dispatch_witness :
    handleDelivery busyManager 1 7 (.object (some "ACCOUNT_DELETED") (some "zz")) =
        some ((false, some (.wrap ErrNotFound "zz")), busyManager) ∧
    handleDelivery busyManager 1 7 (.object (some "ACCOUNT_CREATED") (some "a")) =
        some ((false, some (.wrap ErrExist "a")), busyManager) ∧
    handleDelivery busyManager 1 7 (.object (some "ACCOUNT_CREATED") (some "e")) =
        some ((true, some (.wrap (.sentinel "connection refused")
          "failed to get account by name=e")), busyManager) ∧
    (handleDelivery busyManager 1 7 (.object (some "ACCOUNT_CREATED") (some "b"))).map
        (fun r => disposition r.1) = some .ack :=
  ⟨(handleMessage_dispatch busyManager 1 7 "zz").2.2.2.2.2.1 rfl,
    (handleMessage_dispatch busyManager 1 7 "a").2.2.2.2.2.2.1 _ rfl,
    ((handleMessage_dispatch busyManager 1 7 "e").2.2.2.2.2.2.2 rfl).2.1 _ rfl rfl,
    rfl⟩

/-- C27, as the code is: a delivery whose body does not decode into the event envelope.
`handleMessage` returns the decoder's error, wrapped, with `requeue = false`, and the
delivery is rejected without requeue. -/
theorem unmarshal_failure_not_requeued :
    unmarshalEvent (.malformed (.sentinel "unexpected end of JSON input")) =
        .error (.sentinel "unexpected end of JSON input") ∧
    handleDelivery demoManager 1 7 (.malformed (.sentinel "unexpected end of JSON input")) =
      some ((false, some (.wrap (.sentinel "unexpected end of JSON input")
        "failed to unmarshal")), demoManager) ∧
    ¬ (∃ err pm1,
      handleDelivery demoManager 1 7 (.malformed (.sentinel "unexpected end of JSON input")) =
        some ((true, err), pm1)) := by
  refine ⟨rfl, rfl, ?_⟩
  rintro ⟨err, pm1, h⟩
  have h0 : handleDelivery demoManager 1 7
      (.malformed (.sentinel "unexpected end of JSON input")) =
      some ((false, some (.wrap (.sentinel "unexpected end of JSON input")
        "failed to unmarshal")), demoManager) := rfl
  rw [h0] at h
  simp at h

/-- C27, amended: `requeue = true` is set for every error of the dispatch that is not a
domain error, and for no other error. A delivery whose body does not decode is rejected
with the decoder's error, wrapped, and `requeue = false`, the manager being as before;
and when the envelope decodes to one of the two known events and `handleMessage` returns
an error, `requeue` is true exactly when that error is not a domain error. -/
theorem handleMessage_requeue (pm : Manager) (fuel : Nat) (now : Int) (body : Body) :
    (∀ e, unmarshalEvent body = .error e →
      handleDelivery pm fuel now body =
        some ((false, some (.wrap e "failed to unmarshal")), pm) ∧
      disposition (false, some (.wrap e "failed to unmarshal")) = .reject false) ∧
    (∀ ev, unmarshalEvent body = .ok ev →
      ev.Event = AccountCreated ∨ ev.Event = AccountDeleted →
      ∀ requeue err pm1, handleDelivery pm fuel now body = some ((requeue, some err), pm1) →
        (requeue = true ↔ err.AsDomain = false)) := by
  constructor
  · intro e he
    simp [handleDelivery, he, handleMessage, disposition]
  · intro ev hev hknown requeue err pm1 h
    unfold handleDelivery at h
    rw [hev] at h
    obtain ⟨event, accountName⟩ := ev
    rcases hknown with hk | hk
    · have hk1 : event = AccountCreated := hk
      subst hk1
      rw [handleMessage_created] at h
      cases hadd : pm.AddPortfolio fuel now accountName with
      | none => rw [hadd] at h; simp at h
      | some r =>
        rw [hadd] at h
        simp only [Option.map_some', Option.some.injEq, Prod.mk.injEq] at h
        obtain ⟨⟨hrq, herr⟩, -⟩ := h
        rw [herr] at hrq
        rw [← hrq]
        cases hd : err.AsDomain <;> simp [requeueOf, hd]
    · have hk1 : event = AccountDeleted := hk
      subst hk1
      rw [handleMessage_deleted] at h
      cases hdel : pm.DeletePortfolio accountName with
      | none => rw [hdel] at h; simp at h
      | some r =>
        rw [hdel] at h
        simp only [Option.map_some', Option.some.injEq, Prod.mk.injEq] at h
        obtain ⟨⟨hrq, herr⟩, -⟩ := h
        rw [herr] at hrq
        rw [← hrq]
        cases hd : err.AsDomain <;> simp [requeueOf, hd]

/-- The statement of C27 as amended on the manager scenarios: a body the decoder rejects
is rejected without requeue. -/
theorem handleMessage_requeue_witness :
    handleDelivery demoManager 1 7 (.malformed (.sentinel "invalid character")) =
        some ((false, some (.wrap (.sentinel "invalid character") "failed to unmarshal")),
          demoManager) ∧
      disposition (false, some (.wrap (.sentinel "invalid character") "failed to unmarshal")) =
        .reject false :=
  (handleMessage_requeue demoManager 1 7 (.malformed (.sentinel "invalid character"))).1 _ rfl

/-! ## price: termination on a resolvable catalog -/

/-- The catalog loop returns when every call it can make returns. -/
theorem priceHops_returns (self : CoreCurrency → CoreCurrency → Int → Option Decimal)
    (base quote : CoreCurrency) (depth : Int) (symbols : List Symbol)
    (hnext : ∀ s ∈ symbols, ∃ v, self s.Quote quote (depth + 1) = some v)
    (hfirst : ∀ s ∈ symbols, ∃ v, self s.Base s.Quote 0 = some v) :
    ∃ v, priceHops self base quote depth symbols = some v := by
  induction symbols with
  | nil => exact ⟨0, rfl⟩
  | cons s rest ih =>
    have ihr := ih (fun t ht => hnext t (List.mem_cons_of_mem _ ht))
      (fun t ht => hfirst t (List.mem_cons_of_mem _ ht))
    unfold priceHops
    by_cases hb : s.Base ≠ base
    · rw [if_pos hb]
      exact ihr
    · rw [if_neg hb]
      obtain ⟨v, hv⟩ := hnext s (List.mem_cons_self _ _)
      rw [hv]
      dsimp only
      by_cases hz : v ≠ 0
      · rw [if_pos hz]
        obtain ⟨w, hw⟩ := hfirst s (List.mem_cons_self _ _)
        rw [hw]
        exact ⟨_, rfl⟩
      · rw [if_neg hz]
        exact ihr

/-- A call whose direct lookup resolves returns from it, at any depth and with any positive
fuel. -/
theorem price_direct_returns (p : Portfolio) (fuel : Nat) (base quote : CoreCurrency)
    (depth : Int) (inst : Instrument) (h : p.gw.Instrument (base ++ quote) = .ok inst) :
    ∃ v, p.price (fuel + 1) base quote depth = some v := by
  unfold Portfolio.price
  by_cases hbq : base = quote
  · rw [if_pos hbq]
    exact ⟨_, rfl⟩
  · rw [if_neg hbq, h]
    exact ⟨_, rfl⟩

/-- On a catalog whose every symbol resolves directly, a call at depth `depth` returns
within `n + 1` nested calls as soon as `6 ≤ depth + n`. -/
theorem price_returns_within (p : Portfolio)
    (hres : ∀ s ∈ p.gw.AllSymbols, ∃ inst, p.gw.Instrument (s.Base ++ s.Quote) = .ok inst)
    (n : Nat) :
    ∀ (base quote : CoreCurrency) (depth : Int), 6 ≤ depth + n →
      ∃ v, p.price (n + 1) base quote depth = some v := by
  induction n with
  | zero =>
    intro base quote depth hd
    unfold Portfolio.price
    by_cases hbq : base = quote
    · rw [if_pos hbq]; exact ⟨_, rfl⟩
    · rw [if_neg hbq]
      cases hdir : p.gw.Instrument (base ++ quote) with
      | ok inst => exact ⟨_, rfl⟩
      | error e =>
        dsimp only
        cases hinv : p.gw.Instrument (quote ++ base) with
        | ok inst =>
          dsimp only
          by_cases hz : inst.Price.2 = 0
          · rw [if_pos hz]; exact ⟨_, rfl⟩
          · rw [if_neg hz]; exact ⟨_, rfl⟩
        | error e1 =>
          dsimp only
          have hgt : depth > 5 := by
            simp only [Nat.cast_zero, add_zero] at hd
            omega
          rw [if_pos hgt]
          exact ⟨_, rfl⟩
  | succ n ih =>
    intro base quote depth hd
    unfold Portfolio.price
    by_cases hbq : base = quote
    · rw [if_pos hbq]; exact ⟨_, rfl⟩
    · rw [if_neg hbq]
      cases hdir : p.gw.Instrument (base ++ quote) with
      | ok inst => exact ⟨_, rfl⟩
      | error e =>
        dsimp only
        cases hinv : p.gw.Instrument (quote ++ base) with
        | ok inst =>
          dsimp only
          by_cases hz : inst.Price.2 = 0
          · rw [if_pos hz]; exact ⟨_, rfl⟩
          · rw [if_neg hz]; exact ⟨_, rfl⟩
        | error e1 =>
          dsimp only
          by_cases hgt : depth > 5
          · rw [if_pos hgt]; exact ⟨_, rfl⟩
          · rw [if_neg hgt]
            apply priceHops_returns
            · intro s _
              apply ih
              push_cast at hd
              omega
            · intro s hs
              obtain ⟨inst, hinst⟩ := hres s hs
              exact price_direct_returns p n s.Base s.Quote 0 inst hinst

/-- C28: on a catalog whose every symbol `s` resolves as `Instrument(s.base + s.quote)`,
the top-level call `price(base, quote, 0)` returns for every pair of currencies: seven
nested calls are enough, the value is the same for any larger bound, and the depth-0
re-pricing of every catalog symbol returns from its first call. -/
theorem price_terminates (p : Portfolio)
    (hres : ∀ s ∈ p.gw.AllSymbols, ∃ inst, p.gw.Instrument (s.Base ++ s.Quote) = .ok inst)
    (base quote : CoreCurrency) :
    (∃ v, p.price 7 base quote 0 = some v ∧ p.priceReturns base quote 0 v ∧
      (∀ fuel, 7 ≤ fuel → p.price fuel base quote 0 = some v) ∧
      ∀ w, p.priceReturns base quote 0 w → w = v) ∧
    (∀ s ∈ p.gw.AllSymbols, ∃ v, p.price 1 s.Base s.Quote 0 = some v) := by
  constructor
  · obtain ⟨v, hv⟩ := price_returns_within p hres 6 base quote 0 (by norm_num)
    refine ⟨v, hv, ⟨7, hv⟩, ?_, ?_⟩
    · intro fuel hf
      exact price_mono p 7 fuel hf base quote 0 v hv
    · intro w hw
      exact priceReturns_unique p base quote 0 w v hw ⟨7, hv⟩
  · intro s hs
    obtain ⟨inst, hinst⟩ := hres s hs
    exact price_direct_returns p 0 s.Base s.Quote 0 inst hinst

/-- The statement of C28 on the adapter of the cross-rate scenario, whose two catalog
symbols both resolve: `price(ETH, DOGE, 0)` returns. -/
theorem price_terminates_witness :
    (∀ s ∈ hopPortfolio.gw.AllSymbols,
      ∃ inst, hopPortfolio.gw.Instrument (s.Base ++ s.Quote) = .ok inst) ∧
    ∃ v, hopPortfolio.price 7 "ETH" "DOGE" 0 = some v := by
  have hres : ∀ s ∈ hopPortfolio.gw.AllSymbols,
      ∃ inst, hopPortfolio.gw.Instrument (s.Base ++ s.Quote) = .ok inst := by
    intro s hs
    have hs1 : s ∈ [({ Base := "ETH", Quote := "USDT" } : Symbol),
        { Base := "USDT", Quote := "DOGE" }] := hs
    simp only [List.mem_cons, List.mem_singleton, List.not_mem_nil, or_false] at hs1
    rcases hs1 with rfl | rfl
    · exact ⟨_, rfl⟩
    · exact ⟨_, rfl⟩
  obtain ⟨v, hv, -⟩ := (price_terminates hopPortfolio hres "ETH" "DOGE").1
  exact ⟨hres, v, hv⟩

/-! ## The event of a trailing trigger -/

/-- A `handleBalanceUpdate` whose `updateData` succeeds: it returns nil, the publisher
has been handed the fired events of the map entries in loop order, and the keys left in
the map are those of the triggers the loop did not retire. -/
theorem handleBalanceUpdate_pass (p p1 : Portfolio) (fuel : Nat) (now : Int)
    (balances : List (CoreCurrency × Balance)) (d : Data)
    (hupd : p.updateData fuel balances = some (.ok d, p1)) :
    ∃ p2, p.handleBalanceUpdate fuel now balances = some (none, p2) ∧
      p2 = Portfolio.checkTriggers now p1 p.triggers ∧
      p2.tePublisher = p.tePublisher.map (fun pub =>
        { pub with
          received := pub.received ++ p.triggers.filterMap (fun e => p1.firedEvent now e.2) }) ∧
      p2.triggers.map Prod.fst =
        (p.triggers.map Prod.fst).filter
          (fun k => !(p.triggers.any (fun e => decide (k = e.1) && p1.retires e.2))) := by
  have hframe := updateData_frame p p1 fuel balances _ hupd
  have htr : p1.triggers = p.triggers := by rw [hframe]
  have hpub : p1.tePublisher = p.tePublisher := by rw [hframe]
  obtain ⟨-, -, -, -, -, hk, hp⟩ := checkTriggers_spec now p1.triggers p1
  rw [htr] at hk hp
  rw [hpub] at hp
  refine ⟨_, handleBalanceUpdate_eq p p1 fuel now balances d hupd, by rw [htr], ?_, ?_⟩
  · rw [htr]; exact hp
  · rw [htr]; exact hk

/-- A trailing trigger that fires: the deviation is not below the threshold, the store
accepted the anchor update, and the trigger comes back with the current total as its
anchor. -/
theorem ccbp_trailing_fires (c : CostChangedByPercent) (tb : ConvertedTo) (db : DB)
    (st : ExecutionStatus) (htrail : c.trailingAlert = true)
    (hexec : (c.TryExecute tb db).1 = .ok st) (hok : st.Ok = true) :
    ¬ devPercent (TotalBalance tb c.currency) c.startTotalCost < c.percent ∧
    st = { Ok := true, Done := false,
           CurrentValue := devPercent (TotalBalance tb c.currency) c.startTotalCost } ∧
    (c.TryExecute tb db).2.1 = { c with startTotalCost := TotalBalance tb c.currency } := by
  by_cases hlt : devPercent (TotalBalance tb c.currency) c.startTotalCost < c.percent
  · have h : c.TryExecute tb db =
        (.ok { Ok := false, Done := false,
               CurrentValue := devPercent (TotalBalance tb c.currency) c.startTotalCost },
          c, db) := by
      simp [CostChangedByPercent.TryExecute, hlt]
    rw [h] at hexec
    simp only [Except.ok.injEq] at hexec
    rw [← hexec] at hok
    simp at hok
  · cases hf : db.failure (.PortfolioTriggers_UpdateStartTotalCost
        { StartTotalCost := some c.startTotalCost, ID := c.id }) with
    | some e =>
      have h : c.TryExecute tb db =
          (.error (.wrap e "failed to update start total cost of portfolio trigger"),
            c, db) := by
        simp [CostChangedByPercent.TryExecute, hlt, htrail, DB.exec, hf]
      rw [h] at hexec
      simp at hexec
    | none =>
      have h : c.TryExecute tb db =
          (.ok { Ok := true, Done := false,
                 CurrentValue := devPercent (TotalBalance tb c.currency) c.startTotalCost },
            { c with startTotalCost := TotalBalance tb c.currency },
            { db with applied := db.applied ++ [.PortfolioTriggers_UpdateStartTotalCost
                { StartTotalCost := some c.startTotalCost, ID := c.id }] }) := by
        simp [CostChangedByPercent.TryExecute, hlt, htrail, DB.exec, hf]
      rw [h] at hexec
      simp only [Except.ok.injEq] at hexec
      exact ⟨hlt, hexec.symm, by rw [h]⟩

/-- C30: a trailing-alert `CostChangedByPercent` whose evaluation returns `Ok = true`. The
event of the trigger loop for it carries the settings read after the evaluation: its
`start_total_cost` is the current total, the new anchor, while its `current_value` is the
deviation of that total from the previous anchor; with a positive threshold the two
anchors differ. And `handleBalanceUpdate` hands that event to the publisher. -/
theorem trailing_event_carries_new_anchor (p : Portfolio) (now : Int)
    (c : CostChangedByPercent) (st : ExecutionStatus) (htrail : c.trailingAlert = true)
    (hexec : (Trigger.TryExecute (.ccbp c) p.dataHolder.totalBalance p.db).1 = .ok st)
    (hok : st.Ok = true) :
    p.firedEvent now (.ccbp c) = some
      { Portfolio := p.name, Timestamp := now,
        CurrentValue :=
          devPercent (TotalBalance p.dataHolder.totalBalance c.currency) c.startTotalCost,
        TriggerSettings := CostChangedByPercent.Settings
          { c with startTotalCost := TotalBalance p.dataHolder.totalBalance c.currency } } ∧
    (CostChangedByPercent.Settings
        { c with startTotalCost := TotalBalance p.dataHolder.totalBalance c.currency }
      ).StartTotalCost = some (TotalBalance p.dataHolder.totalBalance c.currency) ∧
    (0 < c.percent → TotalBalance p.dataHolder.totalBalance c.currency ≠ c.startTotalCost) ∧
    (∀ (q : Portfolio) fuel balances d tID pub,
      q.updateData fuel balances = some (.ok d, p) → (tID, Trigger.ccbp c) ∈ q.triggers →
      q.tePublisher = some pub →
      ∃ p2 pub2, q.handleBalanceUpdate fuel now balances = some (none, p2) ∧
        p2.tePublisher = some pub2 ∧
        ({ Portfolio := p.name, Timestamp := now,
           CurrentValue :=
             devPercent (TotalBalance p.dataHolder.totalBalance c.currency) c.startTotalCost,
           TriggerSettings := CostChangedByPercent.Settings
             { c with startTotalCost := TotalBalance p.dataHolder.totalBalance c.currency } } :
          TriggerEvent) ∈ pub2.received) := by
  have hexec1 : (c.TryExecute p.dataHolder.totalBalance p.db).1 = .ok st := hexec
  obtain ⟨hnlt, hst, ht1⟩ := ccbp_trailing_fires c _ _ st htrail hexec1 hok
  subst hst
  have hfired : p.firedEvent now (.ccbp c) = some
      { Portfolio := p.name, Timestamp := now,
        CurrentValue :=
          devPercent (TotalBalance p.dataHolder.totalBalance c.currency) c.startTotalCost,
        TriggerSettings := CostChangedByPercent.Settings
          { c with startTotalCost := TotalBalance p.dataHolder.totalBalance c.currency } } := by
    unfold Portfolio.firedEvent Trigger.TryExecute
    dsimp only
    rw [hexec1, ht1]
    rfl
  refine ⟨hfired, rfl, ?_, ?_⟩
  · intro hpos heq
    apply hnlt
    rw [heq]
    simpa [devPercent] using hpos
  · intro q fuel balances d tID pub hupd hmem hpub
    obtain ⟨p2, h, -, hp, -⟩ := handleBalanceUpdate_pass q p fuel now balances d hupd
    rw [hpub] at hp
    refine ⟨p2, _, h, hp, ?_⟩
    exact List.mem_append_right _ (List.mem_filterMap.mpr ⟨(tID, .ccbp c), hmem, hfired⟩)

/-- The statement of C30 on `pricedPortfolio` (hot total 120) and the trailing trigger
with anchor 100 and threshold 10: the event carries the deviation 20, measured against
the anchor 100, and settings whose `start_total_cost` is 120. -/
theorem trailing_event_carries_new_anchor_witness :
    pricedPortfolio.firedEvent 7 (.ccbp trailingDemo) = some
      { Portfolio := "acc", Timestamp := 7, CurrentValue := 20,
        TriggerSettings := CostChangedByPercent.Settings
          { trailingDemo with startTotalCost := 120 } } ∧
    (120 : Decimal) ≠ trailingDemo.startTotalCost := by
  have htb : TotalBalance pricedPortfolio.dataHolder.totalBalance trailingDemo.currency = 120 :=
    rfl
  have hdev : devPercent 120 trailingDemo.startTotalCost = 20 := by
    norm_num [devPercent, trailingDemo]
  have hexec : (Trigger.TryExecute (.ccbp trailingDemo) pricedPortfolio.dataHolder.totalBalance
      pricedPortfolio.db).1 = .ok { Ok := true, Done := false, CurrentValue := 20 } := by
    show (trailingDemo.TryExecute pricedPortfolio.dataHolder.totalBalance emptyStore).1 = _
    rw [ccbp_tryExecute_trailing _ _ _ (fun _ => rfl) rfl, htb, hdev]
    norm_num [trailingDemo]
  obtain ⟨h1, -, h3, -⟩ :=
    trailing_event_carries_new_anchor pricedPortfolio 7 trailingDemo _ rfl hexec rfl
  rw [htb] at h1 h3
  rw [hdev] at h1
  exact ⟨h1, h3 (by norm_num [trailingDemo])⟩

/-! ## The close channel and the worker through the trigger loop and `start` -/

/-- The trigger loop touches neither the close channel nor the worker. -/
theorem checkTriggers_life (now : Int) (l : List (String × Trigger)) :
    ∀ p : Portfolio,
      (Portfolio.checkTriggers now p l).closedCh = p.closedCh ∧
      (Portfolio.checkTriggers now p l).worker = p.worker := by
  induction l with
  | nil => intro p; exact ⟨rfl, rfl⟩
  | cons e rest ih =>
    intro p
    obtain ⟨tID, t⟩ := e
    obtain ⟨db1, t1, -, h⟩ := checkTrigger_eq p now tID t
    obtain ⟨h1, h2⟩ := ih (p.checkTrigger now tID t)
    rw [Portfolio.checkTriggers, h1, h2, h]
    exact ⟨rfl, rfl⟩

/-- `handleBalanceUpdate` touches neither the close channel nor the worker. -/
theorem handleBalanceUpdate_life (p p1 : Portfolio) (fuel : Nat) (now : Int)
    (balances : List (CoreCurrency × Balance)) (err : Option Error)
    (h : p.handleBalanceUpdate fuel now balances = some (err, p1)) :
    p1.closedCh = p.closedCh ∧ p1.worker = p.worker := by
  unfold Portfolio.handleBalanceUpdate at h
  cases hu : p.updateData fuel balances with
  | none => rw [hu] at h; simp at h
  | some res =>
    obtain ⟨r, p2⟩ := res
    have hframe := updateData_frame p p2 fuel balances r hu
    have hc2 : p2.closedCh = p.closedCh := by rw [hframe]
    have hw2 : p2.worker = p.worker := by rw [hframe]
    rw [hu] at h
    cases r with
    | error e =>
      simp only [Option.some.injEq, Prod.mk.injEq] at h
      rw [← h.2]
      exact ⟨hc2, hw2⟩
    | ok d =>
      simp only [Option.some.injEq, Prod.mk.injEq] at h
      obtain ⟨h1, h2⟩ := checkTriggers_life now p2.triggers p2
      rw [← h.2, h1, h2]
      exact ⟨hc2, hw2⟩

/-- The ways `start` returns on a portfolio that is not started: the adapter's `Balances`
fails, or the initial `handleBalanceUpdate` fails, or both succeed and the worker is
spawned. In every case the closed flag is cleared and the close channel is untouched;
no worker is spawned when it returns an error. -/
theorem start_cases (p p1 : Portfolio) (fuel : Nat) (now : Int) (err : Option Error)
    (hc : p.closed ≠ 0) (h : p.start fuel now = some (err, p1)) :
    ((∃ e, p.acc.Balances = .error e ∧ err = some e ∧ p1 = { p with closed := 0 }) ∨
      (∃ bals e, p.acc.Balances = .ok bals ∧
        Portfolio.handleBalanceUpdate { p with closed := 0 } fuel now bals = some (some e, p1) ∧
        err = some e) ∨
      (∃ bals p2, p.acc.Balances = .ok bals ∧
        Portfolio.handleBalanceUpdate { p with closed := 0 } fuel now bals = some (none, p2) ∧
        err = none ∧
        p1 = { p2 with acc := { p2.acc with notifying := true }, worker := true })) ∧
    p1.closed = 0 ∧ p1.closedCh = p.closedCh ∧
    (∀ e, err = some e → p1.worker = p.worker) ∧ (err = none → p1.worker = true) := by
  have hclosed := start_closed p p1 fuel now err h
  unfold Portfolio.start at h
  rw [if_neg hc] at h
  dsimp only at h
  cases hb : p.acc.Balances with
  | error e =>
    rw [hb] at h
    simp only [Option.some.injEq, Prod.mk.injEq] at h
    obtain ⟨h1, h2⟩ := h
    subst h1
    subst h2
    refine ⟨Or.inl ⟨e, rfl, rfl, rfl⟩, hclosed, rfl, fun _ _ => rfl, fun h0 => by simp at h0⟩
  | ok bals =>
    rw [hb] at h
    dsimp only at h
    cases hh : Portfolio.handleBalanceUpdate { p with closed := 0 } fuel now bals with
    | none => rw [hh] at h; simp at h
    | some r =>
      obtain ⟨e1, p2⟩ := r
      obtain ⟨hl1, hl2⟩ := handleBalanceUpdate_life _ p2 fuel now bals e1 hh
      rw [hh] at h
      cases e1 with
      | some e =>
        simp only [Option.some.injEq, Prod.mk.injEq] at h
        obtain ⟨h1, h2⟩ := h
        subst h1
        subst h2
        exact ⟨Or.inr (Or.inl ⟨bals, e, rfl, hh, rfl⟩), hclosed, hl1, fun _ _ => hl2,
          fun h0 => by simp at h0⟩
      | none =>
        simp only [Option.some.injEq, Prod.mk.injEq] at h
        obtain ⟨h1, h2⟩ := h
        subst h1
        subst h2
        exact ⟨Or.inr (Or.inr ⟨bals, p2, rfl, hh, rfl, rfl⟩), hclosed, hl1,
          fun e h0 => by simp at h0, fun _ => rfl⟩

/-! ## AddPortfolio: a worker start that fails -/

/-- C29: `AddPortfolio(name)` for an unregistered name whose account is found (the lookup
returns the account of that name) and whose adapter hands out an account handle, when the
worker start returns an error `e`. That error comes from the adapter's `Balances` or from
the initial `handleBalanceUpdate`; `AddPortfolio` returns it wrapped, which is no domain
error when the collaborators return none of their own; the portfolio is registered under
the name all the same, open (`IsClosed = false`) and without a worker; and a later
`AddPortfolio` of the same name returns portfolio-exists and changes nothing. -/
theorem addPortfolio_start_failure (pm : Manager) (fuel : Nat) (now : Int) (name : String)
    (account : repo.Account) (gw : Gateway) (acc : Account) (e : Error) (portf : Portfolio)
    (hfresh : mapGet? pm.portfolios name = none)
    (hacc : pm.queries.Accounts_GetByName name = .ok account)
    (hname : account.Name = name)
    (hgw : pm.gwsMngr account.ExchangeName = some gw)
    (hauth : gw.Account { Key := account.Key, Secret := account.Secret,
                          Passphrase := account.Passphrase } = .ok acc)
    (hstart : (NewPortfolio account.ID account.Name pm.db pm.rdb gw acc
        pm.eventPublisher).start fuel now = some (some e, portf)) :
    (acc.Balances = .error e ∨
      ∃ bals, acc.Balances = .ok bals ∧
        Portfolio.handleBalanceUpdate
          { NewPortfolio account.ID account.Name pm.db pm.rdb gw acc pm.eventPublisher with
            closed := 0 } fuel now bals = some (some e, portf)) ∧
    pm.AddPortfolio fuel now name =
      some (some (.wrap e "failed to start portfolio scheduling for account"),
        { pm with portfolios := mapSet pm.portfolios name portf }) ∧
    (pm.foreignErrors name →
      (Error.wrap e "failed to start portfolio scheduling for account").AsDomain = false) ∧
    mapGet? (mapSet pm.portfolios name portf) name = some portf ∧
    portf.IsClosed = false ∧ portf.worker = false ∧
    Manager.AddPortfolio { pm with portfolios := mapSet pm.portfolios name portf } fuel now
        name =
      some (some (.wrap ErrExist name),
        { pm with portfolios := mapSet pm.portfolios name portf }) := by
  subst hname
  have hc : (NewPortfolio account.ID account.Name pm.db pm.rdb gw acc
      pm.eventPublisher).closed ≠ 0 := by
    simp [NewPortfolio]
  obtain ⟨hways, hclosed, -, hworker, -⟩ := start_cases _ portf fuel now _ hc hstart
  have hreg : mapGet? (mapSet pm.portfolios account.Name portf) account.Name = some portf :=
    mapGet?_mapSet_self _ _ _
  refine ⟨?_, ?_, ?_, hreg, ?_, ?_, ?_⟩
  · rcases hways with ⟨e1, hb, he, -⟩ | ⟨bals, e1, hb, hh, he⟩ | ⟨bals, p2, -, -, he, -⟩
    · simp only [Option.some.injEq] at he
      subst he
      exact Or.inl hb
    · simp only [Option.some.injEq] at he
      subst he
      exact Or.inr ⟨bals, hb, hh⟩
    · simp at he
  · simp [Manager.AddPortfolio, hfresh, hacc, Manager.getGatewayAndAccount, hgw, hauth, hstart]
  · intro hforeign
    obtain ⟨-, -, hbal, hget, hset⟩ := hforeign
    have hdom : e.AsDomain = false :=
      start_error_foreign _ portf fuel now e hstart
        (fun e1 h1 => hbal account gw acc e1 hacc hgw hauth h1) hget hset
    simpa [Error.AsDomain] using hdom
  · simp [Portfolio.IsClosed, hclosed]
  · exact hworker e rfl
  · simp [Manager.AddPortfolio, hreg]

/-- The statement of C29 on `stuckManager`, whose adapter hands out an account with a
failing `Balances`: `AddPortfolio("a")` returns the timeout, wrapped, which is no domain
error; "a" is registered, open and without a worker; and a second `AddPortfolio("a")`
returns portfolio-exists. -/
theorem addPortfolio_start_failure_witness :
    ∃ portf, stuckManager.AddPortfolio 1 7 "a" =
        some (some (.wrap (.sentinel "timeout")
          "failed to start portfolio scheduling for account"),
          { stuckManager with portfolios := [("a", portf)] }) ∧
      (Error.wrap (.sentinel "timeout")
        "failed to start portfolio scheduling for account").AsDomain = false ∧
      portf.IsClosed = false ∧ portf.worker = false ∧
      Manager.AddPortfolio { stuckManager with portfolios := [("a", portf)] } 1 7 "a" =
        some (some (.wrap ErrExist "a"), { stuckManager with portfolios := [("a", portf)] }) := by
  obtain ⟨-, h2, -, -, h5, h6, h7⟩ :=
    addPortfolio_start_failure stuckManager 1 7 "a" (accountOn 1 "a" "Binance.PROD")
      stuckGateway stuckAccount (.sentinel "timeout") { stuckPortfolio with closed := 0 }
      rfl rfl rfl rfl rfl rfl
  exact ⟨_, h2, rfl, h5, h6, h7⟩

/-! ## handleBalanceUpdate: errors -/

/-- An evaluation of a `CostChangedByPercent` only adds to the record of the store. -/
theorem ccbp_tryExecute_applied (c : CostChangedByPercent) (tb : ConvertedTo) (db : DB) :
    ∃ extra, (c.TryExecute tb db).2.2.applied = db.applied ++ extra := by
  by_cases hok : (!decide (devPercent (TotalBalance tb c.currency) c.startTotalCost < c.percent)
      && c.trailingAlert) = true
  · cases hf : db.failure (.PortfolioTriggers_UpdateStartTotalCost
        { StartTotalCost := some c.startTotalCost, ID := c.id }) with
    | some e =>
      refine ⟨[], ?_⟩
      unfold CostChangedByPercent.TryExecute
      dsimp only
      rw [if_pos hok]
      simp only [DB.exec, hf, List.append_nil]
    | none =>
      refine ⟨[.PortfolioTriggers_UpdateStartTotalCost
        { StartTotalCost := some c.startTotalCost, ID := c.id }], ?_⟩
      unfold CostChangedByPercent.TryExecute
      dsimp only
      rw [if_pos hok]
      simp only [DB.exec, hf]
  · refine ⟨[], ?_⟩
    unfold CostChangedByPercent.TryExecute
    dsimp only
    rw [if_neg hok]
    simp only [List.append_nil]

/-- An evaluation of a trigger only adds to the record of the store. -/
theorem tryExecute_applied (t : Trigger) (tb : ConvertedTo) (db : DB) :
    ∃ extra, (t.TryExecute tb db).2.2.applied = db.applied ++ extra := by
  cases t with
  | crl c => exact ⟨[], (List.append_nil _).symm⟩
  | ccbp c => exact ccbp_tryExecute_applied c tb db

/-- The record of the store after the body of the trigger loop: the calls of the
evaluation, then the delete of the trigger when it is retired. -/
theorem checkTrigger_db (p : Portfolio) (now : Int) (tID : String) (t : Trigger) :
    (p.checkTrigger now tID t).db.applied =
      (t.TryExecute p.dataHolder.totalBalance p.db).2.2.applied ++
        (if p.retires t = true then [.PortfolioTriggers_Delete t.ID] else []) := by
  obtain ⟨r, t1, hID, h⟩ := tryExecute_shape t p.dataHolder.totalBalance p.db.failure
  obtain ⟨applied1, h1⟩ := h p.db.applied
  have h2 : t.TryExecute p.dataHolder.totalBalance p.db =
      (r, t1, { failure := p.db.failure, applied := applied1 }) := h1
  unfold Portfolio.checkTrigger Portfolio.retires
  rw [h2]
  cases r with
  | error e => simp
  | ok st =>
    cases hDone : st.Done
    · cases hOk : st.Ok <;> cases hpub : p.tePublisher <;> simp [hOk, hDone, hpub]
    · cases hdel : p.db.failure (.PortfolioTriggers_Delete t.ID) with
      | some e =>
        cases hOk : st.Ok <;> cases hpub : p.tePublisher <;>
          simp [hOk, hDone, hpub, hdel, hID, DB.exec]
      | none =>
        cases hOk : st.Ok <;> cases hpub : p.tePublisher <;>
          simp [hOk, hDone, hpub, hdel, hID, DB.exec]

/-- The record of the store through the trigger loop: nothing is dropped from it, and
the delete of every trigger the loop retires is in it. -/
theorem checkTriggers_applied (now : Int) (l : List (String × Trigger)) :
    ∀ p : Portfolio,
      (∀ q ∈ p.db.applied, q ∈ (Portfolio.checkTriggers now p l).db.applied) ∧
      (∀ e ∈ l, p.retires e.2 = true →
        Query.PortfolioTriggers_Delete e.2.ID ∈ (Portfolio.checkTriggers now p l).db.applied) := by
  induction l with
  | nil =>
    intro p
    exact ⟨fun q hq => hq, fun e he => absurd he (List.not_mem_nil e)⟩
  | cons a rest ih =>
    intro p
    obtain ⟨tID, t⟩ := a
    obtain ⟨-, hd, hf, -, -, -, -⟩ := checkTrigger_spec p now tID t
    obtain ⟨ih1, ih2⟩ := ih (p.checkTrigger now tID t)
    obtain ⟨extra, hextra⟩ := tryExecute_applied t p.dataHolder.totalBalance p.db
    have hdb := checkTrigger_db p now tID t
    rw [hextra] at hdb
    rw [Portfolio.checkTriggers]
    constructor
    · intro q hq
      apply ih1
      rw [hdb]
      exact List.mem_append_left _ (List.mem_append_left _ hq)
    · intro e he hret
      rcases List.mem_cons.mp he with rfl | he
      · apply ih1
        rw [hdb]
        have hret1 : p.retires t = true := hret
        rw [if_pos hret1]
        exact List.mem_append_right _ (List.mem_singleton_self _)
      · apply ih2 e he
        rw [retires_congr p (p.checkTrigger now tID t) e.2 hd hf]
        exact hret

/-- C26: `handleBalanceUpdate` returns an error exactly when `updateData` fails, and then
it returns that error with the triggers, the store and the publisher as they were (no
trigger evaluated, published or removed). Once `updateData` has succeeded it returns nil
whatever the store and the publisher answer, and every in-memory trigger is evaluated on
its own: the publisher is handed one event for each trigger whose `TryExecute` returned
`Ok = true` (whether or not the publisher fails on it, and whatever the evaluation of any
other trigger returned), every trigger whose `TryExecute` returned `Done = true` and whose
store delete is accepted has that delete carried out and is removed from memory, and (the
keys being distinct) every other trigger, one whose evaluation failed included, stays in
memory. -/
theorem handleBalanceUpdate_errors (p : Portfolio) (fuel : Nat) (now : Int)
    (balances : List (CoreCurrency × Balance)) :
    (∀ e p1, p.updateData fuel balances = some (.error e, p1) →
      p.handleBalanceUpdate fuel now balances = some (some e, p1) ∧
      p1.triggers = p.triggers ∧ p1.db = p.db ∧ p1.tePublisher = p.tePublisher) ∧
    (∀ e p2, p.handleBalanceUpdate fuel now balances = some (some e, p2) →
      p.updateData fuel balances = some (.error e, p2)) ∧
    (∀ d p1, p.updateData fuel balances = some (.ok d, p1) →
      ∃ p2, p.handleBalanceUpdate fuel now balances = some (none, p2) ∧
        p2.tePublisher = p.tePublisher.map (fun pub =>
          { pub with
            received :=
              pub.received ++ p.triggers.filterMap (fun e => p1.firedEvent now e.2) }) ∧
        (∀ t, (∃ ev, p1.firedEvent now t = some ev) ↔
          ∃ st, (t.TryExecute p1.dataHolder.totalBalance p1.db).1 = .ok st ∧ st.Ok = true) ∧
        (∀ tID t, (tID, t) ∈ p.triggers →
          (∃ st, (t.TryExecute p1.dataHolder.totalBalance p1.db).1 = .ok st ∧
            st.Done = true ∧ p1.db.failure (.PortfolioTriggers_Delete t.ID) = none) →
          Query.PortfolioTriggers_Delete t.ID ∈ p2.db.applied ∧
          tID ∉ p2.triggers.map Prod.fst) ∧
        ((p.triggers.map Prod.fst).Nodup → ∀ tID t, (tID, t) ∈ p.triggers →
          ¬ (∃ st, (t.TryExecute p1.dataHolder.totalBalance p1.db).1 = .ok st ∧
            st.Done = true ∧ p1.db.failure (.PortfolioTriggers_Delete t.ID) = none) →
          tID ∈ p2.triggers.map Prod.fst)) := by
  refine ⟨?_, ?_, ?_⟩
  · intro e p1 hupd
    have hframe := updateData_frame p p1 fuel balances _ hupd
    refine ⟨?_, by rw [hframe], by rw [hframe], by rw [hframe]⟩
    unfold Portfolio.handleBalanceUpdate
    rw [hupd]
  · intro e p2 h
    unfold Portfolio.handleBalanceUpdate at h
    cases hu : p.updateData fuel balances with
    | none => rw [hu] at h; simp at h
    | some res =>
      obtain ⟨r, p1⟩ := res
      rw [hu] at h
      cases r with
      | error e1 =>
        simp only [Option.some.injEq, Prod.mk.injEq] at h
        rw [h.1, h.2]
      | ok d => simp at h
  · intro d p1 hupd
    obtain ⟨p2, h, hp2, hpub, hkeys⟩ := handleBalanceUpdate_pass p p1 fuel now balances d hupd
    refine ⟨p2, h, hpub, ?_, ?_, ?_⟩
    · intro t
      unfold Portfolio.firedEvent
      rcases t.TryExecute p1.dataHolder.totalBalance p1.db with ⟨r, t1, db1⟩
      cases r with
      | error e => simp
      | ok st => cases hOk : st.Ok <;> simp [hOk]
    · intro tID t hmem hdone
      have hret : p1.retires t = true := (retires_iff p1 t).mpr hdone
      constructor
      · rw [hp2]
        exact (checkTriggers_applied now p.triggers p1).2 (tID, t) hmem hret
      · intro hin
        rw [hkeys] at hin
        have hany : (p.triggers.any (fun e => decide (tID = e.1) && p1.retires e.2)) = true :=
          List.any_eq_true.mpr ⟨(tID, t), hmem, by simp [hret]⟩
        have hcond := (List.mem_filter.mp hin).2
        rw [hany] at hcond
        simp at hcond
    · intro hnd tID t hmem hnot
      rw [hkeys, List.mem_filter]
      refine ⟨List.mem_map.mpr ⟨(tID, t), hmem, rfl⟩, ?_⟩
      cases hany : (p.triggers.any (fun e => decide (tID = e.1) && p1.retires e.2)) with
      | false => rfl
      | true =>
        obtain ⟨e, he, hcond⟩ := List.any_eq_true.mp hany
        simp only [Bool.and_eq_true, decide_eq_true_eq] at hcond
        have heq : e = (tID, t) := List.inj_on_of_nodup_map hnd he hmem hcond.1.symm
        rw [heq] at hcond
        exact absurd ((retires_iff p1 t).mp hcond.2) hnot

/-- The statement of C26 on `harshPortfolio` (balances `{USDT: 120}`): the evaluation of
the trailing trigger fails (the store rejects its anchor update) and the publisher fails
on every event, yet the update returns nil, the one-shot trigger is evaluated, its delete
is carried out and it is removed from memory, and the trailing trigger stays. -/
theorem handleBalanceUpdate_errors_witness :
    ∃ p2, harshPortfolio.handleBalanceUpdate 2 7 [("USDT", ⟨120⟩)] = some (none, p2) ∧
      Query.PortfolioTriggers_Delete ⟨"crl-1"⟩ ∈ p2.db.applied ∧
      "crl-1" ∉ p2.triggers.map Prod.fst ∧ "t-1" ∈ p2.triggers.map Prod.fst := by
  have hupd : ∃ d p1, harshPortfolio.updateData 2 [("USDT", ⟨120⟩)] = some (.ok d, p1) ∧
      TotalBalance p1.dataHolder.totalBalance .USDT = 120 ∧ p1.db = pickyStore :=
    ⟨_, _, rfl, by norm_num [TotalBalance, ConvertedTo.get, mapGet?, mapSet, emptyData], rfl⟩
  obtain ⟨d, p1, hupd, htb, hdb⟩ := hupd
  obtain ⟨p2, h, -, -, hdone, hkept⟩ :=
    (handleBalanceUpdate_errors harshPortfolio 2 7 [("USDT", ⟨120⟩)]).2.2 d p1 hupd
  have hl : harshPortfolio.triggers =
      [("t-1", .ccbp trailingDemo), ("crl-1", .crl limitDemo)] := rfl
  have hcrl := hdone "crl-1" (.crl limitDemo) (by rw [hl]; simp) (by
    refine ⟨_, rfl, ?_, by rw [hdb]; rfl⟩
    have htb1 : TotalBalance p1.dataHolder.totalBalance limitDemo.currency = 120 := htb
    simp only [CostReachedLimit.TryExecute, htb1]
    norm_num [limitDemo])
  have htrail := hkept (by rw [hl]; decide) "t-1" (.ccbp trailingDemo) (by rw [hl]; simp) (by
    rintro ⟨st, hst, hd, -⟩
    rw [ccbp_trailing_not_done trailingDemo _ _ st rfl hst] at hd
    exact absurd hd (by simp))
  exact ⟨p2, h, hcrl.1, hcrl.2, htrail⟩

/-! ## The request that adds triggers -/

/-- A request passes `Validate` only if each of its elements does. -/
theorem validate_mem (req : List requests.AddTriggersElem) (h : requests.Validate req = none) :
    ∀ t ∈ req, requests.validateElem t = none := by
  induction req with
  | nil => intro t ht; exact absurd ht (List.not_mem_nil t)
  | cons a rest ih =>
    intro t ht
    unfold requests.Validate at h
    cases ha : requests.validateElem a with
    | some e => rw [ha] at h; simp at h
    | none =>
      rw [ha] at h
      rcases List.mem_cons.mp ht with rfl | ht
      · exact ha
      · exact ih h t ht

/-- What `Validate` checks of one element: the type and the currency are set, and the
limit of a `CRL` element (the percent of a `CCBP` element) is present and not zero. -/
theorem validateElem_none (t : requests.AddTriggersElem) (h : requests.validateElem t = none) :
    (∃ cur, t.Currency = some cur) ∧
    ((t.Type_ = some .CRL ∧ ∃ l, t.Limit = some l ∧ l ≠ 0) ∨
      (t.Type_ = some .CCBP ∧ ∃ q, t.Percent = some q ∧ q ≠ 0)) := by
  obtain ⟨ty, cur, trailing, limit, percent⟩ := t
  unfold requests.validateElem at h
  dsimp only at h
  cases ty with
  | none => simp at h
  | some ty =>
    cases ty with
    | CRL =>
      cases limit with
      | none => simp at h
      | some l =>
        by_cases hl : l = 0
        · simp [hl] at h
        · cases cur with
          | none => simp [hl] at h
          | some c => exact ⟨⟨c, rfl⟩, Or.inl ⟨rfl, l, rfl, hl⟩⟩
    | CCBP =>
      cases percent with
      | none => simp at h
      | some q =>
        by_cases hq : q = 0
        · simp [hq] at h
        · cases cur with
          | none => simp [hq] at h
          | some c => exact ⟨⟨c, rfl⟩, Or.inr ⟨rfl, q, rfl, hq⟩⟩

/-- C25, as the code is: `Validate` accepts a request with a `CRL` element of limit -5 and
a `CCBP` element of percent -1, neither of which is positive, and the `CCBP` trigger built
from the second element on a portfolio that has priced no balance yet has
`startTotalCost = 0`. -/
theorem validate_accepts_nonpositive :
    requests.Validate [negativeLimitElem, negativePercentElem] = none ∧
    negativeLimitElem.Type_ = some .CRL ∧ negativeLimitElem.Limit = some (-5) ∧
    ¬ (0 : Decimal) < -5 ∧
    negativePercentElem.Type_ = some .CCBP ∧ negativePercentElem.Percent = some (-1) ∧
    ¬ (0 : Decimal) < -1 ∧
    buildTrigger demoPortfolio ⟨"n-1"⟩ 0 negativePercentElem =
      some (.ccbp (NewCostChangedByPercent demoPortfolio ⟨"n-1"⟩ 0 .USDT (-1) true)) ∧
    (NewCostChangedByPercent demoPortfolio ⟨"n-1"⟩ 0 .USDT (-1) true).startTotalCost = 0 ∧
    ¬ (0 : Decimal) < 0 := by
  refine ⟨?_, rfl, rfl, by norm_num, rfl, rfl, by norm_num, rfl, rfl, by norm_num⟩
  simp [requests.Validate, requests.validateElem, negativeLimitElem, negativePercentElem]

/-- C25, amended: every element of a request that `Validate` accepts has its type and
its currency set; when its type is `CRL` its limit is present and not zero, and the
controller builds from it the limit trigger with that limit; when its type is `CCBP` its
percent is present and not zero, and the controller builds from it, through
`NewCostChangedByPercent`, the percent trigger with that percent whose `startTotalCost` is
the hot total of the portfolio in the trigger's currency at that moment. -/
theorem validate_requires_nonzero (req : List requests.AddTriggersElem)
    (h : requests.Validate req = none) :
    ∀ t ∈ req,
      (t.Type_ = some .CRL ∨ t.Type_ = some .CCBP) ∧
      (t.Type_ = some .CRL → ∃ l cur, t.Limit = some l ∧ t.Currency = some cur ∧ l ≠ 0 ∧
        ∀ portf id now, buildTrigger portf id now t =
          some (.crl { id := id, limit := l, currency := cur, createdAt := now })) ∧
      (t.Type_ = some .CCBP → ∃ q cur, t.Percent = some q ∧ t.Currency = some cur ∧ q ≠ 0 ∧
        ∀ portf id now, ∃ c, buildTrigger portf id now t = some (.ccbp c) ∧
          c = NewCostChangedByPercent portf id now cur q t.TrailingAlert ∧
          c.percent = q ∧
          c.startTotalCost = TotalBalance portf.dataHolder.totalBalance cur) := by
  intro t ht
  obtain ⟨⟨cur, hcur⟩, hcase⟩ := validateElem_none t (validate_mem req h t ht)
  rcases hcase with ⟨hty, l, hl, hl0⟩ | ⟨hty, q, hq, hq0⟩
  · refine ⟨Or.inl hty, ?_, ?_⟩
    · intro _
      refine ⟨l, cur, hl, hcur, hl0, ?_⟩
      intro portf id now
      simp [buildTrigger, hty, hcur, hl, NewCostReachedLimit]
    · intro hty2
      rw [hty] at hty2
      simp at hty2
  · refine ⟨Or.inr hty, ?_, ?_⟩
    · intro hty2
      rw [hty] at hty2
      simp at hty2
    · intro _
      refine ⟨q, cur, hq, hcur, hq0, ?_⟩
      intro portf id now
      refine ⟨NewCostChangedByPercent portf id now cur q t.TrailingAlert, ?_, rfl, rfl, rfl⟩
      simp [buildTrigger, hty, hcur, hq]

/-- The statement of C25 as amended on a request with one percent element of threshold
10, on `pricedPortfolio` (hot total 120): the request is accepted and the trigger built
from it has percent 10 and `startTotalCost = 120`. -/
theorem validate_requires_nonzero_witness :
    requests.Validate [percentElem] = none ∧
    ∃ c, buildTrigger pricedPortfolio ⟨"n-1"⟩ 0 percentElem = some (.ccbp c) ∧
      c.percent = 10 ∧ c.startTotalCost = 120 := by
  have hv : requests.Validate [percentElem] = none := by
    simp [requests.Validate, requests.validateElem, percentElem]
  obtain ⟨-, -, hccbp⟩ := validate_requires_nonzero [percentElem] hv percentElem
    (List.mem_singleton_self _)
  obtain ⟨q, cur, hq, hcur, -, hbuild⟩ := hccbp rfl
  have hq1 : q = 10 := by
    have h1 : some (10 : Decimal) = some q := hq
    injection h1 with h1
    exact h1.symm
  have hcur1 : cur = .USDT := by
    have h1 : some Currency.USDT = some cur := hcur
    injection h1 with h1
    exact h1.symm
  subst hq1
  subst hcur1
  obtain ⟨c, hc, -, hp, hs⟩ := hbuild pricedPortfolio ⟨"n-1"⟩ 0
  exact ⟨hv, c, hc, hp, hs⟩

/-! ## The life of a portfolio: start, Close and the worker -/

/-- `start` on an open portfolio returns nil and changes nothing, for any bound on the
calls of `price` (none is made). -/
theorem start_open (p : Portfolio) (fuel : Nat) (now : Int) (hc : p.closed = 0) :
    p.start fuel now = some (none, p) := by
  unfold Portfolio.start
  rw [if_pos hc]

/-- One step keeps the close channel within its capacity and empty while the portfolio is
open, provided a `start` is not called on a close channel that holds a value. -/
theorem step_closedCh (p p1 : Portfolio) (fuel : Nat) (now : Int) (op : LifeOp)
    (hopen : p.closed = 0 → p.closedCh = []) (hcap : p.closedCh.length ≤ 1)
    (hguard : op.isStart = true → p.closedCh = [])
    (hstep : p.step fuel now op = some p1) :
    (p1.closed = 0 → p1.closedCh = []) ∧ p1.closedCh.length ≤ 1 := by
  cases op with
  | start =>
    have hempty : p.closedCh = [] := hguard rfl
    unfold Portfolio.step at hstep
    cases hs : p.start fuel now with
    | none => rw [hs] at hstep; simp at hstep
    | some r =>
      obtain ⟨err, p2⟩ := r
      rw [hs] at hstep
      simp only [Option.map_some', Option.some.injEq] at hstep
      subst hstep
      have hch : p2.closedCh = [] := by
        by_cases hc : p.closed = 0
        · rw [start_open p fuel now hc] at hs
          simp only [Option.some.injEq, Prod.mk.injEq] at hs
          rw [← hs.2]
          exact hempty
        · obtain ⟨-, -, h3, -, -⟩ := start_cases p p2 fuel now err hc hs
          rw [h3]
          exact hempty
      exact ⟨fun _ => hch, by rw [hch]; exact Nat.zero_le _⟩
  | Close destroy =>
    have hcl : p.Close destroy = some p1 := hstep
    have h1 := close_closed p p1 destroy hcl
    refine ⟨fun h => by rw [h1] at h; simp at h, ?_⟩
    by_cases hc : p.closed = 0
    · rw [close_of_open p destroy hc (hopen hc)] at hcl
      simp only [Option.some.injEq] at hcl
      rw [← hcl]
      exact Nat.le_refl 1
    · unfold Portfolio.Close at hcl
      rw [if_neg hc] at hcl
      simp only [Option.some.injEq] at hcl
      rw [← hcl]
      exact hcap
  | worker r =>
    unfold Portfolio.step at hstep
    cases r with
    | closeSignal =>
      unfold Portfolio.workerTurn at hstep
      cases hw : p.worker with
      | false => rw [hw] at hstep; simp at hstep
      | true =>
        rw [hw] at hstep
        simp only [if_true] at hstep
        cases hch : p.closedCh with
        | nil => rw [hch] at hstep; simp at hstep
        | cons d rest =>
          rw [hch] at hstep
          simp only [Option.some.injEq] at hstep
          subst hstep
          have hrest : rest = [] := by
            rw [hch] at hcap
            cases rest with
            | nil => rfl
            | cons a as => simp at hcap
          cases d <;> exact ⟨fun _ => hrest, by rw [hrest]; exact Nat.zero_le _⟩
    | balances bals =>
      unfold Portfolio.workerTurn at hstep
      cases hw : p.worker with
      | false => rw [hw] at hstep; simp at hstep
      | true =>
        rw [hw] at hstep
        simp only [if_true] at hstep
        cases hh : p.handleBalanceUpdate fuel now bals with
        | none => rw [hh] at hstep; simp at hstep
        | some res =>
          obtain ⟨err, p2⟩ := res
          rw [hh] at hstep
          simp only [Option.some.injEq] at hstep
          subst hstep
          obtain ⟨h1, -⟩ := handleBalanceUpdate_life p p2 fuel now bals err hh
          have h2 := handleBalanceUpdate_closed p p2 fuel now bals err hh
          rw [h1, h2]
          exact ⟨hopen, hcap⟩
    | channelClosed =>
      unfold Portfolio.workerTurn at hstep
      cases hw : p.worker with
      | false => rw [hw] at hstep; simp at hstep
      | true =>
        rw [hw] at hstep
        simp only [if_true, Option.some.injEq] at hstep
        subst hstep
        exact ⟨hopen, hcap⟩

/-- A sequence of steps along which no `start` is called on a close channel that holds a
value keeps the close channel within its capacity and empty while the portfolio is open. -/
theorem run_closedCh (fuel : Nat) (now : Int) (ops : List LifeOp) :
    ∀ p p1 : Portfolio, (p.closed = 0 → p.closedCh = []) → p.closedCh.length ≤ 1 →
      Portfolio.startsOnEmpty fuel now p ops = true →
      Portfolio.run fuel now p ops = some p1 →
      (p1.closed = 0 → p1.closedCh = []) ∧ p1.closedCh.length ≤ 1 := by
  induction ops with
  | nil =>
    intro p p1 hopen hcap _ hrun
    simp only [Portfolio.run, Option.some.injEq] at hrun
    subst hrun
    exact ⟨hopen, hcap⟩
  | cons op rest ih =>
    intro p p1 hopen hcap hguard hrun
    rw [Portfolio.run] at hrun
    rw [Portfolio.startsOnEmpty, Bool.and_eq_true] at hguard
    cases hstep : p.step fuel now op with
    | none => rw [hstep] at hrun; simp at hrun
    | some p2 =>
      rw [hstep] at hrun
      obtain ⟨hg1, hg2⟩ := hguard
      rw [hstep] at hg2
      have hg : op.isStart = true → p.closedCh = [] := by
        intro hs
        rw [hs] at hg1
        simpa using hg1
      obtain ⟨h1, h2⟩ := step_closedCh p p2 fuel now op hopen hcap hg hstep
      exact ih p2 p1 h1 h2 hg2 hrun

/-- After a first `start`, a sequence of steps without another `start` never calls
`start` on a close channel that holds a value. -/
theorem startsOnEmpty_of_no_start (fuel : Nat) (now : Int) (ops : List LifeOp)
    (h : ∀ op ∈ ops, op.isStart = false) :
    ∀ p : Portfolio, Portfolio.startsOnEmpty fuel now p ops = true := by
  induction ops with
  | nil => intro p; rfl
  | cons op rest ih =>
    intro p
    have hrest := ih (fun o ho => h o (List.mem_cons_of_mem _ ho))
    have hop := h op (List.mem_cons_self _ _)
    rw [Portfolio.startsOnEmpty, Bool.and_eq_true]
    constructor
    · rw [hop]
      rfl
    · cases hstep : p.step fuel now op with
      | none => rfl
      | some p2 => exact hrest p2

/-- C21, as the code is: on `stuckPortfolio`, whose `start` fails after clearing the closed
flag, the calls `start`, `Close(false)`, `start` reach a state in which the portfolio is
open, so the next `Close` sends, while the close channel still holds the value of the
first `Close` and no worker is there to receive it: that send blocks. -/
theorem close_blocks_after_restart :
    ∃ p, Portfolio.run 1 7 stuckPortfolio [.start, .Close false, .start] = some p ∧
      p.closeSends = true ∧ p.closedCh = [false] ∧ p.sendBlocks = true ∧ p.worker = false ∧
      p.Close true = none :=
  ⟨_, rfl, rfl, rfl, rfl, rfl, rfl⟩

/-- C21, amended: from a portfolio whose close channel is empty (a new portfolio), along
any sequence of `start` calls, failing ones included, `Close` calls and turns of the
worker in which no `start` is called while a close signal is still waiting in the close
channel, the close channel holds at most one value, and whenever `Close` sends (the
portfolio is open) the channel is empty, so the send does not block and every call of
`Close` returns. A portfolio that is
started once and never again, as the manager starts it, meets the condition. And `start`
on an open portfolio returns nil and changes nothing, whatever the bound on `price`: no
balance is pulled and no worker is spawned. -/
theorem close_never_blocks (p0 p : Portfolio) (fuel : Nat) (now : Int) (ops : List LifeOp)
    (hinit : p0.closedCh = [])
    (hguard : Portfolio.startsOnEmpty fuel now p0 ops = true)
    (hrun : Portfolio.run fuel now p0 ops = some p) :
    (p.closeSends = true → p.sendBlocks = false) ∧ p.closedCh.length ≤ 1 ∧
    (∀ rest : List LifeOp, (∀ op ∈ rest, op.isStart = false) →
      Portfolio.startsOnEmpty fuel now p0 (.start :: rest) = true) ∧
    (∀ (q : Portfolio) fuel1 now1, q.closed = 0 → q.start fuel1 now1 = some (none, q)) ∧
    (∀ destroy, ∃ p1, p.Close destroy = some p1) := by
  obtain ⟨h1, h2⟩ := run_closedCh fuel now ops p0 p (fun _ => hinit)
    (by rw [hinit]; exact Nat.zero_le _) hguard hrun
  refine ⟨?_, h2, ?_, fun q fuel1 now1 hc => start_open q fuel1 now1 hc, ?_⟩
  rotate_right
  · intro destroy
    by_cases hc : p.closed = 0
    · exact ⟨_, close_of_open p destroy hc (h1 hc)⟩
    · exact ⟨{ p with closed := 1 }, by unfold Portfolio.Close; rw [if_neg hc]⟩
  · intro hs
    have hc : p.closed = 0 := by simpa [Portfolio.closeSends] using hs
    simp [Portfolio.sendBlocks, h1 hc]
  · intro rest hrest
    rw [Portfolio.startsOnEmpty, Bool.and_eq_true]
    constructor
    · simp [hinit]
    · cases hstep : p0.step fuel now .start with
      | none => rfl
      | some p1 => exact startsOnEmpty_of_no_start fuel now rest hrest p1

/-- The statement of C21 as amended on `stuckPortfolio`: after a `start` that fails the
portfolio is open and its close channel is empty, so the `Close` that follows sends
without blocking. -/
theorem close_never_blocks_witness :
    ∃ p, Portfolio.run 1 7 stuckPortfolio [.start] = some p ∧
      p.closeSends = true ∧ p.sendBlocks = false ∧ p.closedCh.length ≤ 1 := by
  have hrun : Portfolio.run 1 7 stuckPortfolio [.start] =
      some { stuckPortfolio with closed := 0 } := rfl
  obtain ⟨h1, h2, -, -⟩ :=
    close_never_blocks stuckPortfolio _ 1 7 [.start] rfl rfl hrun
  exact ⟨_, hrun, rfl, h1 rfl, h2⟩

/-- C22: `demoPortfolio` is started, and then the adapter closes the balance-update
channel. The worker terminates and releases the adapter account, and neither the persisted
triggers nor the snapshot are deleted; but the closed flag is left at 0, so `IsClosed`
reports false, whereas after `Close(false)` and the worker's receipt of the signal it
reports true: the two final states differ exactly in the closed flag. -/
theorem channel_closed_leaves_open :
    ∃ p1 p2 p3, demoPortfolio.start 1 7 = some (none, p1) ∧
      p1.worker = true ∧
      p1.workerTurn 1 7 .channelClosed = some p2 ∧
      (p1.Close false).bind (fun q => q.workerTurn 1 7 .closeSignal) = some p3 ∧
      p2.worker = false ∧ p2.acc.released = true ∧
      p2.db.applied = p1.db.applied ∧ p2.dataHolder.rdb.values = p1.dataHolder.rdb.values ∧
      p2.IsClosed = false ∧
      p3.worker = false ∧ p3.acc.released = true ∧
      p3.db.applied = p1.db.applied ∧ p3.dataHolder.rdb.values = p1.dataHolder.rdb.values ∧
      p3.IsClosed = true ∧
      p3 = { p2 with closed := 1 } :=
  ⟨_, _, _, rfl, rfl, rfl, rfl, rfl, rfl, rfl, rfl, rfl, rfl, rfl, rfl, rfl, rfl, rfl⟩

/-! ## Close and IsClosed in the life of a portfolio -/

/-- The close channel is clear exactly when an open portfolio has nothing waiting in it. -/
theorem channelClear_iff (p : Portfolio) :
    p.channelClear = true ↔ (p.closed = 0 → p.closedCh = []) := by
  unfold Portfolio.channelClear
  cases hch : p.closedCh with
  | nil => simp
  | cons a rest => simp

/-- On a portfolio whose close channel is clear `Close` returns: the flag is set, and the
signal is the one value in the channel when the portfolio was open, while nothing is sent
when it was closed. -/
theorem close_of_clear (p : Portfolio) (destroy : Bool) (h : p.channelClear = true) :
    ∃ q, p.Close destroy = some q ∧ q.closed = 1 ∧
      (p.closed = 0 → q = { p with closed := 1, closedCh := [destroy] }) ∧
      (p.closed ≠ 0 → q = { p with closed := 1 }) := by
  by_cases hc : p.closed = 0
  · exact ⟨_, close_of_open p destroy hc ((channelClear_iff p).mp h hc), rfl, fun _ => rfl,
      fun hne => absurd hc hne⟩
  · refine ⟨{ p with closed := 1 }, ?_, rfl, fun h0 => absurd h0 hc, fun _ => rfl⟩
    unfold Portfolio.Close
    rw [if_neg hc]

/-- Whatever `start` returns on a portfolio whose close channel is empty, the close channel
is empty afterwards. -/
theorem start_closedCh (p p1 : Portfolio) (fuel : Nat) (now : Int) (err : Option Error)
    (hch : p.closedCh = []) (h : p.start fuel now = some (err, p1)) : p1.closedCh = [] := by
  by_cases hc : p.closed = 0
  · rw [start_open p fuel now hc] at h
    simp only [Option.some.injEq, Prod.mk.injEq] at h
    rw [← h.2]
    exact hch
  · obtain ⟨-, -, h3, -, -⟩ := start_cases p p1 fuel now err hc h
    rw [h3]
    exact hch

/-- C20: a newly constructed portfolio reports `IsClosed = true` and its close channel is
empty; a `start` that returns nil makes `IsClosed` false; and whenever `Close` returns,
`IsClosed` is true. On the portfolio a new portfolio becomes by a successful `start`, any
number of consecutive `Close` calls return and leave what the first call alone leaves:
the flag set and exactly one signal in the close channel, the destroy flag of the first
call (the same holds on any open portfolio whose close channel is empty). On a portfolio
that is already closed, a never-started one included, any number of `Close` calls return,
change nothing and send nothing. -/
theorem close_idempotent :
    (∀ id name db rdb gw acc pub,
      (NewPortfolio id name db rdb gw acc pub).IsClosed = true ∧
      (NewPortfolio id name db rdb gw acc pub).closedCh = []) ∧
    (∀ (p p1 : Portfolio) fuel now, p.start fuel now = some (none, p1) → p1.IsClosed = false) ∧
    (∀ (p p1 : Portfolio) destroy, p.Close destroy = some p1 → p1.IsClosed = true) ∧
    (∀ id name db rdb gw acc pub fuel now p1,
      (NewPortfolio id name db rdb gw acc pub).start fuel now = some (none, p1) →
      ∀ destroy rest,
        p1.Close destroy = some { p1 with closed := 1, closedCh := [destroy] } ∧
        Portfolio.closeAll p1 (destroy :: rest) =
          some { p1 with closed := 1, closedCh := [destroy] }) ∧
    (∀ (p : Portfolio) destroy rest, p.closed = 0 → p.closedCh = [] →
      p.Close destroy = some { p with closed := 1, closedCh := [destroy] } ∧
      Portfolio.closeAll p (destroy :: rest) =
        some { p with closed := 1, closedCh := [destroy] }) ∧
    (∀ (p : Portfolio) flags, p.IsClosed = true →
      Portfolio.closeAll p flags = some p) := by
  have hopen : ∀ (p : Portfolio) destroy rest, p.closed = 0 → p.closedCh = [] →
      p.Close destroy = some { p with closed := 1, closedCh := [destroy] } ∧
      Portfolio.closeAll p (destroy :: rest) =
        some { p with closed := 1, closedCh := [destroy] } := by
    intro p destroy rest hc hch
    have h1 := close_of_open p destroy hc hch
    refine ⟨h1, ?_⟩
    rw [Portfolio.closeAll, h1]
    exact closeAll_of_closed rest _ rfl
  refine ⟨fun _ _ _ _ _ _ _ => ⟨rfl, rfl⟩, ?_, ?_, ?_, hopen, ?_⟩
  · intro p p1 fuel now h
    simp [Portfolio.IsClosed, start_closed p p1 fuel now none h]
  · intro p p1 destroy h
    simp [Portfolio.IsClosed, close_closed p p1 destroy h]
  · intro id name db rdb gw acc pub fuel now p1 h destroy rest
    exact hopen p1 destroy rest (start_closed _ p1 fuel now none h)
      (start_closedCh _ p1 fuel now none rfl h)
  · intro p flags hc
    have h1 : p.closed = 1 := by simpa [Portfolio.IsClosed] using hc
    exact closeAll_of_closed flags p h1

/-- The statement of C20 on `demoPortfolio`: it is closed when new; after `start` returns
nil it is open; three `Close` calls with flags true, false, false then return and leave
it closed with the single signal `true` in the close channel; and three more `Close`
calls on the never-started `demoPortfolio` change nothing. -/
theorem close_idempotent_witness :
    demoPortfolio.IsClosed = true ∧
    (∃ p1 p2, demoPortfolio.start 1 7 = some (none, p1) ∧ p1.IsClosed = false ∧
      Portfolio.closeAll p1 [true, false, false] = some p2 ∧
      p2.IsClosed = true ∧ p2.closedCh = [true]) ∧
    Portfolio.closeAll demoPortfolio [true, false, false] = some demoPortfolio := by
  have hs : ∃ p1, demoPortfolio.start 1 7 = some (none, p1) := ⟨_, rfl⟩
  obtain ⟨p1, hstart⟩ := hs
  have hopen := close_idempotent.2.1 demoPortfolio p1 1 7 hstart
  have hall := (close_idempotent.2.2.2.1 1 "acc" emptyStore emptyCache bareGateway
    (accountWith []) none 1 7 p1 hstart true [false, false]).2
  exact ⟨(close_idempotent.1 1 "acc" emptyStore emptyCache bareGateway (accountWith []) none).1,
    ⟨p1, _, hstart, hopen, hall, rfl, rfl⟩,
    close_idempotent.2.2.2.2.2 demoPortfolio [true, false, false] rfl⟩

/-! ## The close channels of the registry -/

/-- A closed portfolio has its close channel clear. -/
theorem channelClear_of_closed (p : Portfolio) (h : p.closed = 1) : p.channelClear = true := by
  simp [Portfolio.channelClear, h]

/-- A portfolio whose close channel is empty has it clear. -/
theorem channelClear_of_empty (p : Portfolio) (h : p.closedCh = []) :
    p.channelClear = true := by
  simp [Portfolio.channelClear, h]

/-- Writing a portfolio whose close channel is clear keeps the close channels clear. -/
theorem all_clear_mapSet (m : List (String × Portfolio)) (key : String) (val : Portfolio)
    (hm : m.all (fun e => e.2.channelClear) = true) (hv : val.channelClear = true) :
    (mapSet m key val).all (fun e => e.2.channelClear) = true := by
  induction m with
  | nil => simp [mapSet, hv]
  | cons e rest ih =>
    obtain ⟨k, v⟩ := e
    simp only [List.all_cons, Bool.and_eq_true] at hm
    unfold mapSet
    by_cases hk : k = key
    · rw [if_pos hk]
      simp only [List.all_cons, Bool.and_eq_true]
      exact ⟨hv, hm.2⟩
    · rw [if_neg hk]
      simp only [List.all_cons, Bool.and_eq_true]
      exact ⟨hm.1, ih hm.2⟩

/-- Deleting a key keeps the close channels clear. -/
theorem all_clear_mapDelete (m : List (String × Portfolio)) (key : String)
    (hm : m.all (fun e => e.2.channelClear) = true) :
    (mapDelete m key).all (fun e => e.2.channelClear) = true := by
  rw [List.all_eq_true] at hm ⊢
  intro e he
  unfold mapDelete at he
  exact hm e (List.mem_filter.mp he).1

/-- A registered portfolio of a registry whose close channels are clear has its close
channel clear. -/
theorem channelsClear_get (pm : Manager) (name : String) (portf : Portfolio)
    (hclear : pm.channelsClear = true) (hreg : mapGet? pm.portfolios name = some portf) :
    portf.channelClear = true := by
  unfold Manager.channelsClear at hclear
  rw [List.all_eq_true] at hclear
  exact hclear (name, portf) (mem_of_mapGet? _ _ _ hreg)

/-- `AddPortfolio` keeps the close channels of the registry clear. -/
theorem addPortfolio_clear (pm pm1 : Manager) (fuel : Nat) (now : Int) (name : String)
    (err : Option Error) (hclear : pm.channelsClear = true)
    (h : pm.AddPortfolio fuel now name = some (err, pm1)) : pm1.channelsClear = true := by
  have hsame : ∀ x, pm.AddPortfolio fuel now name = some (x, pm) → pm1.channelsClear = true := by
    intro x hx
    rw [hx] at h
    simp only [Option.some.injEq, Prod.mk.injEq] at h
    rw [← h.2]
    exact hclear
  cases hreg : mapGet? pm.portfolios name with
  | some portf =>
    exact hsame (some (.wrap ErrExist name)) (by simp [Manager.AddPortfolio, hreg])
  | none =>
    rcases addPortfolio_cases pm fuel now name hreg with
      ⟨e, -, -, h0⟩ | ⟨e, -, -, h0⟩ | ⟨a, -, -, h0⟩ | ⟨a, gw, e, -, -, -, -, h0⟩ |
      ⟨a, gw, e, -, -, -, -, -, h0⟩ | ⟨a, gw, e, -, -, -, -, -, h0⟩ | ⟨a, gw, acc, -, -, -, h0⟩
    · exact hsame _ h0
    · exact hsame _ h0
    · exact hsame _ h0
    · exact hsame _ h0
    · exact hsame _ h0
    · exact hsame _ h0
    · rw [h0] at h
      cases hst : (NewPortfolio a.ID a.Name pm.db pm.rdb gw acc pm.eventPublisher).start
          fuel now with
      | none => rw [hst] at h; simp at h
      | some r =>
        obtain ⟨e, portf⟩ := r
        rw [hst] at h
        simp only [Option.some.injEq, Prod.mk.injEq] at h
        rw [← h.2]
        have hp : portf.channelClear = true :=
          channelClear_of_empty portf (start_closedCh _ portf fuel now e rfl hst)
        by_cases hs : (mapGet? pm.portfolios a.Name).isSome = true
        · rw [if_pos hs]
          exact hclear
        · rw [if_neg hs]
          exact all_clear_mapSet pm.portfolios a.Name portf hclear hp

/-- `load` keeps the close channels of the registry clear. -/
theorem load_clear (pm pm1 : Manager) (fuel : Nat) (now : Int)
    (a : repo.Accounts_SelectWithPortfolioTriggersRow) (err : Option Error)
    (hclear : pm.channelsClear = true) (h : pm.load fuel now a = some (err, pm1)) :
    pm1.channelsClear = true := by
  unfold Manager.load at h
  by_cases hs : (mapGet? pm.portfolios a.Name).isSome = true
  · rw [if_pos hs] at h
    simp only [Option.some.injEq, Prod.mk.injEq] at h
    rw [← h.2]
    exact hclear
  · rw [if_neg hs] at h
    cases hg : pm.getGatewayAndAccount a.ExchangeName a.Name a.Key a.Secret a.Passphrase with
    | error e =>
      rw [hg] at h
      dsimp only at h
      cases hn : e.Has ErrGatewayNotFound with
      | true =>
        rw [hn] at h
        simp only [if_true, Option.some.injEq, Prod.mk.injEq] at h
        rw [← h.2]
        exact hclear
      | false =>
        rw [hn] at h
        simp only [Bool.false_eq_true, if_false, Option.some.injEq, Prod.mk.injEq] at h
        rw [← h.2]
        exact hclear
    | ok res =>
      obtain ⟨gw, acc⟩ := res
      rw [hg] at h
      dsimp only at h
      cases hr : restoreTriggers a.Triggers with
      | error e =>
        rw [hr] at h
        simp only [Option.some.injEq, Prod.mk.injEq] at h
        rw [← h.2]
        exact hclear
      | ok triggers =>
        rw [hr] at h
        dsimp only at h
        cases hst : ((NewPortfolio a.ID a.Name pm.db pm.rdb gw acc
            pm.eventPublisher).addTriggers triggers).start fuel now with
        | none => rw [hst] at h; simp at h
        | some r =>
          obtain ⟨e, portf⟩ := r
          rw [hst] at h
          simp only [Option.some.injEq, Prod.mk.injEq] at h
          rw [← h.2, if_neg hs]
          exact all_clear_mapSet pm.portfolios a.Name portf hclear
            (channelClear_of_empty portf (start_closedCh _ portf fuel now e rfl hst))

/-- The loop of `Start` keeps the close channels of the registry clear. -/
theorem loadAll_clear (fuel : Nat) (now : Int)
    (accs : List repo.Accounts_SelectWithPortfolioTriggersRow) :
    ∀ pm pm1 : Manager, pm.channelsClear = true →
      Manager.loadAll fuel now pm accs = some pm1 → pm1.channelsClear = true := by
  induction accs with
  | nil =>
    intro pm pm1 hclear h
    simp only [Manager.loadAll, Option.some.injEq] at h
    rw [← h]
    exact hclear
  | cons a rest ih =>
    intro pm pm1 hclear h
    rw [Manager.loadAll] at h
    cases hl : pm.load fuel now a with
    | none => rw [hl] at h; simp at h
    | some r =>
      obtain ⟨e, pm2⟩ := r
      rw [hl] at h
      exact ih pm2 pm1 (load_clear pm pm2 fuel now a e hclear hl) h

/-- `Start` keeps the close channels of the registry clear. -/
theorem start_clear (pm pm1 : Manager) (fuel : Nat) (now : Int) (err : Option Error)
    (hclear : pm.channelsClear = true) (h : pm.Start fuel now = some (err, pm1)) :
    pm1.channelsClear = true := by
  unfold Manager.Start at h
  cases hq : pm.queries.Accounts_SelectWithPortfolioTriggers with
  | error e =>
    rw [hq] at h
    simp only [Option.some.injEq, Prod.mk.injEq] at h
    rw [← h.2]
    exact hclear
  | ok accs =>
    rw [hq] at h
    dsimp only at h
    cases hl : Manager.loadAll fuel now pm accs with
    | none => rw [hl] at h; simp at h
    | some pm2 =>
      rw [hl] at h
      simp only [Option.some.injEq, Prod.mk.injEq] at h
      rw [← h.2]
      exact loadAll_clear fuel now accs pm pm2 hclear hl

/-- The loop of `Manager.Close` leaves every portfolio with its close channel clear. -/
theorem closeEach_clear (l : List (String × Portfolio)) :
    ∀ l1, closeEach l = some l1 → l1.all (fun e => e.2.channelClear) = true := by
  induction l with
  | nil =>
    intro l1 h
    simp only [closeEach, Option.some.injEq] at h
    rw [← h]
    rfl
  | cons e rest ih =>
    intro l1 h
    obtain ⟨name, portf⟩ := e
    unfold closeEach at h
    cases hc : portf.Close false with
    | none => rw [hc] at h; simp at h
    | some portf1 =>
      rw [hc] at h
      cases hr : closeEach rest with
      | none => rw [hr] at h; simp at h
      | some rest1 =>
        rw [hr] at h
        simp only [Option.map_some', Option.some.injEq] at h
        rw [← h]
        simp only [List.all_cons, Bool.and_eq_true]
        exact ⟨channelClear_of_closed portf1 (close_closed portf portf1 false hc), ih rest1 hr⟩

/-- A turn of the worker keeps the close channel of its portfolio clear. -/
theorem workerTurn_clear (p q : Portfolio) (fuel : Nat) (now : Int) (r : Received)
    (hclear : p.channelClear = true) (h : p.workerTurn fuel now r = some q) :
    q.channelClear = true := by
  have hopen := (channelClear_iff p).mp hclear
  have hstep : p.step fuel now (.worker r) = some q := h
  by_cases hcap : p.closedCh.length ≤ 1
  · exact (channelClear_iff q).mpr
      (step_closedCh p q fuel now (.worker r) hopen hcap (fun hs => by simp [LifeOp.isStart] at hs)
        hstep).1
  · have hne : p.closed ≠ 0 := by
      intro hc
      rw [hopen hc] at hcap
      simp at hcap
    have hq : q.closed = p.closed := by
      cases r with
      | closeSignal =>
        unfold Portfolio.workerTurn at h
        cases hw : p.worker with
        | false => rw [hw] at h; simp at h
        | true =>
          rw [hw] at h
          simp only [if_true] at h
          cases hch : p.closedCh with
          | nil => rw [hch] at h; simp at h
          | cons d rest =>
            rw [hch] at h
            simp only [Option.some.injEq] at h
            rw [← h]
            cases d <;> rfl
      | balances bals =>
        unfold Portfolio.workerTurn at h
        cases hw : p.worker with
        | false => rw [hw] at h; simp at h
        | true =>
          rw [hw] at h
          simp only [if_true] at h
          cases hh : p.handleBalanceUpdate fuel now bals with
          | none => rw [hh] at h; simp at h
          | some res =>
            obtain ⟨err, p2⟩ := res
            rw [hh] at h
            simp only [Option.some.injEq] at h
            rw [← h]
            exact handleBalanceUpdate_closed p p2 fuel now bals err hh
      | channelClosed =>
        unfold Portfolio.workerTurn at h
        cases hw : p.worker with
        | false => rw [hw] at h; simp at h
        | true =>
          rw [hw] at h
          simp only [if_true, Option.some.injEq] at h
          rw [← h]
    apply (channelClear_iff q).mpr
    intro hc
    rw [hq] at hc
    exact absurd hc hne

/-- `DeletePortfolio` keeps the close channels of the registry clear. -/
theorem deletePortfolio_clear (pm : Manager) (name : String)
    (r : Option Error × Manager × Option Portfolio) (hclear : pm.channelsClear = true)
    (h : pm.DeletePortfolio name = some r) : r.2.1.channelsClear = true := by
  rcases deletePortfolio_cases pm name with ⟨-, h0⟩ | ⟨portf, -, -, h0⟩ | ⟨portf, q, -, -, h0⟩
  · rw [h0] at h
    simp only [Option.some.injEq] at h
    rw [← h]
    exact hclear
  · rw [h0] at h
    simp at h
  · rw [h0] at h
    simp only [Option.some.injEq] at h
    rw [← h]
    exact all_clear_mapDelete pm.portfolios name hclear

/-- C17: in a registry where every open portfolio has an empty close channel (so it is for
`NewManager`, and `AddPortfolio`, `Start`, `DeletePortfolio`, `Manager.Close` and the turns
of a worker keep it so), `DeletePortfolio(name)` for a registered name returns nil, closes
that portfolio with `destroy = true` (the call of `Close` returns, `IsClosed` is then true,
and if the portfolio was open the signal `true` is the one value on its close channel,
while a closed portfolio is left as it was) and removes exactly that name from the
registry; for an unregistered name it returns the domain error portfolio-not-found and
leaves the manager as it was. -/
theorem deletePortfolio_spec (pm : Manager) (name : String)
    (hclear : pm.channelsClear = true) :
    (∀ portf, mapGet? pm.portfolios name = some portf →
      ∃ closedPortf, portf.Close true = some closedPortf ∧
        pm.DeletePortfolio name =
          some (none, { pm with portfolios := mapDelete pm.portfolios name },
            some closedPortf) ∧
        closedPortf.IsClosed = true ∧
        (portf.closed = 0 → portf.closedCh = [] ∧
          closedPortf = { portf with closed := 1, closedCh := [true] }) ∧
        (portf.closed ≠ 0 → closedPortf = { portf with closed := 1 }) ∧
        mapGet? (mapDelete pm.portfolios name) name = none ∧
        ∀ k, k ≠ name → mapGet? (mapDelete pm.portfolios name) k = mapGet? pm.portfolios k) ∧
    (mapGet? pm.portfolios name = none →
      pm.DeletePortfolio name = some (some (.wrap ErrNotFound name), pm, none) ∧
      (Error.wrap ErrNotFound name).Has ErrNotFound = true ∧
      (Error.wrap ErrNotFound name).AsDomain = true) ∧
    (∀ db queries rdb gwsMngr eventPublisher,
      (NewManager db queries rdb gwsMngr eventPublisher).channelsClear = true) ∧
    (∀ fuel now n err pm1, pm.AddPortfolio fuel now n = some (err, pm1) →
      pm1.channelsClear = true) ∧
    (∀ fuel now err pm1, pm.Start fuel now = some (err, pm1) → pm1.channelsClear = true) ∧
    (∀ n r, pm.DeletePortfolio n = some r → r.2.1.channelsClear = true) ∧
    (∀ pm1, pm.Close = some pm1 → pm1.channelsClear = true) ∧
    (∀ portf q fuel now received, mapGet? pm.portfolios name = some portf →
      portf.workerTurn fuel now received = some q → q.channelClear = true) := by
  refine ⟨?_, ?_, ?_, ?_, ?_, ?_, ?_, ?_⟩
  · intro portf hreg
    have hp := channelsClear_get pm name portf hclear hreg
    obtain ⟨q, hq, hq1, hopen, hshut⟩ := close_of_clear portf true hp
    refine ⟨q, hq, ?_, ?_, ?_, hshut, ?_, ?_⟩
    · simp [Manager.DeletePortfolio, hreg, hq]
    · simp [Portfolio.IsClosed, hq1]
    · intro hc
      exact ⟨(channelClear_iff portf).mp hp hc, hopen hc⟩
    · rw [mapGet?_mapDelete, if_pos rfl]
    · intro k hk
      rw [mapGet?_mapDelete, if_neg hk]
  · intro hreg
    exact ⟨by simp [Manager.DeletePortfolio, hreg], by simp [Error.Has, ErrNotFound], rfl⟩
  · intro db queries rdb gwsMngr eventPublisher
    rfl
  · intro fuel now n err pm1 h
    exact addPortfolio_clear pm pm1 fuel now n err hclear h
  · intro fuel now err pm1 h
    exact start_clear pm pm1 fuel now err hclear h
  · intro n r h
    exact deletePortfolio_clear pm n r hclear h
  · intro pm1 h
    unfold Manager.Close at h
    cases hc : closeEach pm.portfolios with
    | none => rw [hc] at h; simp at h
    | some l =>
      rw [hc] at h
      simp only [Option.map_some', Option.some.injEq] at h
      rw [← h]
      exact closeEach_clear pm.portfolios l hc
  · intro portf q fuel now received hreg h
    exact workerTurn_clear portf q fuel now received
      (channelsClear_get pm name portf hclear hreg) h

/-- The statement of C17 on `busyManager`, where only "a" is registered, open and with an
empty close channel: `DeletePortfolio("a")` returns nil, leaves the registry empty and the
portfolio closed with the signal `true` alone on its close channel; `DeletePortfolio("zz")`
returns portfolio-not-found and changes nothing. -/
theorem deletePortfolio_spec_witness :
    busyManager.channelsClear = true ∧
    (∃ portf, busyManager.DeletePortfolio "a" =
        some (none, { busyManager with portfolios := [] }, some portf) ∧
      portf.IsClosed = true ∧ portf.closedCh = [true]) ∧
    busyManager.DeletePortfolio "zz" =
      some (some (.wrap ErrNotFound "zz"), busyManager, none) := by
  obtain ⟨q, -, h1, h2, h3, -, -, -⟩ := (deletePortfolio_spec busyManager "a" rfl).1 _ rfl
  refine ⟨rfl, ⟨q, h1, h2, ?_⟩, ((deletePortfolio_spec busyManager "zz" rfl).2.1 rfl).1⟩
  rw [(h3 rfl).2]

/-! ## Manager.Start -/

/-- The trailing trigger `trailingDemo` (anchor 100, threshold 10 percent) evaluated on a
hot total of 120 USDT with a store that accepts every call comes back with the anchor
120. -/
theorem trailingDemo_reanchored (tb : ConvertedTo) (db : DB)
    (htb : TotalBalance tb .USDT = 120) (hf : db.failure = emptyStore.failure) :
    ((Trigger.ccbp trailingDemo).TryExecute tb db).2.1 =
      .ccbp { trailingDemo with startTotalCost := 120 } := by
  have htb1 : TotalBalance tb trailingDemo.currency = 120 := htb
  have hdev : ¬ devPercent 120 trailingDemo.startTotalCost < trailingDemo.percent := by
    norm_num [devPercent, trailingDemo]
  have hq : db.failure (.PortfolioTriggers_UpdateStartTotalCost
      { StartTotalCost := some trailingDemo.startTotalCost, ID := trailingDemo.id }) = none := by
    rw [hf]
    rfl
  have h : trailingDemo.TryExecute tb db =
      (.ok { Ok := true, Done := false, CurrentValue := devPercent 120 trailingDemo.startTotalCost },
        { trailingDemo with startTotalCost := 120 },
        { db with applied := db.applied ++ [.PortfolioTriggers_UpdateStartTotalCost
            { StartTotalCost := some trailingDemo.startTotalCost, ID := trailingDemo.id }] }) := by
    unfold CostChangedByPercent.TryExecute
    simp only [htb1]
    simp [hdev, DB.exec, hq]
    rfl
  show Trigger.ccbp (trailingDemo.TryExecute tb db).2.1 = _
  rw [h]

/-- On `stuckManager`, whose adapter hands out for every exchange an account whose
`Balances()` times out, `Start` returns nil; the `load` of account "b" returns the error of
its `start`, and yet "b" is registered: the portfolio whose `start` failed stays in the
registry, reporting `IsClosed = false`, with no worker. -/
theorem start_failure_stays_registered :
    ∃ pm1 pm2 portf err,
      stuckManager.queries.Accounts_SelectWithPortfolioTriggers = .ok demoAccounts ∧
      { ID := 2, Name := "b", ExchangeName := "Mars", Key := "key", Secret := "secret",
        Passphrase := none, Triggers := [] } ∈ demoAccounts ∧
      (NewPortfolio 2 "b" emptyStore emptyCache stuckGateway stuckAccount
        (some quietPublisher)).start 1 7 = some (some err, portf) ∧
      stuckManager.load 1 7
        { ID := 2, Name := "b", ExchangeName := "Mars", Key := "key", Secret := "secret",
          Passphrase := none, Triggers := [] } =
        some (some (.wrap err "failed to start portfolio scheduling for account"), pm2) ∧
      stuckManager.Start 1 7 = some (none, pm1) ∧
      mapGet? pm1.portfolios "b" = some portf ∧
      portf.IsClosed = false ∧ portf.worker = false :=
  ⟨_, _, _, _, rfl, by decide, rfl, rfl, rfl, rfl, rfl, rfl⟩

/-- C18, amended: `Manager.Start`. If the accounts query fails, `Start` returns that error,
wrapped, and changes nothing. If the query returns accounts, `Start` returns as soon as the
`load` of every account returns, and whenever it returns, it returns nil; it changes nothing
of the manager but the registry, leaves every registered portfolio as it was and touches no
name outside the accounts. The names of the accounts being distinct, for every account
whose name was not registered: nothing is registered under its name when its exchange has
no adapter, when the adapter rejects the account, or when a persisted row is bad (invalid
currency, CCBP row without percent or start total cost, CRL row without limit); otherwise
the rows are restored, one trigger for every row of a known type, in order, carrying the
row's id, currency, creation time and its limit (CRL) or its percent, start total cost and
trailing-alert flag (CCBP), and the portfolio built from them is started and registered
under the account's name, whatever the other accounts are and whatever its `start` returns:
when the `start` fails the portfolio stays registered, open and without a worker. When the
`start` returns nil the portfolio is open with its worker running, every trigger of the
registered portfolio is under the id of a persisted row of a known type, and (the rows' ids
being distinct) the trigger restored from a row of a known type is in the started portfolio
under the row's id, and it is in the registered portfolio if and only if the initial pass
did not retire it, then as its evaluation in that pass left it. -/
theorem manager_start_spec (pm : Manager) (fuel : Nat) (now : Int) :
    (∀ e, pm.queries.Accounts_SelectWithPortfolioTriggers = .error e →
      pm.Start fuel now =
        some (some (.wrap e "failed to select accounts with portfolio triggers"), pm)) ∧
    (∀ accs, pm.queries.Accounts_SelectWithPortfolioTriggers = .ok accs →
      ((∀ a ∈ accs, (Manager.load { pm with portfolios := [] } fuel now a).isSome = true) →
        (pm.Start fuel now).isSome = true) ∧
      ∀ err pm1, pm.Start fuel now = some (err, pm1) →
        err = none ∧
        pm1 = { pm with portfolios := pm1.portfolios } ∧
        (∀ k v, mapGet? pm.portfolios k = some v → mapGet? pm1.portfolios k = some v) ∧
        (∀ k, k ∉ accs.map (fun a => a.Name) →
          mapGet? pm1.portfolios k = mapGet? pm.portfolios k) ∧
        ((accs.map (fun a => a.Name)).Nodup → ∀ a ∈ accs,
          mapGet? pm.portfolios a.Name = none →
          (pm.gwsMngr a.ExchangeName = none → mapGet? pm1.portfolios a.Name = none) ∧
          (∀ gw e, pm.gwsMngr a.ExchangeName = some gw →
            gw.Account { Key := a.Key, Secret := a.Secret, Passphrase := a.Passphrase } =
              .error e →
            mapGet? pm1.portfolios a.Name = none) ∧
          (∀ gw acc, pm.gwsMngr a.ExchangeName = some gw →
            gw.Account { Key := a.Key, Secret := a.Secret, Passphrase := a.Passphrase } =
              .ok acc →
            (∃ dbt ∈ a.Triggers, dbt.bad) → mapGet? pm1.portfolios a.Name = none) ∧
          (∀ gw acc, pm.gwsMngr a.ExchangeName = some gw →
            gw.Account { Key := a.Key, Secret := a.Secret, Passphrase := a.Passphrase } =
              .ok acc →
            (∀ dbt ∈ a.Triggers, ¬ dbt.bad) →
            ∃ triggers e portf, restoreTriggers a.Triggers = .ok triggers ∧
              ((NewPortfolio a.ID a.Name pm.db pm.rdb gw acc pm.eventPublisher).addTriggers
                triggers).start fuel now = some (e, portf) ∧
              mapGet? pm1.portfolios a.Name = some portf ∧
              (e = none →
                (∀ k, k ∈ portf.triggers.map Prod.fst →
                  ∃ dbt ∈ a.Triggers, dbt.known = true ∧ dbt.ID.String = k) ∧
                ((a.Triggers.map (fun dbt => dbt.ID)).Nodup →
                  ∃ bals d p0, acc.Balances = .ok bals ∧
                    Portfolio.updateData
                      { (NewPortfolio a.ID a.Name pm.db pm.rdb gw acc
                          pm.eventPublisher).addTriggers triggers with closed := 0 }
                      fuel bals = some (.ok d, p0) ∧
                    ∀ dbt ∈ a.Triggers, dbt.known = true →
                      ∃ t, restoreTrigger dbt = .ok (some t) ∧ t.ID = dbt.ID ∧
                        (dbt.ID.String ∈ portf.triggers.map Prod.fst ↔
                          p0.retires t = false) ∧
                        mapGet? ((NewPortfolio a.ID a.Name pm.db pm.rdb gw acc
                          pm.eventPublisher).addTriggers triggers).triggers dbt.ID.String =
                            some t ∧
                        (p0.retires t = false →
                          mapGet? portf.triggers dbt.ID.String =
                            some (t.TryExecute p0.dataHolder.totalBalance p0.db).2.1))) ∧
              (e = none → portf.IsClosed = false ∧ portf.worker = true) ∧
              (∀ err, e = some err → portf.IsClosed = false ∧ portf.worker = false) ∧
              triggers.map Trigger.ID =
                (a.Triggers.filter (fun dbt => dbt.known)).map (fun dbt => dbt.ID) ∧
              ∀ dbt ∈ a.Triggers, dbt.known = true →
                ∃ cur t, t ∈ triggers ∧ Currency.Set dbt.Currency = .ok cur ∧
                  cur.String = dbt.Currency ∧
                  ((dbt.Type_ = TriggerType.CCBP.String ∧ ∃ percent startTotalCost,
                      dbt.Percent = some percent ∧ dbt.StartTotalCost = some startTotalCost ∧
                      t = .ccbp { trailingAlert := dbt.TrailingAlert, id := dbt.ID,
                                  currency := cur, startTotalCost := startTotalCost,
                                  percent := percent, createdAt := dbt.CreatedAt }) ∨
                   (dbt.Type_ = TriggerType.CRL.String ∧ ∃ limit, dbt.Limit = some limit ∧
                      t = .crl { id := dbt.ID, limit := limit, currency := cur,
                                 createdAt := dbt.CreatedAt }))))) := by
  refine ⟨?_, ?_⟩
  · intro e he
    simp [Manager.Start, he]
  · intro accs hq
    constructor
    · intro hall
      have hret := loadAll_returns fuel now accs pm hall
      unfold Manager.Start
      rw [hq]
      dsimp only
      cases hl : Manager.loadAll fuel now pm accs with
      | none => rw [hl] at hret; simp at hret
      | some pm1 => rfl
    · intro err pm1 h
      unfold Manager.Start at h
      rw [hq] at h
      dsimp only at h
      cases hl : Manager.loadAll fuel now pm accs with
      | none => rw [hl] at h; simp at h
      | some pm0 =>
        rw [hl] at h
        simp only [Option.some.injEq, Prod.mk.injEq] at h
        obtain ⟨herr, hpm⟩ := h
        subst hpm
        obtain ⟨hs, hkeep, hout, hind⟩ := loadAll_spec fuel now accs pm pm0 hl
        refine ⟨herr.symm, hs, hkeep, hout, ?_⟩
        intro hnd a ha hfresh
        obtain ⟨e1, pm2, hload, heq⟩ := hind hnd a ha
        obtain ⟨l1, l2, l3, l4⟩ := load_spec pm fuel now a hfresh
        have key : ∀ x, pm.load fuel now a = some (x, pm) →
            mapGet? pm0.portfolios a.Name = none := by
          intro x hx
          rw [hload] at hx
          simp only [Option.some.injEq, Prod.mk.injEq] at hx
          rw [heq, hx.2, hfresh]
        refine ⟨fun hn => key _ (l1 hn), ?_, ?_, ?_⟩
        · intro gw e hg hacc
          obtain ⟨x, hx, -⟩ := l2 gw e hg hacc
          exact key x hx
        · intro gw acc hg hacc hbad
          obtain ⟨x, hx⟩ := l3 gw acc hg hacc hbad
          exact key _ hx
        · intro gw acc hg hacc hgood
          rcases restoreTriggers_spec a.Triggers with ⟨⟨dbt, hd, hb⟩, -⟩ | ⟨-, triggers, hr, hids⟩
          · exact absurd hb (hgood dbt hd)
          · have hl4 := l4 gw acc triggers hg hacc hr
            rw [hload] at hl4
            cases hst : ((NewPortfolio a.ID a.Name pm.db pm.rdb gw acc
                pm.eventPublisher).addTriggers triggers).start fuel now with
            | none => rw [hst] at hl4; simp at hl4
            | some r =>
              obtain ⟨e, portf⟩ := r
              rw [hst] at hl4
              simp only [Option.map_some', Option.some.injEq, Prod.mk.injEq] at hl4
              have hc : ((NewPortfolio a.ID a.Name pm.db pm.rdb gw acc
                  pm.eventPublisher).addTriggers triggers).closed ≠ 0 := by
                simp [Portfolio.addTriggers, NewPortfolio]
              obtain ⟨-, hopen, -, hfail, hrun⟩ := start_cases _ portf fuel now e hc hst
              obtain ⟨hm1, hm2⟩ := restoreTriggers_mem a.Triggers triggers hr
              refine ⟨triggers, e, portf, hr, hst, ?_, ?_, ?_, ?_, hids, ?_⟩
              · rw [heq, hl4.2]
                exact mapGet?_mapSet_self _ _ _
              rotate_left
              · intro he
                exact ⟨by simp [Portfolio.IsClosed, hopen], hrun he⟩
              · intro err he
                exact ⟨by simp [Portfolio.IsClosed, hopen], (hfail err he).trans rfl⟩
              · intro dbt hd hkn
                obtain ⟨t, ht, hrt, -⟩ := hm1 dbt hd hkn
                obtain ⟨cur, hcur, hstr, hfields⟩ := restoreTrigger_fields dbt t hrt
                exact ⟨cur, t, ht, hcur, hstr, hfields⟩
              · intro he
                subst he
                have hndp : (((NewPortfolio a.ID a.Name pm.db pm.rdb gw acc
                    pm.eventPublisher).addTriggers triggers).triggers.map Prod.fst).Nodup :=
                  addTriggers_nodup triggers [] List.nodup_nil
                obtain ⟨bals, d, p0, hb, hu, hsub, hiff⟩ :=
                  start_pass_triggers _ portf fuel now hc hndp hst
                constructor
                · intro k hk
                  have hk2 := addTriggers_keys triggers k (hsub k hk)
                  obtain ⟨t, ht, rfl⟩ := List.mem_map.mp hk2
                  obtain ⟨dbt, hd, hkn, -, hid⟩ := hm2 t ht
                  exact ⟨dbt, hd, hkn, by rw [hid]⟩
                · intro hndr
                  have hnds0 : (triggers.map (fun t => t.ID.String)).Nodup := by
                    have h1 : ((a.Triggers.filter (fun dbt => dbt.known)).map
                        (fun dbt => dbt.ID)).Nodup :=
                      List.Nodup.sublist (List.Sublist.map _ (List.filter_sublist _)) hndr
                    rw [← hids] at h1
                    have hinj : Function.Injective UUID.String := by
                      intro x y hxy
                      cases x; cases y
                      simpa [UUID.String] using hxy
                    have := h1.map hinj
                    simpa [List.map_map, Function.comp] using this
                  refine ⟨bals, d, p0, hb, hu, ?_⟩
                  intro dbt hd hkn
                  obtain ⟨t, ht, hrt, hid⟩ := hm1 dbt hd hkn
                  refine ⟨t, hrt, hid, ?_, ?_, ?_⟩
                  rotate_left
                  · have hget := addTriggers_get triggers [] hnds0 t ht
                    rw [hid] at hget
                    exact hget
                  · intro hret
                    have hget := addTriggers_get triggers [] hnds0 t ht
                    have hv := start_pass_values _ portf p0 fuel now bals d hc hndp hst hb hu
                      _ _ (mem_of_mapGet? _ _ _ hget) hret
                    rw [hid] at hv
                    exact hv
                  have h1 : ((a.Triggers.filter (fun dbt => dbt.known)).map
                      (fun dbt => dbt.ID)).Nodup :=
                    List.Nodup.sublist (List.Sublist.map _ (List.filter_sublist _)) hndr
                  rw [← hids] at h1
                  have hinj : Function.Injective UUID.String := by
                    intro x y hxy
                    cases x; cases y
                    simpa [UUID.String] using hxy
                  have hnds : (triggers.map (fun t => t.ID.String)).Nodup := by
                    have := h1.map hinj
                    simpa [List.map_map, Function.comp] using this
                  have hget := addTriggers_get triggers [] hnds t ht
                  have hmem := mem_of_mapGet? _ _ _ hget
                  have hfin := hiff _ _ hmem
                  rw [hid] at hfin
                  exact hfin

/-- The amended statement of C18 on `demoManager`: `Start` returns nil; "a" is registered,
with its trailing trigger and without the one-shot trigger the initial pass retired (total
120, limit 100), and with no trigger for the row of unknown type; nothing is registered for
"b" (no adapter), "c" (rejected key) and "f" (invalid currency); the trailing trigger of "a"
is the restored one (threshold 10 percent) as the initial pass left it, with the anchor
120; and "a" is open with its worker running. -/
theorem manager_start_spec_witness :
    ∃ pm1 portf, demoManager.Start 1 7 = some (none, pm1) ∧
      mapGet? pm1.portfolios "a" = some portf ∧
      "t-1" ∈ portf.triggers.map Prod.fst ∧ "crl-1" ∉ portf.triggers.map Prod.fst ∧
      "x-1" ∉ portf.triggers.map Prod.fst ∧
      mapGet? pm1.portfolios "b" = none ∧ mapGet? pm1.portfolios "c" = none ∧
      mapGet? pm1.portfolios "f" = none ∧
      mapGet? portf.triggers "t-1" =
        some (.ccbp { trailingAlert := true, id := ⟨"t-1"⟩, currency := .USDT,
                      startTotalCost := 120, percent := 10, createdAt := 0 }) ∧
      portf.IsClosed = false ∧ portf.worker = true := by
  obtain ⟨hret, hspec⟩ := (manager_start_spec demoManager 1 7).2 demoAccounts rfl
  have hall : ∀ a ∈ demoAccounts,
      (Manager.load { demoManager with portfolios := [] } 1 7 a).isSome = true := by
    intro a ha
    simp only [demoAccounts, List.mem_cons, List.mem_singleton, List.not_mem_nil, or_false] at ha
    rcases ha with rfl | rfl | rfl | rfl <;> rfl
  have hsome := hret hall
  cases hst : demoManager.Start 1 7 with
  | none => rw [hst] at hsome; simp at hsome
  | some r =>
    obtain ⟨err, pm1⟩ := r
    obtain ⟨herr, -, -, -, hacc⟩ := hspec err pm1 hst
    subst herr
    have hnd : (demoAccounts.map (fun a => a.Name)).Nodup := by decide
    have hgoodA : ∀ dbt ∈ [limitRow, trailingRow,
        { limitRow with ID := ⟨"x-1"⟩, Type_ := "OTHER" }], ¬ dbt.bad := by
      intro dbt hd
      simp only [List.mem_cons, List.mem_singleton, List.not_mem_nil, or_false] at hd
      rcases hd with rfl | rfl | rfl <;>
        simp [repo.TriggerRow.bad, Currency.Set, limitRow, trailingRow, TriggerType.String]
    have hA := (hacc hnd _ (List.Mem.head _) rfl).2.2.2 binanceGateway
      (accountWith [("USDT", ⟨120⟩)]) rfl rfl hgoodA
    have hB := (hacc hnd _ (List.Mem.tail _ (List.Mem.head _)) rfl).1 rfl
    have hC := (hacc hnd _ (List.Mem.tail _ (List.Mem.tail _ (List.Mem.head _))) rfl).2.1
      _ coreErrInvalidAPIKey rfl rfl
    have hF := (hacc hnd _
      (List.Mem.tail _ (List.Mem.tail _ (List.Mem.tail _ (List.Mem.head _)))) rfl).2.2.1
      binanceGateway (accountWith [("USDT", ⟨120⟩)]) rfl rfl
      ⟨_, List.Mem.head _, Or.inl ⟨_, rfl⟩⟩
    obtain ⟨triggers, e, portf, hr, hstart, hreg, hpass, hlive, -, -, -⟩ := hA
    have hr1 : restoreTriggers
        [limitRow, trailingRow, { limitRow with ID := ⟨"x-1"⟩, Type_ := "OTHER" }] =
        .ok [.crl limitDemo, .ccbp trailingDemo] := rfl
    have htr : triggers = [.crl limitDemo, .ccbp trailingDemo] := by
      have h := hr1.symm.trans hr
      injection h with h
      exact h.symm
    subst htr
    have hstart1 : restoredPortfolio.start 1 7 = some (e, portf) := hstart
    obtain ⟨d, p0, hu, htb⟩ :=
      updateData_fresh_usdt { restoredPortfolio with closed := 0 } 1 120 0 rfl rfl rfl rfl
    have hdb : p0.db = emptyStore := congrArg Portfolio.db (updateData_frame _ p0 1 _ _ hu)
    obtain ⟨p1, hp1⟩ := start_returns_nil restoredPortfolio p0 1 7 _ d (by decide) rfl hu
    have he : e = none := by
      have h := hp1.symm.trans hstart1
      simp only [Option.some.injEq, Prod.mk.injEq] at h
      exact h.1.symm
    subst he
    obtain ⟨hkeys, hrows⟩ := hpass rfl
    obtain ⟨bals, d2, p02, hb, hu2, hrow⟩ := hrows (by decide)
    have hbals : bals = [("USDT", ⟨120⟩)] := by
      have h : (Except.ok [("USDT", (⟨120⟩ : Balance))] :
          Except Error (List (CoreCurrency × Balance))) = .ok bals := hb
      injection h with h
      exact h.symm
    subst hbals
    have hu3 : Portfolio.updateData { restoredPortfolio with closed := 0 } 1
        [("USDT", ⟨120⟩)] = some (.ok d2, p02) := hu2
    have hp0 : p02 = p0 := by
      have h := hu3.symm.trans hu
      simp only [Option.some.injEq, Prod.mk.injEq] at h
      exact h.2
    subst hp0
    obtain ⟨t1, ht1, -, hiff1, -, -⟩ := hrow limitRow (List.Mem.head _) rfl
    have ht1c : t1 = .crl limitDemo := by
      have h : (Except.ok (some (Trigger.crl limitDemo)) : Except Error (Option Trigger)) =
          .ok (some t1) := ht1
      injection h with h
      injection h with h
      exact h.symm
    subst ht1c
    have hret1 : p02.retires (.crl limitDemo) = true := by
      rw [retires_iff]
      refine ⟨_, rfl, ?_, by rw [hdb]; rfl⟩
      have htb1 : TotalBalance p02.dataHolder.totalBalance limitDemo.currency = 120 := htb
      simp only [CostReachedLimit.TryExecute, htb1]
      norm_num [limitDemo]
    obtain ⟨t2, ht2, -, hiff2, -, hpost2⟩ := hrow trailingRow (List.Mem.tail _ (List.Mem.head _)) rfl
    have ht2c : t2 = .ccbp trailingDemo := by
      have h : (Except.ok (some (Trigger.ccbp trailingDemo)) : Except Error (Option Trigger)) =
          .ok (some t2) := ht2
      injection h with h
      injection h with h
      exact h.symm
    subst ht2c
    have hret2 : p02.retires (.ccbp trailingDemo) = false := by
      cases hr2 : p02.retires (.ccbp trailingDemo) with
      | false => rfl
      | true =>
        obtain ⟨st, hst2, hdone, -⟩ := (retires_iff _ _).mp hr2
        have hnot := ccbp_trailing_not_done trailingDemo _ _ st rfl hst2
        rw [hnot] at hdone
        exact absurd hdone (by simp)
    have hv := hpost2 hret2
    rw [trailingDemo_reanchored _ _ htb (by rw [hdb])] at hv
    refine ⟨pm1, portf, rfl, hreg, hiff2.mpr hret2, ?_, ?_, hB, hC, hF, hv, (hlive rfl).1,
      (hlive rfl).2⟩
    · intro h
      have h1 := hiff1.mp h
      rw [hret1] at h1
      exact absurd h1 (by simp)
    · intro h
      obtain ⟨dbt, hd, hk, hid⟩ := hkeys _ h
      have hd1 : dbt ∈ [limitRow, trailingRow,
          { limitRow with ID := ⟨"x-1"⟩, Type_ := "OTHER" }] := hd
      simp only [List.mem_cons, List.mem_singleton, List.not_mem_nil, or_false] at hd1
      rcases hd1 with rfl | rfl | rfl
      · exact absurd hid (by decide)
      · exact absurd hid (by decide)
      · exact absurd hk (by decide)

end portfolio
